import Mathlib

/-!
# SDLGraphApi: pixel surface, rasteriser, text and caches

A shallow embedding of the routines of `draw.c` (`insideBoundaries`, `pixel`, `pixelRGB`,
`getPixel`, `floodFill`, `boundaryFill`, `drawLine`, the rectangles, `drawProgressbar`,
`drawCircle`, `drawFilledCircle`, `calculateXY`, `mapColor`, `drawStyledText`, the aligned
and the inverted image), of `rect.c`, of the image cache of `imageList.c`, of the font
cache of `fontList.c` and of `trimFromBeginning` of `strings.c`, with the properties the
specification states about them.

Modelling conventions.

* A surface is the part of `SDL_Surface` the code reads: `w`, `h`, `pitch`,
  `format->BytesPerPixel` and the pixel buffer, a list of bytes.  A surface
  pointer is an `Option SDL_Surface`; `none` is `NULL`.  A routine that writes to the
  surface returns the surface after the call next to its C return value.
* C `int` values are `Int` (arithmetic is taken without overflow), `unsigned int`
  colours are `Nat` below `2^32`; each store reduces the colour to the width written.
* The host is little-endian (`SDL_BYTEORDER == SDL_LIL_ENDIAN`).
* A run ends in `Run.ok`, in `Run.fault` when the C code would access memory
  outside the pixel buffer, dereference `NULL` or divide by zero, or in `Run.timeout`
  when the budget `fuel` of a recursion or loop is used up.  A routine does not terminate
  when no `fuel` gives a result other than `Run.timeout`.
* The image cache acts on a `World`: the files `IMG_Load` can decode, the surfaces loaded
  and freed so far, and the outcomes of `malloc`.
* `SDL_FillRect` and the `SDL_Rect` field types belong to SDL 1.2, not to the
  repository; they are modelled from the library's documented behaviour.
* `SDL_BlitSurface`, `SDL_GetRGB`, `SDL_MapRGB`, `TTF_RenderText_Solid` and the
  `double` arithmetic of `calculateXY` are external: they are parameters of the routines
  that call them, or the routine returns the arguments of the call.
* The font cache acts on a `FontWorld`: the fonts `TTF_OpenFont` can open, the fonts
  opened and closed so far, and the world of the allocator.
* A C string is a position in a memory of characters, read up to the first NUL.

The file has the definitions first (memory, pixels, fills, lines, image list, rectangles,
circles, angles, colours, text, font list, images, strings, then the notions the
statements use and the concrete inputs), then the theorems.
-/

namespace SDLGraphApi

/-- Outcome of running a routine: a value, a fault (memory access outside the buffer,
`NULL` dereference, division by zero), or an exhausted budget. -/
inductive Run (α : Type) where
  | ok : α → Run α
  | fault : Run α
  | timeout : Run α
  deriving DecidableEq

/-- Sequencing of runs: the first fault or timeout ends the run. -/
def Run.bind {α β : Type} (r : Run α) (f : α → Run β) : Run β :=
  match r with
  | Run.ok a => f a
  | Run.fault => Run.fault
  | Run.timeout => Run.timeout

/-! ## Surfaces and pixel memory -/

/-- The fields of `SDL_Surface` (SDL 1.2) used by the drawing code. -/
structure SDL_Surface where
  w : Int
  h : Int
  pitch : Nat
  BytesPerPixel : Nat
  pixels : List Nat
  deriving DecidableEq

/-- The `n` low bytes of `v`, least significant first. -/
def bytesLE (v : Nat) : Nat → List Nat
  | 0 => []
  | n + 1 => v % 256 :: bytesLE (v / 256) n

/-- The little-endian value of the `n` bytes of `m` starting at `o`. -/
def readLE (m : List Nat) (o : Nat) : Nat → Nat
  | 0 => 0
  | n + 1 => m.getD o 0 + 256 * readLE m (o + 1) n

/-- Overwrite the bytes of `m` from position `o` on with `bs`. -/
def writeBytes (m : List Nat) (o : Nat) : List Nat → List Nat
  | [] => m
  | b :: bs => writeBytes (m.set o b) (o + 1) bs

/-- A load of `n` bytes at byte offset `off` from the start of the buffer. -/
def load (m : List Nat) (off : Int) (n : Nat) : Run Nat :=
  if 0 ≤ off ∧ off + n ≤ m.length then Run.ok (readLE m off.toNat n) else Run.fault

/-- A store of the bytes `bs` at byte offset `off` from the start of the buffer. -/
def store (m : List Nat) (off : Int) (bs : List Nat) : Run (List Nat) :=
  if 0 ≤ off ∧ off + bs.length ≤ m.length then Run.ok (writeBytes m off.toNat bs)
  else Run.fault

/-- Source: `insideBoundaries` (draw.c). -/
def insideBoundaries (surface : Option SDL_Surface) (x y : Int) : Int :=
  match surface with
  | some s => if x > s.w ∨ y > s.h ∨ x < 0 ∨ y < 0 then 0 else 1
  | none => 0

/-- Source: `pixel` (draw.c).  Returns the C return value and the surface after the call.
The 16- and 32-bit cases index a `Uint16 *` / `Uint32 *`, so the byte offset is the
element index times the element size. -/
def pixel (surface : Option SDL_Surface) (x y : Int) (color : Nat) :
    Run (Int × Option SDL_Surface) :=
  if insideBoundaries surface x y ≠ 0 then
    match surface with
    | some s =>
      match s.BytesPerPixel with
      | 1 =>
        (store s.pixels (y * s.pitch + x) [color % 256]).bind fun px =>
          Run.ok (1, some { s with pixels := px })
      | 2 =>
        (store s.pixels (2 * (Int.tdiv (y * s.pitch) 2 + x)) (bytesLE (color % 65536) 2)).bind
          fun px => Run.ok (1, some { s with pixels := px })
      | 3 =>
        (store s.pixels (y * s.pitch + x * 3)
          [color % 256, (color / 256) % 256, (color / 65536) % 256]).bind
          fun px => Run.ok (1, some { s with pixels := px })
      | 4 =>
        (store s.pixels (4 * (Int.tdiv (y * s.pitch) 4 + x)) (bytesLE (color % 4294967296) 4)).bind
          fun px => Run.ok (1, some { s with pixels := px })
      | _ => Run.ok (1, some s)
    | none => Run.ok (0, none)
  else Run.ok (0, surface)

/-- Source: `getPixel` (draw.c).  The surface is dereferenced without a `NULL` check.
The 2-byte case reads an `int` (4 bytes) at the pixel address.  The 4-byte case reads a
`signed long` and returns it as `unsigned int`: the low 32 bits, which on a little-endian
host are the four bytes at the pixel address. -/
def getPixel (surface : Option SDL_Surface) (x y : Int) : Run Nat :=
  match surface with
  | none => Run.fault
  | some s =>
    match s.BytesPerPixel with
    | 1 => load s.pixels (y * s.pitch + x * 1) 1
    | 2 => load s.pixels (y * s.pitch + x * 2) 4
    | 3 => load s.pixels (y * s.pitch + x * 3) 3
    | 4 => load s.pixels (y * s.pitch + x * 4) 4
    | _ => Run.ok 0

/-! ## Recursive fills -/

/-- Source: `floodFill` (draw.c).  `fuel` bounds the depth of the recursion; the C return
values of the four recursive calls are discarded, the surface they leave is passed on. -/
def floodFill : Nat → Option SDL_Surface → Int → Int → Nat → Nat →
    Run (Int × Option SDL_Surface)
  | 0, _, _, _, _, _ => Run.timeout
  | fuel + 1, surface, x, y, color, fillColor =>
    if insideBoundaries surface x y ≠ 0 then
      match surface with
      | some _ =>
        (getPixel surface x y).bind fun p =>
          if p = color then
            (pixel surface x y fillColor).bind fun r =>
              if r.1 ≠ 0 then
                (floodFill fuel r.2 (x + 1) y color fillColor).bind fun r1 =>
                (floodFill fuel r1.2 (x - 1) y color fillColor).bind fun r2 =>
                (floodFill fuel r2.2 x (y + 1) color fillColor).bind fun r3 =>
                (floodFill fuel r3.2 x (y - 1) color fillColor).bind fun r4 =>
                Run.ok (1, r4.2)
              else Run.ok (0, r.2)
          else Run.ok (0, surface)
      | none => Run.ok (0, surface)
    else Run.ok (0, surface)

/-- Source: `boundaryFill` (draw.c).  `fuel` bounds the depth of the recursion. -/
def boundaryFill : Nat → Option SDL_Surface → Int → Int → Nat → Nat →
    Run (Int × Option SDL_Surface)
  | 0, _, _, _, _, _ => Run.timeout
  | fuel + 1, surface, x, y, color, fillColor =>
    if insideBoundaries surface x y ≠ 0 then
      match surface with
      | some _ =>
        (getPixel surface x y).bind fun p =>
          if p ≠ color then
            (pixel surface x y fillColor).bind fun r =>
              if r.1 ≠ 0 then
                (boundaryFill fuel r.2 (x + 1) y color fillColor).bind fun r1 =>
                (boundaryFill fuel r1.2 (x - 1) y color fillColor).bind fun r2 =>
                (boundaryFill fuel r2.2 x (y + 1) color fillColor).bind fun r3 =>
                (boundaryFill fuel r3.2 x (y - 1) color fillColor).bind fun r4 =>
                Run.ok (1, r4.2)
              else Run.ok (0, r.2)
          else Run.ok (0, surface)
      | none => Run.ok (0, surface)
    else Run.ok (0, surface)

/-! ## Lines -/

/-- Source: the first `while` loop of `drawLine` (draw.c), the case `dx >= dy`.
`plot` stands for the call `pixel(surface, x1, y1, color)`, the only access to the
surface; `fuel` bounds the number of iterations.  Returns the state and the final
`(x1, y1)`. -/
def drawLineLoopX {σ : Type} (plot : σ → Int → Int → Run σ) :
    Nat → σ → Int → Int → Int → Int → Int → Int → Int → Int → Run (σ × Int × Int)
  | 0, _, _, _, _, _, _, _, _, _ => Run.timeout
  | fuel + 1, st, x1, y1, e, x2, inx, iny, dx, dy =>
    if x1 ≠ x2 then
      (plot st x1 y1).bind fun st1 =>
        if e ≥ 0 then
          drawLineLoopX plot fuel st1 (x1 + inx) (y1 + iny) (e - dx + dy) x2 inx iny dx dy
        else
          drawLineLoopX plot fuel st1 (x1 + inx) y1 (e + dy) x2 inx iny dx dy
    else Run.ok (st, x1, y1)

/-- Source: the second `while` loop of `drawLine` (draw.c), the case `dx < dy`. -/
def drawLineLoopY {σ : Type} (plot : σ → Int → Int → Run σ) :
    Nat → σ → Int → Int → Int → Int → Int → Int → Int → Int → Run (σ × Int × Int)
  | 0, _, _, _, _, _, _, _, _, _ => Run.timeout
  | fuel + 1, st, x1, y1, e, y2, inx, iny, dx, dy =>
    if y1 ≠ y2 then
      (plot st x1 y1).bind fun st1 =>
        if e ≥ 0 then
          drawLineLoopY plot fuel st1 (x1 + inx) (y1 + iny) (e - dy + dx) y2 inx iny dx dy
        else
          drawLineLoopY plot fuel st1 x1 (y1 + iny) (e + dx) y2 inx iny dx dy
    else Run.ok (st, x1, y1)

/-- Source: the body of `drawLine` (draw.c) for a non-null surface, with the `pixel`
calls abstracted as `plot`.  `int` arithmetic is taken without overflow. -/
def drawLineWith {σ : Type} (plot : σ → Int → Int → Run σ) (fuel : Nat) (st : σ)
    (x1 y1 x2 y2 : Int) : Run σ :=
  let dx0 := x2 - x1
  let dy0 := y2 - y1
  let inx : Int := if dx0 > 0 then 1 else -1
  let iny : Int := if dy0 > 0 then 1 else -1
  let dx : Int := dx0.natAbs
  let dy : Int := dy0.natAbs
  if dx ≥ dy then
    (drawLineLoopX plot fuel st x1 y1 (2 * dy - dx) x2 inx iny (2 * dx) (2 * dy)).bind
      fun r => plot r.1 r.2.1 r.2.2
  else
    (drawLineLoopY plot fuel st x1 y1 (2 * dx - dy) y2 inx iny (2 * dx) (2 * dy)).bind
      fun r => plot r.1 r.2.1 r.2.2

/-- The call `pixel(surface, x, y, color)` with its return value discarded. -/
def plotPixel (color : Nat) (surface : Option SDL_Surface) (x y : Int) :
    Run (Option SDL_Surface) :=
  (pixel surface x y color).bind fun r => Run.ok r.2

/-- Source: `drawLine` (draw.c).  Returns the C return value and the surface after the
call.  `fuel` bounds the number of loop iterations. -/
def drawLine (fuel : Nat) (surface : Option SDL_Surface) (x1 y1 x2 y2 : Int) (color : Nat) :
    Run (Int × Option SDL_Surface) :=
  match surface with
  | some _ =>
    (drawLineWith (plotPixel color) fuel surface x1 y1 x2 y2).bind fun s => Run.ok (1, s)
  | none => Run.ok (0, none)

/-- The positions `drawLine` passes to `pixel`, in call order: the body of `drawLine`
run with a `plot` that records its arguments. -/
def drawLinePlots (fuel : Nat) (x1 y1 x2 y2 : Int) : Run (List (Int × Int)) :=
  drawLineWith (fun l x y => Run.ok (l ++ [(x, y)])) fuel [] x1 y1 x2 y2

/-! ## Image list -/

/-- Modelled from the spec: the declaration of `struct imageListItem` (imageList.h) is not
among the sources. An entry holds the key, `char *path`, and the resource,
`SDL_Surface *image`, the two fields `imageList.c` uses; `none` is `NULL`, and a loaded
image is identified by its address, a number. -/
structure imageListItem where
  path : Option String
  image : Option Nat
  deriving DecidableEq

/-- Modelled from the spec: the declaration of `struct imageList` (imageList.h) is not
among the sources. The list holds the `item` array and `count`, the fields `imageList.c`
uses besides the three function pointers. The array is the list of its allocated
entries; `count` is the field the loops run to. -/
structure imageList where
  item : List imageListItem
  count : Nat
  deriving DecidableEq

/-- What the image cache sees of the outside: which files `IMG_Load` can decode, the
address the next loaded surface gets, the `IMG_Load` and `SDL_FreeSurface` calls made so
far, and the outcomes of the coming `malloc` calls (`true` succeeds; past the end of the
list every call succeeds). -/
structure World where
  files : List String
  nextSurface : Nat
  loadCalls : List String
  freed : List Nat
  mallocPlan : List Bool
  deriving DecidableEq

/-- One `malloc` call: whether it returns non-`NULL`, and the world after it. -/
def malloc (w : World) : Bool × World :=
  match w.mallocPlan with
  | [] => (true, w)
  | b :: rest => (b, { w with mallocPlan := rest })

/-- External: `IMG_Load(path)`.  A decodable file gives a new surface at a fresh
address, anything else gives `NULL`; the call is recorded. -/
def IMG_Load (w : World) (path : String) : Option Nat × World :=
  if path ∈ w.files then
    (some w.nextSurface,
      { w with nextSurface := w.nextSurface + 1, loadCalls := w.loadCalls ++ [path] })
  else (none, { w with loadCalls := w.loadCalls ++ [path] })

/-- External: `SDL_FreeSurface(surface)`; freeing `NULL` does nothing. -/
def SDL_FreeSurface (w : World) (surface : Option Nat) : World :=
  match surface with
  | some a => { w with freed := w.freed ++ [a] }
  | none => w

/-- Source: `initializeText` (filesys.c): a copy of the string, or `NULL` when `malloc`
fails. -/
def initializeText (w : World) (text : String) : Option String × World :=
  let r := malloc w
  if r.1 then (some text, r.2) else (none, r.2)

/-- Source: the loop of `findImage` (imageList.c), from index `i` with `n` entries to go.
Reading an entry the array does not have is a fault. -/
def findImageLoop (item : List imageListItem) (name : String) (i : Nat) :
    Nat → Run (Option Nat)
  | 0 => Run.ok none
  | n + 1 =>
    match item.get? i with
    | none => Run.fault
    | some it =>
      match it.path with
      | some p =>
        if name = p then
          match it.image with
          | some img => Run.ok (some img)
          | none => findImageLoop item name (i + 1) n
        else findImageLoop item name (i + 1) n
      | none => findImageLoop item name (i + 1) n

/-- Source: `findImage` (imageList.c). -/
def findImage (list : Option imageList) (name : String) : Run (Option Nat) :=
  match list with
  | some l => findImageLoop l.item name 0 l.count
  | none => Run.ok none

/-- Source: `addImageToDataBase` (imageList.c).  Returns the C return value, the list
and the world after the call. -/
def addImageToDataBase (w : World) (list : Option imageList) (name : String)
    (image : Option Nat) : Run (Option Nat × Option imageList × World) :=
  match list, image with
  | some l, some img =>
    let r := malloc w
    if r.1 then
      if l.count ≤ l.item.length then
        let t := initializeText r.2 name
        match t.1 with
        | some p =>
          Run.ok (some img,
            some { item := l.item.take l.count ++ [{ path := some p, image := some img }],
                   count := l.count + 1 },
            t.2)
        | none => Run.ok (none, list, t.2)
      else Run.fault
    else Run.ok (none, list, r.2)
  | _, _ => Run.ok (none, list, w)

/-- Source: `addLoadedImage` (imageList.c). -/
def addLoadedImage (w : World) (list : Option imageList) (path : String)
    (newImage : Option Nat) : Run (Int × Option imageList × World) :=
  match newImage, list with
  | some _, some _ =>
    (findImage list path).bind fun f =>
      if f ≠ none then Run.ok (-2, list, SDL_FreeSurface w newImage)
      else
        (addImageToDataBase w list path newImage).bind fun r =>
          if r.1 ≠ none then Run.ok (0, r.2.1, r.2.2) else Run.ok (-1, r.2.1, r.2.2)
  | _, _ => Run.ok (-1, list, w)

/-- Source: `addImage` (imageList.c).  When `addImageToDataBase` fails, `surfix` has been
overwritten with its `NULL` result, which is what `SDL_FreeSurface` receives. -/
def addImage (w : World) (list : Option imageList) (path : String) :
    Run (Option Nat × Option imageList × World) :=
  match list with
  | some _ =>
    (findImage list path).bind fun f =>
      match f with
      | some img => Run.ok (some img, list, w)
      | none =>
        let r := IMG_Load w path
        match r.1 with
        | none => Run.ok (none, list, r.2)
        | some img0 =>
          (addImageToDataBase r.2 list path (some img0)).bind fun d =>
            match d.1 with
            | some img => Run.ok (some img, d.2.1, d.2.2)
            | none => Run.ok (none, d.2.1, SDL_FreeSurface d.2.2 none)
  | none => Run.ok (none, none, w)

/-- Source: `initImageList` (imageList.c): a zeroed list, or `NULL` when `malloc` fails. -/
def initImageList (w : World) : Option imageList × World :=
  let r := malloc w
  if r.1 then (some { item := [], count := 0 }, r.2) else (none, r.2)

/-! ## Rectangles -/

/-- Conversion of an `int` to `Sint16`, the type of `SDL_Rect.x` and `SDL_Rect.y`. -/
def toSint16 (n : Int) : Int := (n + 32768) % 65536 - 32768

/-- Conversion of an `int` to `Uint16`, the type of `SDL_Rect.w` and `SDL_Rect.h`. -/
def toUint16 (n : Int) : Int := n % 65536

/-- External: `SDL_Rect` (SDL 1.2), `Sint16 x, y; Uint16 w, h`. -/
structure SDL_Rect where
  x : Int
  y : Int
  w : Int
  h : Int
  deriving DecidableEq

/-- Source: `initRectangle` (rect.c) on a non-null rectangle: each `int` is converted to
the type of the field it is stored in. -/
def initRectangle (x y w h : Int) : SDL_Rect :=
  { x := toSint16 x, y := toSint16 y, w := toUint16 w, h := toUint16 h }

/-- Source: `recalculateRectangleDimension` (rect.c) with four non-null pointers: the new
values of `x`, `y`, `w`, `h`. -/
def recalculateRectangleDimension (x y w h change : Int) : Int × Int × Int × Int :=
  (x + change, y + change, w - 2 * change, h - 2 * change)

/-- External: `SDL_FillRect(dst, &rect, color)` (SDL 1.2) on a surface whose clip
rectangle is the whole surface. The rectangle is intersected with the surface
(`SDL_IntersectRect`), and every pixel of the intersection gets the colour, stored in the
surface's pixel width, least significant byte first; all other bytes stay. Byte `i` of
the buffer lies in row `i / pitch`, and within the row in pixel `(i % pitch) / bpp`. -/
def SDL_FillRect (s : SDL_Surface) (rect : SDL_Rect) (color : Nat) : SDL_Surface :=
  let x0 := max rect.x 0
  let x1 := min (rect.x + rect.w) s.w
  let y0 := max rect.y 0
  let y1 := min (rect.y + rect.h) s.h
  { s with
    pixels := s.pixels.mapIdx fun i b =>
      let row : Int := (i / s.pitch : Nat)
      let col : Int := (i % s.pitch / s.BytesPerPixel : Nat)
      if x0 ≤ col ∧ col < x1 ∧ y0 ≤ row ∧ row < y1 then
        color / 256 ^ (i % s.pitch % s.BytesPerPixel) % 256
      else b }

/-- Source: `drawRectangle` (draw.c). -/
def drawRectangle (surface : Option SDL_Surface) (x y w h : Int) (color : Nat) :
    Run (Int × Option SDL_Surface) :=
  match surface with
  | some s => Run.ok (1, some (SDL_FillRect s (initRectangle x y w h) color))
  | none => Run.ok (0, none)

/-- Source: the `while` loop of `drawFilledRectangle` (draw.c). `lineFuel` is the budget
of each `drawLine` call, the first `Nat` argument the budget of the loop. -/
def drawFilledRectangleLoop (lineFuel : Nat) (x y width height : Int) (color : Nat) :
    Nat → Option SDL_Surface → Int → Run (Option SDL_Surface)
  | 0, _, _ => Run.timeout
  | fuel + 1, surface, i =>
    if i < y + height then
      (drawLine lineFuel surface x i (x + width) i color).bind fun r =>
        drawFilledRectangleLoop lineFuel x y width height color fuel r.2 (i + 1)
    else Run.ok surface

/-- Source: `drawFilledRectangle` (draw.c). -/
def drawFilledRectangle (fuel : Nat) (surface : Option SDL_Surface) (x y width height : Int)
    (color : Nat) : Run (Int × Option SDL_Surface) :=
  match surface with
  | some _ =>
    (drawFilledRectangleLoop fuel x y width height color fuel surface y).bind fun s =>
      Run.ok (1, s)
  | none => Run.ok (0, none)

/-- Source: `drawRectangleFrame` (draw.c). -/
def drawRectangleFrame (fuel : Nat) (surface : Option SDL_Surface) (x y width height : Int)
    (color : Nat) : Run (Int × Option SDL_Surface) :=
  match surface with
  | some _ =>
    (drawLine fuel surface x y (x + width) y color).bind fun r1 =>
    (drawLine fuel r1.2 x (y + height) (x + width) (y + height) color).bind fun r2 =>
    (drawLine fuel r2.2 x y x (y + height) color).bind fun r3 =>
    (drawLine fuel r3.2 (x + width) y (x + width) (y + height) color).bind fun r4 =>
    Run.ok (1, r4.2)
  | none => Run.ok (0, none)

/-- Source: `drawFramedRectangle` (draw.c). -/
def drawFramedRectangle (surface : Option SDL_Surface) (x y w h : Int)
    (frame background : Nat) : Run (Int × Option SDL_Surface) :=
  match surface with
  | some _ =>
    if frame = background then drawRectangle surface x y w h frame
    else
      (drawRectangle surface x y w h frame).bind fun r1 =>
        let d := recalculateRectangleDimension x y w h 1
        drawRectangle r1.2 d.1 d.2.1 d.2.2.1 d.2.2.2 background
  | none => Run.ok (0, none)

/-- External (C, IEEE 754 single precision): the value of `(int)(float)n`. An `int` below
`2^24` in magnitude is a `float`; a larger one is rounded to 24 significant bits, to
nearest, ties to even. -/
def floatRound (n : Int) : Int :=
  if n.natAbs < 16777216 then n
  else
    let e := Nat.log2 n.natAbs - 23
    let q := n.natAbs / 2 ^ e
    let r := n.natAbs % 2 ^ e
    let q2 := if 2 * r > 2 ^ e ∨ (2 * r = 2 ^ e ∧ q % 2 = 1) then q + 1 else q
    Int.sign n * ((q2 * 2 ^ e : Nat) : Int)

/-- Source: the width `(int)final` of the filled bar in `drawProgressbar` (draw.c), from
the inner width `w`, or a fault when `max - min` is zero: the clamped value times `w`,
divided by `max - min` with C's truncating `int` division, then converted to `float`
and back. -/
def progressbarFill (w min max value : Int) : Run Int :=
  let v := if value < min then min else if value > max then max else value
  if max - min = 0 then Run.fault else Run.ok (floatRound (Int.tdiv (v * w) (max - min)))

/-- Source: `drawProgressbar` (draw.c). -/
def drawProgressbar (surface : Option SDL_Surface) (x y w h : Int)
    (bgcol fcol scol sbgcol : Nat) (min max value : Int) : Run (Int × Option SDL_Surface) :=
  match surface with
  | some _ =>
    if max ≠ 0 then
      (drawFramedRectangle surface x y w h fcol bgcol).bind fun r1 =>
        let d := recalculateRectangleDimension x y w h 3
        (drawRectangle r1.2 d.1 d.2.1 d.2.2.1 d.2.2.2 sbgcol).bind fun r2 =>
        (progressbarFill d.2.2.1 min max value).bind fun final =>
        (drawRectangle r2.2 d.1 d.2.1 final d.2.2.2 scol).bind fun r3 =>
        Run.ok (1, r3.2)
    else Run.ok (0, surface)
  | none => Run.ok (0, none)

/-! ## Circles and `pixelRGB` -/

/-- Source: the `while` loop of `drawCircle` (draw.c), with the eight `pixel` calls
abstracted as `plot`. -/
def drawCircleLoop {σ : Type} (plot : σ → Int → Int → Run σ) (midx midy : Int) :
    Nat → σ → Int → Int → Int → Int → Int → Run σ
  | 0, _, _, _, _, _, _ => Run.timeout
  | fuel + 1, st, x, y, x_change, y_change, radius_error =>
    if x ≥ y then
      (plot st (midx + y) (midy - x)).bind fun s1 =>
      (plot s1 (midx + x) (midy - y)).bind fun s2 =>
      (plot s2 (midx + x) (midy + y)).bind fun s3 =>
      (plot s3 (midx + y) (midy + x)).bind fun s4 =>
      (plot s4 (midx - y) (midy + x)).bind fun s5 =>
      (plot s5 (midx - x) (midy + y)).bind fun s6 =>
      (plot s6 (midx - x) (midy - y)).bind fun s7 =>
      (plot s7 (midx - y) (midy - x)).bind fun s8 =>
        if 2 * (radius_error + y_change) + x_change > 0 then
          drawCircleLoop plot midx midy fuel s8 (x - 1) (y + 1) (x_change + 2) (y_change + 2)
            (radius_error + y_change + x_change)
        else
          drawCircleLoop plot midx midy fuel s8 x (y + 1) x_change (y_change + 2)
            (radius_error + y_change)
    else Run.ok st

/-- Source: the body of `drawCircle` (draw.c) for a non-null surface. `midx` and `midy`
are `Uint16` values and `radius` is a `Uint8` value, promoted to `int`. -/
def drawCircleWith {σ : Type} (plot : σ → Int → Int → Run σ) (fuel : Nat) (st : σ)
    (midx midy radius : Nat) : Run σ :=
  drawCircleLoop plot midx midy fuel st radius 0 (1 - 2 * radius) 1 0

/-- Source: `drawCircle` (draw.c). -/
def drawCircle (fuel : Nat) (surface : Option SDL_Surface) (midx midy radius : Nat)
    (color : Nat) : Run (Int × Option SDL_Surface) :=
  match surface with
  | some _ =>
    (drawCircleWith (plotPixel color) fuel surface midx midy radius).bind fun s =>
      Run.ok (1, s)
  | none => Run.ok (0, none)

/-- The positions `drawCircle` passes to `pixel`, in call order. -/
def drawCirclePlots (fuel : Nat) (midx midy radius : Nat) : Run (List (Int × Int)) :=
  drawCircleWith (fun l x y => Run.ok (l ++ [(x, y)])) fuel [] midx midy radius

/-- Source: the `while` loop of `drawFilledCircle` (draw.c). `lineFuel` is the budget of
each `drawLine` call. -/
def drawFilledCircleLoop (lineFuel : Nat) (midx midy : Int) (color : Nat) :
    Nat → Option SDL_Surface → Int → Int → Int → Int → Int → Run (Option SDL_Surface)
  | 0, _, _, _, _, _, _ => Run.timeout
  | fuel + 1, surface, x, y, x_change, y_change, radius_error =>
    if x ≥ y then
      (drawLine lineFuel surface (midx - x) (midy - y) (midx + x) (midy - y) color).bind
        fun r1 =>
      (drawLine lineFuel r1.2 (midx - y) (midy - x) (midx + y) (midy - x) color).bind
        fun r2 =>
      (drawLine lineFuel r2.2 (midx - x) (midy + y) (midx + x) (midy + y) color).bind
        fun r3 =>
      (drawLine lineFuel r3.2 (midx - y) (midy + x) (midx + y) (midy + x) color).bind
        fun r4 =>
        if 2 * (radius_error + y_change) + x_change > 0 then
          drawFilledCircleLoop lineFuel midx midy color fuel r4.2 (x - 1) (y + 1)
            (x_change + 2) (y_change + 2) (radius_error + y_change + x_change)
        else
          drawFilledCircleLoop lineFuel midx midy color fuel r4.2 x (y + 1) x_change
            (y_change + 2) (radius_error + y_change)
    else Run.ok surface

/-- Source: `drawFilledCircle` (draw.c). -/
def drawFilledCircle (fuel : Nat) (surface : Option SDL_Surface) (midx midy radius : Nat)
    (color : Nat) : Run (Int × Option SDL_Surface) :=
  match surface with
  | some _ =>
    (drawFilledCircleLoop fuel midx midy color fuel surface radius 0 (1 - 2 * radius) 1 0).bind
      fun s => Run.ok (1, s)
  | none => Run.ok (0, none)

/-- Source: `pixelRGB` (draw.c). `mapRGB r g b` stands for the external
`SDL_MapRGB(surface->format, r, g, b)`. The store is an `unsigned int` at element
`x + y` of the buffer taken as `unsigned int *`. -/
def pixelRGB (mapRGB : Int → Int → Int → Nat) (surface : Option SDL_Surface)
    (x y r g b : Int) : Run (Int × Option SDL_Surface) :=
  match surface with
  | some s =>
    (store s.pixels (4 * (x + y)) (bytesLE (mapRGB r g b % 4294967296) 4)).bind fun px =>
      Run.ok (1, some { s with pixels := px })
  | none => Run.ok (0, none)

/-- Source: the `while` loop of `drawCircle` (draw.c) with the `pixel` calls left out:
the values of `(x, y, radius_error)` at the start of each iteration, in order. -/
def drawCircleStates : Nat → Int → Int → Int → Int → Int → Run (List (Int × Int × Int))
  | 0, _, _, _, _, _ => Run.timeout
  | fuel + 1, x, y, x_change, y_change, radius_error =>
    if x ≥ y then
      (if 2 * (radius_error + y_change) + x_change > 0 then
        drawCircleStates fuel (x - 1) (y + 1) (x_change + 2) (y_change + 2)
          (radius_error + y_change + x_change)
      else
        drawCircleStates fuel x (y + 1) x_change (y_change + 2)
          (radius_error + y_change)).bind fun l => Run.ok ((x, y, radius_error) :: l)
    else Run.ok []

/-! ## Angles, colours and text -/

/-- Modelled from the spec: the macro `VAL_BETWEEN` (draw.h) is not among the sources.
The label `case VAL_BETWEEN(a, b):` stands for the degrees of the range `[a, b]`, both
ends included. -/
def VAL_BETWEEN (a b degree : Int) : Prop := a ≤ degree ∧ degree ≤ b

instance (a b degree : Int) : Decidable (VAL_BETWEEN a b degree) := by
  unfold VAL_BETWEEN
  infer_instance

/-- Source: `calculateXY` (draw.c). `cosPart radius degree` stands for the `int` value
of `radius * cos((degree * M_PI) / 180)` and `sinPart radius degree` for that of
`radius * sin((degree * M_PI) / 180)`; `x` and `y` are the values of `*x` and `*y` before
the call. Returns the C return value and `*x`, `*y` after the call. -/
def calculateXY (cosPart sinPart : Int → Int → Int) (radius degree x y : Int) :
    Int × Int × Int :=
  if VAL_BETWEEN 0 90 degree ∨ VAL_BETWEEN 181 270 degree then
    (0, cosPart radius degree, sinPart radius degree)
  else if VAL_BETWEEN 91 180 degree ∨ VAL_BETWEEN 271 360 degree then
    (0, sinPart radius degree, cosPart radius degree)
  else (-1, x, y)

/-- External: `SDL_Color` (SDL 1.2), the `Uint8` fields `r`, `g`, `b` in this order. -/
structure SDL_Color where
  r : Nat
  g : Nat
  b : Nat
  deriving DecidableEq

/-- Source: `mapColor` (draw.c): the initialiser
`{(color & 0xFF), ((color & 0xFF00) >> 8), ((color & 0xFF0000) >> 16)}`. -/
def mapColor (color : Nat) : SDL_Color :=
  { r := (color &&& 0xFF) % 256,
    g := ((color &&& 0xFF00) >>> 8) % 256,
    b := ((color &&& 0xFF0000) >>> 16) % 256 }

/-- Source: the initialiser of the local `color` in `drawText`, `renderText` and
`drawStyledText` (draw.c), the same expression in the three:
`{(colour & 0xFF0000) >> 16, (colour & 0xFF00) >> 8, (colour & 0xFF)}`. -/
def textColor (colour : Nat) : SDL_Color :=
  { r := ((colour &&& 0xFF0000) >>> 16) % 256,
    g := ((colour &&& 0xFF00) >>> 8) % 256,
    b := (colour &&& 0xFF) % 256 }

/-- External: what the text routines see of a `TTF_Font` (SDL_ttf): its style bits. -/
structure TTF_Font where
  style : Int
  deriving DecidableEq

/-- External: `TTF_STYLE_NORMAL` (SDL_ttf). -/
def TTF_STYLE_NORMAL : Int := 0

/-- External: `TTF_SetFontStyle(font, style)` (SDL_ttf). -/
def TTF_SetFontStyle (_font : TTF_Font) (style : Int) : TTF_Font := { style := style }

/-- Source: `drawStyledText` (draw.c). `render font text color` stands for the external
`TTF_RenderText_Solid`, which returns the rendered surface or `NULL`. Returns the C
return value, the font after the call, and the arguments of the `SDL_BlitSurface` call
when there is one: the rendered text, the source rectangle and the destination
rectangle. -/
def drawStyledText (render : TTF_Font → String → SDL_Color → Option SDL_Surface)
    (x y w : Int) (text : Option String) (surface : Option SDL_Surface)
    (font : Option TTF_Font) (colour : Nat) (style : Int) :
    Int × Option TTF_Font × Option (SDL_Surface × SDL_Rect × SDL_Rect) :=
  match surface, font, text with
  | some _, some f, some t =>
    let f1 := TTF_SetFontStyle f style
    match render f1 t (textColor colour) with
    | some rendText =>
      let src := initRectangle 0 0 (if w = 0 then rendText.w else w) rendText.h
      let rect := initRectangle x y (if w = 0 then rendText.w else w) rendText.h
      (1, some (TTF_SetFontStyle f1 TTF_STYLE_NORMAL), some (rendText, src, rect))
    | none => (0, some f1, none)
  | _, _, _ => (0, font, none)

/-! ## Images -/

/-- External (C): the conversion to `Sint16` of a `float` whose value is the integer `v`;
undefined, here a fault, when `v` is not a `Sint16` value. -/
def floatToSint16 (v : Int) : Run Int :=
  if -32768 ≤ v ∧ v ≤ 32767 then Run.ok v else Run.fault

/-- Source: `calculateImageMidPoint` (draw.c). `src` is the rectangle before the call;
returns the C return value and the rectangle after it. The surface is dereferenced
without a `NULL` check. `surface->w / 2` is an `int` division whose result is converted
to `float`; the differences are `float` values converted to the `Sint16` fields. -/
def calculateImageMidPoint (src : SDL_Rect) (image surface : Option SDL_Surface) :
    Run (Int × SDL_Rect) :=
  match image with
  | some img =>
    match surface with
    | some s =>
      let mx := floatRound (Int.tdiv s.w 2)
      let my := floatRound (Int.tdiv s.h 2)
      let ix := floatRound (Int.tdiv img.w 2)
      let iy := floatRound (Int.tdiv img.h 2)
      (floatToSint16 (floatRound (mx - ix))).bind fun x =>
      (floatToSint16 (floatRound (my - iy))).bind fun y =>
      Run.ok (1, { x := x, y := y, w := toUint16 img.w, h := toUint16 img.h })
    | none => Run.fault
  | none => Run.ok (0, src)

/-- Source: `drawCenteredImage` (draw.c). `dest` is the indeterminate initial value of
the local `dest`. Returns the C return value and the rectangles of the
`SDL_BlitSurface(image, &src, surface, &dest)` call when there is one: `src`, then
`dest`. -/
def drawCenteredImage (dest : SDL_Rect) (surface image : Option SDL_Surface) :
    Run (Int × Option (SDL_Rect × SDL_Rect)) :=
  match surface, image with
  | some _, some img =>
    (calculateImageMidPoint dest image surface).bind fun r =>
      Run.ok (1, some (initRectangle 0 0 img.w img.h, r.2))
  | _, _ => Run.ok (0, none)

/-- Source: `drawAlignedImage` (draw.c). The assignments `dest.x = ... x` and
`dest.y = ... y` store an `int` in a `Sint16` field. Returns as `drawCenteredImage`. -/
def drawAlignedImage (dest : SDL_Rect) (surface image : Option SDL_Surface) (x y : Int) :
    Run (Int × Option (SDL_Rect × SDL_Rect)) :=
  match surface, image with
  | some _, some img =>
    (calculateImageMidPoint dest image surface).bind fun r =>
      let d1 : SDL_Rect := { r.2 with x := if x < 0 then r.2.x else toSint16 x }
      let d2 : SDL_Rect := { d1 with y := if y < 0 then d1.y else toSint16 y }
      Run.ok (1, some (initRectangle 0 0 img.w img.h, d2))
  | _, _ => Run.ok (0, none)

/-- Source: the inner `for` loop of `drawImageInverted` (draw.c), over the `x` of the
row `y` of the image. `getRGB color` stands for the external
`SDL_GetRGB(color, fmt, &r, &g, &b)`; `r`, `g` and `b` are `unsigned char`. -/
def drawImageInvertedRow (getRGB : Nat → Nat × Nat × Nat) (image : SDL_Surface)
    (dx dy y : Int) : Nat → Option SDL_Surface → Int → Run (Option SDL_Surface)
  | 0, _, _ => Run.timeout
  | fuel + 1, surface, x =>
    if x < image.w then
      (getPixel (some image) x y).bind fun color =>
        let c := getRGB color
        let r := (0xFF - c.1 % 256) % 256
        let g := (0xFF - c.2.1 % 256) % 256
        let b := (0xFF - c.2.2 % 256) % 256
        (pixel surface (dx + x) (dy + y) (((r <<< 16) ||| (g <<< 8) ||| b) % 4294967296)).bind
          fun p => drawImageInvertedRow getRGB image dx dy y fuel p.2 (x + 1)
    else Run.ok surface

/-- Source: the outer `for` loop of `drawImageInverted` (draw.c), over the rows `y` of
the image. `rowFuel` is the budget of each inner loop. -/
def drawImageInvertedRows (getRGB : Nat → Nat × Nat × Nat) (image : SDL_Surface)
    (dx dy : Int) (rowFuel : Nat) : Nat → Option SDL_Surface → Int → Run (Option SDL_Surface)
  | 0, _, _ => Run.timeout
  | fuel + 1, surface, y =>
    if y < image.h then
      (drawImageInvertedRow getRGB image dx dy y rowFuel surface 0).bind fun s1 =>
        drawImageInvertedRows getRGB image dx dy rowFuel fuel s1 (y + 1)
    else Run.ok surface

/-- Source: `drawImageInverted` (draw.c). With a surface and no image it returns 1. -/
def drawImageInverted (getRGB : Nat → Nat × Nat × Nat) (fuel : Nat)
    (surface image : Option SDL_Surface) (dx dy : Int) : Run (Int × Option SDL_Surface) :=
  match surface with
  | some _ =>
    match image with
    | some img =>
      (drawImageInvertedRows getRGB img dx dy fuel fuel surface 0).bind fun s =>
        Run.ok (1, s)
    | none => Run.ok (1, surface)
  | none => Run.ok (0, none)

/-! ## Strings -/

/-- Source: `clearOrSkip` (strings.c). A character is its code. -/
def clearOrSkip (input remove : Nat) : Nat :=
  if input = 32 ∨ input = 10 ∨ input = 13 ∨ input = 9 ∨ input = remove then 0 else input

/-- The number of characters before the first NUL of a list of characters; a fault when
the list ends before a NUL. -/
def strlenFrom : List Nat → Run Nat
  | [] => Run.fault
  | c :: rest => if c = 0 then Run.ok 0 else (strlenFrom rest).bind fun n => Run.ok (n + 1)

/-- External: `strlen(data)` for the pointer `data`, an offset into the memory `m`. -/
def strlen (m : List Nat) (data : Nat) : Run Nat := strlenFrom (m.drop data)

/-- Source: the `for` loop of `trimFromBeginning` (strings.c). The string is at offset
`data` of the memory `m`; `strlen(data)` is evaluated before every iteration, on the
memory the iterations before have left. Returns the pointer returned and the memory. -/
def trimFromBeginningLoop (data extra : Nat) : Nat → List Nat → Nat → Run (Nat × List Nat)
  | 0, _, _ => Run.timeout
  | fuel + 1, m, i =>
    (strlen m data).bind fun n =>
      if i < n then
        match m.get? (data + i) with
        | none => Run.fault
        | some c =>
          if clearOrSkip c extra ≠ 0 then
            Run.ok (data + i, m.set (data + i) (clearOrSkip c extra))
          else
            trimFromBeginningLoop data extra fuel (m.set (data + i) (clearOrSkip c extra))
              (i + 1)
      else Run.ok (data, m)

/-- Source: `trimFromBeginning` (strings.c). -/
def trimFromBeginning (fuel : Nat) (m : List Nat) (data extra : Nat) : Run (Nat × List Nat) :=
  trimFromBeginningLoop data extra fuel m 0

/-! ## Font list -/

/-- Modelled from the spec: the declaration of `struct fontListItem` (fontList.h) is not
among the sources. An entry holds `char *path`, `TTF_Font *font` and `int size`, the three
fields `fontList.c` uses; `none` is `NULL`, and an open font is identified by its
address, a number. -/
structure fontListItem where
  path : Option String
  font : Option Nat
  size : Int
  deriving DecidableEq

/-- Modelled from the spec: the declaration of `struct fontList` (fontList.h) is not
among the sources. The list holds the `item` array and `count`, the fields `fontList.c`
uses besides the two function pointers. -/
structure fontList where
  item : List fontListItem
  count : Nat
  deriving DecidableEq

/-- What the font cache sees of the outside: the `(path, size)` pairs `TTF_OpenFont` can
open, the address the next opened font gets, the `TTF_OpenFont` and `TTF_CloseFont` calls
made so far, and the world of the allocator. -/
structure FontWorld where
  fonts : List (String × Int)
  nextFont : Nat
  openCalls : List (String × Int)
  closed : List Nat
  world : World
  deriving DecidableEq

/-- External: `TTF_OpenFont(path, ptsize)` (SDL_ttf). A pair that can be opened gives a
new font at a fresh address, anything else gives `NULL`; the call is recorded. -/
def TTF_OpenFont (w : FontWorld) (path : String) (ptsize : Int) : Option Nat × FontWorld :=
  if (path, ptsize) ∈ w.fonts then
    (some w.nextFont,
      { w with nextFont := w.nextFont + 1, openCalls := w.openCalls ++ [(path, ptsize)] })
  else (none, { w with openCalls := w.openCalls ++ [(path, ptsize)] })

/-- External: `TTF_CloseFont(font)` (SDL_ttf). -/
def TTF_CloseFont (w : FontWorld) (font : Nat) : FontWorld :=
  { w with closed := w.closed ++ [font] }

/-- Source: the first `for` loop of `addFont` (fontList.c), the search for a cached font,
from index `i` with `n` entries to go. Reading an entry the array does not have is a
fault. -/
def addFontLoop (item : List fontListItem) (path : String) (fontSize : Int) (i : Nat) :
    Nat → Run (Option Nat)
  | 0 => Run.ok none
  | n + 1 =>
    match item.get? i with
    | none => Run.fault
    | some it =>
      match it.path with
      | some p =>
        if path = p then
          if fontSize = it.size then
            match it.font with
            | some f => Run.ok (some f)
            | none => addFontLoop item path fontSize (i + 1) n
          else addFontLoop item path fontSize (i + 1) n
        else addFontLoop item path fontSize (i + 1) n
      | none => addFontLoop item path fontSize (i + 1) n

/-- Source: `addFont` (fontList.c). Returns the C return value, the list and the world
after the call. When the `malloc` of the new array fails the opened font is not closed. -/
def addFont (w : FontWorld) (list : Option fontList) (path : String) (fontSize : Int) :
    Run (Option Nat × Option fontList × FontWorld) :=
  match list with
  | some l =>
    (addFontLoop l.item path fontSize 0 l.count).bind fun f =>
      match f with
      | some font => Run.ok (some font, list, w)
      | none =>
        let o := TTF_OpenFont w path fontSize
        match o.1 with
        | none => Run.ok (none, list, o.2)
        | some fontix =>
          let r := malloc o.2.world
          if r.1 then
            if l.count ≤ l.item.length then
              let t := initializeText r.2 path
              match t.1 with
              | some p =>
                Run.ok (some fontix,
                  some { item := l.item.take l.count ++
                           [{ path := some p, font := some fontix, size := fontSize }],
                         count := l.count + 1 },
                  { o.2 with world := t.2 })
              | none => Run.ok (none, list, TTF_CloseFont { o.2 with world := t.2 } fontix)
            else Run.fault
          else Run.ok (none, list, { o.2 with world := r.2 })
  | none => Run.ok (none, none, w)

/-! ## Notions used in the statements -/

/-- The result the loop of `findImage` computes on a list of entries: the image of the
first entry whose path equals `name` and whose image is not `NULL`. -/
def firstImage (name : String) : List imageListItem → Option Nat
  | [] => none
  | it :: rest =>
    match it.path with
    | some p =>
      if name = p then
        match it.image with
        | some img => some img
        | none => firstImage name rest
      else firstImage name rest
    | none => firstImage name rest

/-- The invariant of an image list: `count` is the number of entries, every entry has a
path and an image, and no path occurs twice. -/
def imageList.Inv (l : imageList) : Prop :=
  l.count = l.item.length ∧ (∀ it ∈ l.item, it.path ≠ none ∧ it.image ≠ none) ∧
    (l.item.map fun it => it.path).Nodup

instance (l : imageList) : Decidable l.Inv := by
  unfold imageList.Inv
  infer_instance

/-- The image lists that `initImageList` followed by any sequence of `addImage` and
`addLoadedImage` calls can produce, in any state of the outside world. -/
inductive Reachable : imageList → Prop where
  | init (w : World) (l : imageList) (h : (initImageList w).1 = some l) : Reachable l
  | add (w w2 : World) (l l2 : imageList) (path : String) (r : Option Nat)
      (hl : Reachable l) (h : addImage w (some l) path = Run.ok (r, some l2, w2)) :
      Reachable l2
  | insert (w w2 : World) (l l2 : imageList) (path : String) (img : Option Nat) (r : Int)
      (hl : Reachable l) (h : addLoadedImage w (some l) path img = Run.ok (r, some l2, w2)) :
      Reachable l2

/-- A surface laid out the way SDL 1.2 allocates it: positive size, rows of `pitch`
bytes that hold `w` pixels, `pitch` a multiple of 4 (`SDL_CalculatePitch`), and a buffer
that holds the `h` rows. -/
def SDL_Surface.WellFormed (s : SDL_Surface) : Prop :=
  0 < s.w ∧ 0 < s.h ∧ s.w * s.BytesPerPixel ≤ s.pitch ∧ s.pitch % 4 = 0 ∧
    s.h * s.pitch ≤ s.pixels.length

instance (s : SDL_Surface) : Decidable s.WellFormed := by
  unfold SDL_Surface.WellFormed
  infer_instance

/-- The number of the first `n` aligned 4-byte words of `m` that hold the value `t`. -/
def countWords (m : List Nat) (t : Nat) : Nat → Nat
  | 0 => 0
  | n + 1 => countWords m t n + (if readLE m (4 * n) 4 = t then 1 else 0)

/-- The number of aligned 4-byte words of the pixel buffer that hold the colour `t`. -/
def SDL_Surface.countColour (s : SDL_Surface) (t : Nat) : Nat :=
  countWords s.pixels t (s.pixels.length / 4)

/-- The calls `plot(x, y)` for the positions of a list, in order, each on the state the
one before left. -/
def plotAll {σ : Type} (plot : σ → Int → Int → Run σ) : σ → List (Int × Int) → Run σ
  | st, [] => Run.ok st
  | st, p :: ps => (plot st p.1 p.2).bind fun st1 => plotAll plot st1 ps

/-- The positions of a line of `D + 1` steps along its major axis: step `i` is at
`a1 + sa * i` on the major axis and at `b1 + sb * ((2 E i + D) / (2 D))` on the minor
axis (`E / D` times `i`, rounded to nearest, halves rounded up); `g` puts the two
coordinates in `(x, y)` order. -/
def majorPlots (g : Int → Int → Int × Int) (a1 sa b1 sb D E : Int) : List (Int × Int) :=
  (List.range (D.toNat + 1)).map fun i : Nat =>
    g (a1 + sa * (i : Int)) (b1 + sb * ((2 * E * (i : Int) + D) / (2 * D)))

/-- The position `(a, b)` is a pixel of a `w` x `h` grid. -/
def inGrid (w h a b : Int) : Prop := 0 ≤ a ∧ a < w ∧ 0 ≤ b ∧ b < h

instance (w h a b : Int) : Decidable (inGrid w h a b) := by
  unfold inGrid
  infer_instance

/-- The position `(a2, b2)` is the right, left, lower or upper neighbour of `(a, b)`. -/
def adjacent (a b a2 b2 : Int) : Prop :=
  (a2 = a + 1 ∧ b2 = b) ∨ (a2 = a - 1 ∧ b2 = b) ∨ (a2 = a ∧ b2 = b + 1) ∨
    (a2 = a ∧ b2 = b - 1)

/-- The 4-connected region of pixels of colour `t` that contains `(x, y)`: the pixels
reached from `(x, y)` by steps to a neighbour, all pixels on the way (the start included)
being in the grid and of colour `t`. -/
inductive Region (w h : Int) (col : Int → Int → Nat) (t : Nat) (x y : Int) :
    Int → Int → Prop where
  | start : inGrid w h x y → col x y = t → Region w h col t x y x y
  | step (a b a2 b2 : Int) : Region w h col t x y a b → adjacent a b a2 b2 →
      inGrid w h a2 b2 → col a2 b2 = t → Region w h col t x y a2 b2

/-- The colouring `col2` is `col` with the region of `(x, y)` recoloured to `f`: pixels
of the region have colour `f`, all other pixels of the grid keep their colour. -/
def FilledFrom (w h : Int) (col col2 : Int → Int → Nat) (t f : Nat) (x y : Int) : Prop :=
  ∀ a b, inGrid w h a b →
    (Region w h col t x y a b → col2 a b = f) ∧
      (¬ Region w h col t x y a b → col2 a b = col a b)

/-- The colour of the pixel `(a, b)` of a surface of 4-byte pixels: the 32-bit word at
byte offset `b * pitch + a * 4`. -/
def SDL_Surface.colourAt (s : SDL_Surface) (a b : Int) : Nat :=
  readLE s.pixels (b * s.pitch + a * 4).toNat 4

/-- The surface `s2` has the size, pitch, pixel format and buffer length of `s`. -/
def SameLayout (s s2 : SDL_Surface) : Prop :=
  s2.w = s.w ∧ s2.h = s.h ∧ s2.pitch = s.pitch ∧ s2.BytesPerPixel = s.BytesPerPixel ∧
    s2.pixels.length = s.pixels.length

/-- The surface `s` after a 32-bit store of `c` at the pixel `(a, b)`. -/
def SDL_Surface.setAt (s : SDL_Surface) (a b : Int) (c : Nat) : SDL_Surface :=
  { s with pixels := writeBytes s.pixels (b * s.pitch + a * 4).toNat (bytesLE (c % 4294967296) 4) }

/-- The value stored at the pixel `(a, b)`: the `BytesPerPixel` bytes at byte offset
`b * pitch + a * BytesPerPixel`, least significant first. -/
def SDL_Surface.pixelAt (s : SDL_Surface) (a b : Int) : Nat :=
  readLE s.pixels (b * s.pitch + a * s.BytesPerPixel).toNat s.BytesPerPixel

/-- The surface `s2` is `s` with the pixels of `P` set to the value `v`: same layout, the
value `v` at the pixels of the grid that satisfy `P`, the value of `s` at the others. -/
def Painted (s s2 : SDL_Surface) (v : Nat) (P : Int → Int → Prop) : Prop :=
  SameLayout s s2 ∧ ∀ a b, inGrid s.w s.h a b →
    (P a b → s2.pixelAt a b = v) ∧ (¬ P a b → s2.pixelAt a b = s.pixelAt a b)

/-- The string a pointer points to: the characters from offset `p` of the memory up to the
first NUL. -/
def cstring (m : List Nat) (p : Nat) : List Nat := (m.drop p).takeWhile fun c => c ≠ 0

/-- The result the search loop of `addFont` computes on a list of entries: the font of
the first entry whose path equals `path`, whose size equals `fontSize` and whose font is
not `NULL`. -/
def firstFont (path : String) (fontSize : Int) : List fontListItem → Option Nat
  | [] => none
  | it :: rest =>
    match it.path with
    | some p =>
      if path = p then
        if fontSize = it.size then
          match it.font with
          | some f => some f
          | none => firstFont path fontSize rest
        else firstFont path fontSize rest
      else firstFont path fontSize rest
    | none => firstFont path fontSize rest

/-! ## Concrete worlds, lists and surfaces -/

/-- A world in which `a.png` can be loaded and every allocation succeeds. -/
def world0 : World :=
  { files := ["a.png"], nextSurface := 100, loadCalls := [], freed := [], mallocPlan := [] }

/-- The list `initImageList` returns. -/
def emptyList : imageList := { item := [], count := 0 }

/-- A 2x2 surface of 4-byte pixels, all zero, rows stored back to back. -/
def blank2x2 : SDL_Surface :=
  { w := 2, h := 2, pitch := 8, BytesPerPixel := 4, pixels := List.replicate 16 0 }

/-- A 4x4 surface of 4-byte pixels, all zero. -/
def blank4x4 : SDL_Surface :=
  { w := 4, h := 4, pitch := 16, BytesPerPixel := 4, pixels := List.replicate 64 0 }

/-- A 10x10 surface of 4-byte pixels, all zero. -/
def blank10x10 : SDL_Surface :=
  { w := 10, h := 10, pitch := 40, BytesPerPixel := 4, pixels := List.replicate 400 0 }

/-- A 3x1 surface of 4-byte pixels: colour 0 at (0,0) and (1,0), colour 1 at (2,0). -/
def row3x1 : SDL_Surface :=
  { w := 3, h := 1, pitch := 12, BytesPerPixel := 4,
    pixels := [0, 0, 0, 0, 0, 0, 0, 0, 1, 0, 0, 0] }

/-- The surface `row3x1` with the pixels (0,0) and (1,0) set to colour 2. -/
def row3x1Filled : SDL_Surface :=
  { w := 3, h := 1, pitch := 12, BytesPerPixel := 4,
    pixels := [2, 0, 0, 0, 2, 0, 0, 0, 1, 0, 0, 0] }

/-- A 2x3 surface of 4-byte pixels: colour 1 at (1,0) and at (0,1), colour 0 elsewhere.
The two pixels of colour 1 touch only at a corner. -/
def diagonal2x3 : SDL_Surface :=
  { w := 2, h := 3, pitch := 8, BytesPerPixel := 4,
    pixels := [0, 0, 0, 0, 1, 0, 0, 0,
               1, 0, 0, 0, 0, 0, 0, 0,
               0, 0, 0, 0, 0, 0, 0, 0] }

/-- A 3x3 surface of 4-byte pixels: colour 1 at (0,0) and (1,0), colour 0 elsewhere. -/
def corner3x3 : SDL_Surface :=
  { w := 3, h := 3, pitch := 12, BytesPerPixel := 4,
    pixels := [1, 0, 0, 0, 1, 0, 0, 0, 0, 0, 0, 0,
               0, 0, 0, 0, 0, 0, 0, 0, 0, 0, 0, 0,
               0, 0, 0, 0, 0, 0, 0, 0, 0, 0, 0, 0] }

/-- A 3x1 surface of 1-byte pixels: colour 1 at (0,0) and (1,0), colour 0 at (2,0); the
row is padded to 4 bytes. -/
def row3x1bpp1 : SDL_Surface :=
  { w := 3, h := 1, pitch := 4, BytesPerPixel := 1, pixels := [1, 1, 0, 0] }

/-- A 3x3 surface of 1-byte pixels: colour 1 at (0,0) and (1,0), colour 0 elsewhere; each
row is padded to 4 bytes. -/
def corner3x3bpp1 : SDL_Surface :=
  { w := 3, h := 3, pitch := 4, BytesPerPixel := 1,
    pixels := [1, 1, 0, 0, 0, 0, 0, 0, 0, 0, 0, 0] }

/-- A 2x1 surface of 2-byte pixels: colour 0 at (0,0), colour 2 at (1,0). -/
def pair2x1bpp2 : SDL_Surface :=
  { w := 2, h := 1, pitch := 4, BytesPerPixel := 2, pixels := [0, 0, 2, 0] }

/-- A 5x5 surface of 4-byte pixels, all zero. -/
def blank5x5 : SDL_Surface :=
  { w := 5, h := 5, pitch := 20, BytesPerPixel := 4, pixels := List.replicate 100 0 }

/-- The surface `blank5x5` after `drawRectangleFrame(s, 1, 1, 2, 2, 7)`: the frame is the
border of the 3x3 block with corners (1,1) and (3,3), the pixel (2,2) is its inside. -/
def framed5x5 : SDL_Surface :=
  { w := 5, h := 5, pitch := 20, BytesPerPixel := 4,
    pixels := [0, 0, 0, 0, 0, 0, 0, 0, 0, 0, 0, 0, 0, 0, 0, 0, 0, 0, 0, 0,
               0, 0, 0, 0, 7, 0, 0, 0, 7, 0, 0, 0, 7, 0, 0, 0, 0, 0, 0, 0,
               0, 0, 0, 0, 7, 0, 0, 0, 0, 0, 0, 0, 7, 0, 0, 0, 0, 0, 0, 0,
               0, 0, 0, 0, 7, 0, 0, 0, 7, 0, 0, 0, 7, 0, 0, 0, 0, 0, 0, 0,
               0, 0, 0, 0, 0, 0, 0, 0, 0, 0, 0, 0, 0, 0, 0, 0, 0, 0, 0, 0] }

/-- A 3x1 surface of 4-byte pixels: colour 1 at (0,0) and (1,0), colour 0 at (2,0). -/
def row3x1Ones : SDL_Surface :=
  { w := 3, h := 1, pitch := 12, BytesPerPixel := 4,
    pixels := [1, 0, 0, 0, 1, 0, 0, 0, 0, 0, 0, 0] }

/-- A 3x3 surface of 4-byte pixels: colour 1 at the centre (1,1), colour 0 elsewhere. -/
def centre3x3 : SDL_Surface :=
  { w := 3, h := 3, pitch := 12, BytesPerPixel := 4,
    pixels := [0, 0, 0, 0, 0, 0, 0, 0, 0, 0, 0, 0,
               0, 0, 0, 0, 1, 0, 0, 0, 0, 0, 0, 0,
               0, 0, 0, 0, 0, 0, 0, 0, 0, 0, 0, 0] }

/-- A 12x1 surface of 4-byte pixels, all zero. -/
def blank12x1 : SDL_Surface :=
  { w := 12, h := 1, pitch := 48, BytesPerPixel := 4, pixels := List.replicate 48 0 }

/-- A 100x100 surface of 4-byte pixels, all zero. -/
def blank100x100 : SDL_Surface :=
  { w := 100, h := 100, pitch := 400, BytesPerPixel := 4, pixels := List.replicate 40000 0 }

/-- A world in which `a.ttf` can be opened in the sizes 12 and 14 and every allocation
succeeds. -/
def fontWorld0 : FontWorld :=
  { fonts := [("a.ttf", 12), ("a.ttf", 14)], nextFont := 100, openCalls := [], closed := [],
    world := world0 }

/-- A font list that holds `a.ttf` in size 12, opened at address 7. -/
def fontList12 : fontList :=
  { item := [{ path := some "a.ttf", font := some 7, size := 12 }], count := 1 }

/-- The empty font list `initFontList` returns. -/
def emptyFontList : fontList := { item := [], count := 0 }

/-- A 1x1 image of 4-byte pixels whose pixel is 0 (black). -/
def dot1x1 : SDL_Surface :=
  { w := 1, h := 1, pitch := 4, BytesPerPixel := 4, pixels := [0, 0, 0, 0] }

/-- A 2x2 image of 4-byte pixels: 0x102030 at (0,0), 0 elsewhere. -/
def image2x2 : SDL_Surface :=
  { w := 2, h := 2, pitch := 8, BytesPerPixel := 4,
    pixels := [0x30, 0x20, 0x10, 0, 0, 0, 0, 0, 0, 0, 0, 0, 0, 0, 0, 0] }

/-- The components of a colour in the format `0x00RRGGBB`, as `SDL_GetRGB` gives them for
a surface with the masks `0xFF0000`, `0xFF00`, `0xFF`. -/
def getRGB888 (color : Nat) : Nat × Nat × Nat :=
  (color / 65536 % 256, color / 256 % 256, color % 256)

/-! ## Byte-level memory -/

theorem length_writeBytes (bs : List Nat) (m : List Nat) (o : Nat) :
    (writeBytes m o bs).length = m.length := by
  induction bs generalizing m o with
  | nil => rfl
  | cons b bs ih => simp [writeBytes, ih]

theorem getD_set_nat (m : List Nat) (o i b : Nat) :
    (m.set o b).getD i 0 = if o = i ∧ i < m.length then b else m.getD i 0 := by
  simp only [List.getD_eq_getElem?_getD, List.getElem?_set]
  by_cases h : o = i
  · subst h
    by_cases h2 : o < m.length
    · simp [h2]
    · simp [h2, List.getElem?_eq_none (Nat.le_of_not_lt h2)]
  · simp [h]

theorem getD_writeBytes (bs : List Nat) (m : List Nat) (o i : Nat) :
    (writeBytes m o bs).getD i 0 =
      if o ≤ i ∧ i < o + bs.length ∧ i < m.length then bs.getD (i - o) 0 else m.getD i 0 := by
  induction bs generalizing m o with
  | nil =>
    have h : ¬ (o ≤ i ∧ i < o + ([] : List Nat).length ∧ i < m.length) := by
      simp only [List.length_nil]
      omega
    rw [if_neg h, writeBytes]
  | cons b bs ih =>
    rw [writeBytes, ih, getD_set_nat]
    simp only [List.length_set, List.length_cons]
    by_cases h1 : o = i
    · subst h1
      by_cases h2 : o < m.length
      · simp [h2]
      · simp [h2]
    · by_cases h3 : o + 1 ≤ i ∧ i < o + 1 + bs.length ∧ i < m.length
      · have h4 : o ≤ i ∧ i < o + (bs.length + 1) ∧ i < m.length := by omega
        have h5 : i - o = (i - (o + 1)) + 1 := by omega
        rw [if_pos h3, if_pos h4, h5, List.getD_cons_succ]
      · have h4 : ¬ (o ≤ i ∧ i < o + (bs.length + 1) ∧ i < m.length) := by omega
        rw [if_neg h3, if_neg h4]
        simp [h1]

theorem readLE_congr (m m2 : List Nat) (o n : Nat)
    (h : ∀ i, o ≤ i → i < o + n → m.getD i 0 = m2.getD i 0) :
    readLE m o n = readLE m2 o n := by
  induction n generalizing o with
  | zero => rfl
  | succ n ih =>
    simp only [readLE]
    rw [h o (Nat.le_refl o) (by omega), ih (o + 1) (fun i h1 h2 => h i (by omega) (by omega))]

theorem readLE_writeBytes_same (n : Nat) (v : Nat) (m : List Nat) (o : Nat)
    (h : o + n ≤ m.length) :
    readLE (writeBytes m o (bytesLE v n)) o n = v % 256 ^ n := by
  induction n generalizing v m o with
  | zero => simp [readLE, Nat.mod_one]
  | succ n ih =>
    have hlen : ∀ (k : Nat) (u : Nat), (bytesLE u k).length = k := by
      intro k
      induction k with
      | zero => intro u; rfl
      | succ k ihk => intro u; simp [bytesLE, ihk]
    simp only [readLE, bytesLE]
    have h0 : (writeBytes m o (v % 256 :: bytesLE (v / 256) n)).getD o 0 = v % 256 := by
      rw [getD_writeBytes]
      have : o ≤ o ∧ o < o + (v % 256 :: bytesLE (v / 256) n).length ∧ o < m.length := by
        simp only [List.length_cons, hlen]
        omega
      rw [if_pos this]
      simp
    rw [h0]
    have h1 : readLE (writeBytes m o (v % 256 :: bytesLE (v / 256) n)) (o + 1) n
        = readLE (writeBytes (m.set o (v % 256)) (o + 1) (bytesLE (v / 256) n)) (o + 1) n := rfl
    rw [h1, ih (v / 256) (m.set o (v % 256)) (o + 1) (by simp; omega)]
    rw [pow_succ, Nat.mul_comm (256 ^ n) 256, Nat.mod_mul]

/-! ## Single pixels -/

theorem length_bytesLE (n v : Nat) : (bytesLE v n).length = n := by
  induction n generalizing v with
  | zero => rfl
  | succ n ih => simp [bytesLE, ih]

/-- Byte offset of an in-bounds pixel of a well-formed 4-byte surface: the `Uint32 *`
index of `pixel` and the byte address of `getPixel` agree, and the pixel is in the buffer. -/
theorem offset4 (s : SDL_Surface) (x y : Int) (hwf : s.WellFormed)
    (hbpp : s.BytesPerPixel = 4) (hx : 0 ≤ x ∧ x < s.w) (hy : 0 ≤ y ∧ y < s.h) :
    4 * (Int.tdiv (y * s.pitch) 4 + x) = y * s.pitch + x * 4 ∧
      0 ≤ y * (s.pitch : Int) + x * 4 ∧
      y * (s.pitch : Int) + x * 4 + 4 ≤ s.pixels.length := by
  obtain ⟨_, _, hrow, hal, hbuf⟩ := hwf
  rw [hbpp] at hrow
  have hyp : 0 ≤ y * (s.pitch : Int) := mul_nonneg hy.1 (Int.ofNat_nonneg _)
  have hal2 : (y * (s.pitch : Int)) % 4 = 0 := by
    have h4 : ((s.pitch : Int)) % 4 = 0 := by omega
    rw [Int.mul_emod, h4]
    simp
  have hrows : (y + 1) * (s.pitch : Int) ≤ s.h * (s.pitch : Int) :=
    mul_le_mul_of_nonneg_right (by omega) (Int.ofNat_nonneg _)
  have hexp : (y + 1) * (s.pitch : Int) = y * s.pitch + s.pitch := by ring
  refine ⟨?_, by omega, ?_⟩
  · rw [Int.tdiv_eq_ediv hyp (by norm_num)]
    omega
  · push_cast at hrow
    omega

/-- C2: on a well-formed surface of 4-byte pixels, writing a 32-bit colour at an in-bounds
position succeeds (returns 1) and reading the same position back returns that colour. -/
theorem pixel_getPixel_roundtrip (s : SDL_Surface) (x y : Int) (c : Nat)
    (hwf : s.WellFormed) (hbpp : s.BytesPerPixel = 4)
    (hx : 0 ≤ x ∧ x < s.w) (hy : 0 ≤ y ∧ y < s.h) (hc : c < 4294967296) :
    ∃ s2 : SDL_Surface, pixel (some s) x y c = Run.ok (1, some s2) ∧
      getPixel (some s2) x y = Run.ok c := by
  obtain ⟨ho, h0, hlen⟩ := offset4 s x y hwf hbpp hx hy
  have hin : insideBoundaries (some s) x y = 1 := by
    simp only [insideBoundaries]
    rw [if_neg (by omega)]
  refine ⟨{ s with
    pixels := writeBytes s.pixels (y * s.pitch + x * 4).toNat (bytesLE (c % 4294967296) 4) },
    ?_, ?_⟩
  · simp only [pixel, hin, hbpp, ho, store, length_bytesLE, Run.bind]
    rw [if_pos (by norm_num), if_pos ⟨h0, by exact_mod_cast hlen⟩]
  · simp only [getPixel, hbpp, load, length_writeBytes]
    rw [if_pos ⟨h0, by exact_mod_cast hlen⟩]
    rw [readLE_writeBytes_same 4 _ _ _ (by omega)]
    congr 1
    omega

/-- C2, the instance named in the specification: the 10x10 surface, position (5,5),
colour 0xAABBCC. -/
theorem pixel_getPixel_roundtrip_witness :
    ∃ s2 : SDL_Surface, pixel (some blank10x10) 5 5 0xAABBCC = Run.ok (1, some s2) ∧
      getPixel (some s2) 5 5 = Run.ok 0xAABBCC :=
  pixel_getPixel_roundtrip blank10x10 5 5 0xAABBCC
    (by simp only [SDL_Surface.WellFormed, blank10x10, List.length_replicate]; decide)
    rfl (by decide) (by decide) (by decide)

/-- Outside the rectangle `[0,w] x [0,h]` (both ends included) `pixel` returns 0 and
leaves the surface as it is. -/
theorem pixel_outside (s : SDL_Surface) (x y : Int) (c : Nat)
    (h : x < 0 ∨ y < 0 ∨ x > s.w ∨ y > s.h) :
    pixel (some s) x y c = Run.ok (0, some s) := by
  have hin : insideBoundaries (some s) x y = 0 := by
    simp only [insideBoundaries]
    rw [if_pos (by omega)]
  simp [pixel, hin]

/-- C1 (defect in the code): `insideBoundaries` accepts `x == w`, so `pixel` at
`(2, 0)` of a 2x2 surface returns 1 and overwrites the first pixel of the next row. -/
theorem pixel_at_width_writes :
    (2 : Int) ≥ blank2x2.w ∧
      pixel (some blank2x2) 2 0 0xAABBCC =
        Run.ok (1, some { blank2x2 with
          pixels := [0, 0, 0, 0, 0, 0, 0, 0, 0xCC, 0xBB, 0xAA, 0, 0, 0, 0, 0] }) := by
  decide

/-! ## Image list -/

theorem findImageLoop_eq (item : List imageListItem) (name : String) (n i : Nat)
    (h : i + n ≤ item.length) :
    findImageLoop item name i n = Run.ok (firstImage name ((item.drop i).take n)) := by
  induction n generalizing i with
  | zero => simp [findImageLoop, firstImage]
  | succ n ih =>
    have hi : i < item.length := by omega
    have hd : item.drop i = item[i] :: item.drop (i + 1) := List.drop_eq_getElem_cons hi
    have hg : item.get? i = some item[i] := by simp [hi]
    simp only [findImageLoop, hg, hd, List.take_succ_cons, firstImage]
    rw [ih (i + 1) (by omega)]
    cases item[i].path with
    | none => rfl
    | some p =>
      by_cases hp : name = p
      · simp only [hp, if_true]
        cases item[i].image <;> rfl
      · simp only [hp, if_false]

theorem findImage_eq (l : imageList) (name : String) (h : l.count = l.item.length) :
    findImage (some l) name = Run.ok (firstImage name l.item) := by
  simp only [findImage]
  rw [findImageLoop_eq l.item name l.count 0 (by omega), h]
  simp

theorem firstImage_append (name : String) (xs ys : List imageListItem) :
    firstImage name (xs ++ ys) =
      match firstImage name xs with
      | some a => some a
      | none => firstImage name ys := by
  induction xs with
  | nil => simp only [List.nil_append, firstImage]
  | cons it rest ih =>
    simp only [List.cons_append, firstImage]
    cases it.path with
    | none => exact ih
    | some p =>
      by_cases hp : name = p
      · subst hp
        simp only [if_true]
        cases it.image with
        | none => exact ih
        | some img => rfl
      · simp only [hp, if_false]
        exact ih

theorem malloc_ok (w : World) (h : ∀ b ∈ w.mallocPlan, b = true) :
    (malloc w).1 = true ∧ (∀ b ∈ (malloc w).2.mallocPlan, b = true) ∧
      (malloc w).2.files = w.files ∧ (malloc w).2.nextSurface = w.nextSurface ∧
      (malloc w).2.loadCalls = w.loadCalls ∧ (malloc w).2.freed = w.freed := by
  unfold malloc
  cases hp : w.mallocPlan with
  | nil => simp [hp, h]
  | cons b rest =>
    rw [hp] at h
    simp only [List.mem_cons, forall_eq_or_imp] at h
    exact ⟨h.1, h.2, rfl, rfl, rfl, rfl⟩

/-- With allocations succeeding, `addImageToDataBase` appends the entry `(name, img)` to
the `count` entries of the list and returns `img`. -/
theorem addImageToDataBase_ok (w : World) (l : imageList) (name : String) (img : Nat)
    (hc : l.count = l.item.length) (h : ∀ b ∈ w.mallocPlan, b = true) :
    addImageToDataBase w (some l) name (some img) =
      Run.ok (some img,
        some { item := l.item ++ [{ path := some name, image := some img }],
               count := l.count + 1 },
        (malloc (malloc w).2).2) := by
  obtain ⟨h1, h2, -⟩ := malloc_ok w h
  obtain ⟨h3, -⟩ := malloc_ok (malloc w).2 h2
  have hle : l.count ≤ l.item.length := by omega
  have ht : l.item.take l.count = l.item := by rw [hc]; exact List.take_length _
  simp only [addImageToDataBase, initializeText, h1, h3, if_true, hle, ht]

/-- What `addImageToDataBase` can do to a list whose array holds `count` entries: leave it
and return `NULL`, or append `(name, img)` and return `img`. -/
theorem addImageToDataBase_cases (w w2 : World) (l : imageList) (name : String) (img : Nat)
    (r : Option Nat) (l2 : Option imageList) (hc : l.count = l.item.length)
    (h : addImageToDataBase w (some l) name (some img) = Run.ok (r, l2, w2)) :
    (r = none ∧ l2 = some l) ∨
      (r = some img ∧
        l2 = some { item := l.item ++ [{ path := some name, image := some img }],
                    count := l.count + 1 }) := by
  have hle : l.count ≤ l.item.length := by omega
  have ht : l.item.take l.count = l.item := by rw [hc]; exact List.take_length _
  simp only [addImageToDataBase, initializeText, hle, if_true, ht] at h
  cases h1 : (malloc w).1 with
  | true =>
    cases h2 : (malloc (malloc w).2).1 with
    | true =>
      simp only [h1, h2, if_true, Run.ok.injEq, Prod.mk.injEq] at h
      exact Or.inr ⟨h.1.symm, h.2.1.symm⟩
    | false =>
      simp only [h1, h2, if_true, Bool.false_eq_true, if_false, Run.ok.injEq,
        Prod.mk.injEq] at h
      exact Or.inl ⟨h.1.symm, h.2.1.symm⟩
  | false =>
    simp only [h1, Bool.false_eq_true, if_false, Run.ok.injEq, Prod.mk.injEq] at h
    exact Or.inl ⟨h.1.symm, h.2.1.symm⟩

theorem firstImage_none_not_mem (name : String) (xs : List imageListItem)
    (hx : ∀ it ∈ xs, it.path ≠ none ∧ it.image ≠ none) (h : firstImage name xs = none) :
    some name ∉ xs.map fun it => it.path := by
  induction xs with
  | nil => simp
  | cons it rest ih =>
    have hit := hx it (List.mem_cons_self _ _)
    have hrest : ∀ it2 ∈ rest, it2.path ≠ none ∧ it2.image ≠ none :=
      fun it2 h2 => hx it2 (List.mem_cons_of_mem _ h2)
    simp only [firstImage] at h
    rw [List.map_cons, List.mem_cons, not_or]
    cases hp : it.path with
    | none => exact absurd hp hit.1
    | some p =>
      rw [hp] at h
      by_cases hn : name = p
      · subst hn
        simp only [if_true] at h
        cases hi : it.image with
        | none => exact absurd hi hit.2
        | some img => rw [hi] at h; exact absurd h (by simp)
      · simp only [hn, if_false] at h
        exact ⟨fun hc => hn (Option.some.inj hc), ih hrest h⟩

/-- Appending an entry under a path the list does not hold keeps the invariant. -/
theorem inv_append (l : imageList) (name : String) (img : Nat) (hl : l.Inv)
    (h : firstImage name l.item = none) :
    imageList.Inv { item := l.item ++ [{ path := some name, image := some img }],
                    count := l.count + 1 } := by
  obtain ⟨hc, hx, hn⟩ := hl
  refine ⟨by simp [hc], ?_, ?_⟩
  · intro it hit
    rw [List.mem_append, List.mem_singleton] at hit
    rcases hit with hit | hit
    · exact hx it hit
    · subst hit
      simp
  · rw [List.map_append, List.nodup_append]
    refine ⟨hn, by simp, ?_⟩
    intro a ha hb
    simp only [List.map_cons, List.map_nil, List.mem_singleton] at hb
    subst hb
    exact firstImage_none_not_mem name l.item hx h ha

theorem addImage_inv (w w2 : World) (l l2 : imageList) (path : String) (r : Option Nat)
    (hl : l.Inv) (h : addImage w (some l) path = Run.ok (r, some l2, w2)) : l2.Inv := by
  simp only [addImage, findImage_eq l path hl.1, Run.bind] at h
  cases hf : firstImage path l.item with
  | some img =>
    simp only [hf, Run.ok.injEq, Prod.mk.injEq, Option.some.injEq] at h
    rw [← h.2.1]
    exact hl
  | none =>
    simp only [hf, IMG_Load] at h
    by_cases hp : path ∈ w.files
    · simp only [hp, if_true] at h
      cases hd : addImageToDataBase
          { w with nextSurface := w.nextSurface + 1, loadCalls := w.loadCalls ++ [path] }
          (some l) path (some w.nextSurface) with
      | fault => simp [hd] at h
      | timeout => simp [hd] at h
      | ok d =>
        obtain ⟨d1, d2, d3⟩ := d
        rcases addImageToDataBase_cases _ _ l path _ d1 d2 hl.1 hd with ⟨h1, h2⟩ | ⟨h1, h2⟩
        · subst h1 h2
          simp only [hd, Run.ok.injEq, Prod.mk.injEq, Option.some.injEq] at h
          rw [← h.2.1]
          exact hl
        · subst h1 h2
          simp only [hd, Run.ok.injEq, Prod.mk.injEq, Option.some.injEq] at h
          rw [← h.2.1]
          exact inv_append l path _ hl hf
    · simp only [hp, if_false, Run.ok.injEq, Prod.mk.injEq, Option.some.injEq] at h
      rw [← h.2.1]
      exact hl

theorem addLoadedImage_inv (w w2 : World) (l l2 : imageList) (path : String)
    (img : Option Nat) (r : Int)
    (hl : l.Inv) (h : addLoadedImage w (some l) path img = Run.ok (r, some l2, w2)) :
    l2.Inv := by
  cases img with
  | none =>
    simp only [addLoadedImage, Run.ok.injEq, Prod.mk.injEq, Option.some.injEq] at h
    rw [← h.2.1]
    exact hl
  | some a =>
    simp only [addLoadedImage, findImage_eq l path hl.1, Run.bind] at h
    cases hf : firstImage path l.item with
    | some img0 =>
      simp only [hf, ne_eq, reduceCtorEq, not_false_eq_true, if_true, Run.ok.injEq,
        Prod.mk.injEq, Option.some.injEq] at h
      rw [← h.2.1]
      exact hl
    | none =>
      simp only [hf, ne_eq, not_true_eq_false, if_false] at h
      cases hd : addImageToDataBase w (some l) path (some a) with
      | fault => simp [hd] at h
      | timeout => simp [hd] at h
      | ok d =>
        obtain ⟨d1, d2, d3⟩ := d
        rcases addImageToDataBase_cases _ _ l path _ d1 d2 hl.1 hd with ⟨h1, h2⟩ | ⟨h1, h2⟩
        · subst h1 h2
          simp only [hd, ne_eq, not_true_eq_false, if_false, Run.ok.injEq, Prod.mk.injEq,
            Option.some.injEq] at h
          rw [← h.2.1]
          exact hl
        · subst h1 h2
          simp only [hd, ne_eq, reduceCtorEq, not_false_eq_true, if_true, Run.ok.injEq,
            Prod.mk.injEq, Option.some.injEq] at h
          rw [← h.2.1]
          exact inv_append l path _ hl hf

/-- C5: when the file loads and allocations succeed, `addImage` returns an image, and a
second `addImage` with the same path returns the same image and changes neither the list
(so `count` stays) nor the world (so `IMG_Load` is not called again); the first call makes
at most one `IMG_Load` call, and on an empty list it makes exactly one and leaves `count`
at 1. -/
theorem addImage_twice (w : World) (l : imageList) (k : String)
    (hc : l.count = l.item.length) (hload : k ∈ w.files)
    (halloc : ∀ b ∈ w.mallocPlan, b = true) :
    ∃ (img : Nat) (l1 : imageList) (w1 : World),
      addImage w (some l) k = Run.ok (some img, some l1, w1) ∧
      addImage w1 (some l1) k = Run.ok (some img, some l1, w1) ∧
      (w1.loadCalls = w.loadCalls ∨ w1.loadCalls = w.loadCalls ++ [k]) ∧
      (l.item = [] → l1.count = 1 ∧ w1.loadCalls = w.loadCalls ++ [k]) := by
  cases hf : firstImage k l.item with
  | some img =>
    have h1 : addImage w (some l) k = Run.ok (some img, some l, w) := by
      simp only [addImage, findImage_eq l k hc, Run.bind, hf]
    refine ⟨img, l, w, h1, h1, Or.inl rfl, ?_⟩
    intro he
    rw [he] at hf
    simp [firstImage] at hf
  | none =>
    let wl : World :=
      { w with nextSurface := w.nextSurface + 1, loadCalls := w.loadCalls ++ [k] }
    have hdb := addImageToDataBase_ok wl l k w.nextSurface hc halloc
    have hl1 : firstImage k (l.item ++ [{ path := some k, image := some w.nextSurface }])
        = some w.nextSurface := by
      rw [firstImage_append, hf]
      simp [firstImage]
    have hcalls : (malloc (malloc wl).2).2.loadCalls = w.loadCalls ++ [k] := by
      obtain ⟨-, h2, -, -, h5, -⟩ := malloc_ok wl halloc
      obtain ⟨-, -, -, -, h6, -⟩ := malloc_ok (malloc wl).2 h2
      rw [h6, h5]
    refine ⟨w.nextSurface,
      { item := l.item ++ [{ path := some k, image := some w.nextSurface }],
        count := l.count + 1 },
      (malloc (malloc wl).2).2, ?_, ?_, Or.inr hcalls, ?_⟩
    · simp only [addImage, findImage_eq l k hc, Run.bind, hf, IMG_Load, hload, if_true]
      rw [hdb]
    · rw [addImage, findImage_eq _ k (by simp [hc])]
      simp only [Run.bind, hl1]
    · intro he
      exact ⟨by simp [hc, he], hcalls⟩

/-- C5 on the empty list in a world where `a.png` loads. -/
theorem addImage_twice_witness :
    ∃ (img : Nat) (l1 : imageList) (w1 : World),
      addImage world0 (some emptyList) "a.png" = Run.ok (some img, some l1, w1) ∧
      addImage w1 (some l1) "a.png" = Run.ok (some img, some l1, w1) ∧
      (w1.loadCalls = world0.loadCalls ∨ w1.loadCalls = world0.loadCalls ++ ["a.png"]) ∧
      (emptyList.item = [] → l1.count = 1 ∧ w1.loadCalls = world0.loadCalls ++ ["a.png"]) :=
  addImage_twice world0 emptyList "a.png" rfl (by decide) (by decide)

/-- C6: after `addLoadedImage(list, k, a)` has returned 0, `addLoadedImage(list, k, b)`,
in whatever state of the world, returns -2, passes `b` to `SDL_FreeSurface` and leaves the
list as it was; `findImage(list, k)` is still `a`, and the list has one entry more than
before the first call (one entry when it started empty). -/
theorem addLoadedImage_twice (w w1 w2 : World) (l l1 : imageList) (k : String) (a b : Nat)
    (hc : l.count = l.item.length)
    (h : addLoadedImage w (some l) k (some a) = Run.ok (0, some l1, w1)) :
    addLoadedImage w2 (some l1) k (some b) =
        Run.ok (-2, some l1, { w2 with freed := w2.freed ++ [b] }) ∧
      findImage (some l1) k = Run.ok (some a) ∧ l1.count = l.count + 1 := by
  simp only [addLoadedImage, findImage_eq l k hc, Run.bind] at h
  cases hf : firstImage k l.item with
  | some img0 => simp [hf] at h
  | none =>
    simp only [hf, ne_eq, not_true_eq_false, if_false] at h
    cases hd : addImageToDataBase w (some l) k (some a) with
    | fault => simp [hd] at h
    | timeout => simp [hd] at h
    | ok d =>
      obtain ⟨d1, d2, d3⟩ := d
      rcases addImageToDataBase_cases _ _ l k _ d1 d2 hc hd with ⟨h1, h2⟩ | ⟨h1, h2⟩
      · subst h1 h2
        simp [hd] at h
      · subst h1 h2
        simp only [hd, ne_eq, reduceCtorEq, not_false_eq_true, if_true, Run.ok.injEq,
          Prod.mk.injEq, Option.some.injEq, true_and] at h
        have hl1 : firstImage k l1.item = some a := by
          rw [← h.1, firstImage_append, hf]
          simp [firstImage]
        have hc1 : l1.count = l1.item.length := by
          rw [← h.1]
          simp [hc]
        refine ⟨?_, ?_, ?_⟩
        · simp only [addLoadedImage, findImage_eq l1 k hc1, Run.bind, hl1, ne_eq,
            reduceCtorEq, not_false_eq_true, if_true, SDL_FreeSurface]
        · rw [findImage_eq l1 k hc1, hl1]
        · rw [← h.1]

/-- C6 on the empty list: the second insertion under `a.png` is refused, the new image
101 is freed, and the list still holds the one entry with image 100. -/
theorem addLoadedImage_twice_witness :
    addLoadedImage world0
        (some { item := [{ path := some "a.png", image := some 100 }], count := 1 })
        "a.png" (some 101) =
        Run.ok (-2, some { item := [{ path := some "a.png", image := some 100 }], count := 1 },
          { world0 with freed := world0.freed ++ [101] }) ∧
      findImage (some { item := [{ path := some "a.png", image := some 100 }], count := 1 })
        "a.png" = Run.ok (some 100) ∧
      (1 : Nat) = emptyList.count + 1 :=
  addLoadedImage_twice world0 world0 world0 emptyList _ "a.png" 100 101 rfl (by decide)

/-- C7: on a cache miss, `addImage` with a file that loads (and allocations succeeding)
returns the image `IMG_Load` created and appends the one entry `(k, image)` after the
existing entries, which stay as they were, with `count` one more; with a file that does
not load it returns `NULL` and the list is the same. `IMG_Load` is called once either
way. -/
theorem addImage_miss (w : World) (l : imageList) (k : String)
    (hc : l.count = l.item.length) (hmiss : findImage (some l) k = Run.ok none) :
    (k ∈ w.files → (∀ b ∈ w.mallocPlan, b = true) →
      ∃ w1 : World,
        addImage w (some l) k =
          Run.ok (some w.nextSurface,
            some { item := l.item ++ [{ path := some k, image := some w.nextSurface }],
                   count := l.count + 1 }, w1) ∧
        w1.loadCalls = w.loadCalls ++ [k]) ∧
    (k ∉ w.files →
      addImage w (some l) k =
        Run.ok (none, some l, { w with loadCalls := w.loadCalls ++ [k] })) := by
  constructor
  · intro hload halloc
    let wl : World :=
      { w with nextSurface := w.nextSurface + 1, loadCalls := w.loadCalls ++ [k] }
    have hdb := addImageToDataBase_ok wl l k w.nextSurface hc halloc
    refine ⟨(malloc (malloc wl).2).2, ?_, ?_⟩
    · simp only [addImage, hmiss, Run.bind, IMG_Load, hload, if_true]
      rw [hdb]
    · obtain ⟨-, h2, -, -, h5, -⟩ := malloc_ok wl halloc
      obtain ⟨-, -, -, -, h6, -⟩ := malloc_ok (malloc wl).2 h2
      rw [h6, h5]
  · intro hload
    simp only [addImage, hmiss, Run.bind, IMG_Load, hload, if_false]

/-- C7 on the list holding `a.png`: `b.png` does not load and leaves the list alone, and
in a world where it loads it is appended as the second entry. -/
theorem addImage_miss_witness :
    (∃ w1 : World,
      addImage { world0 with files := ["a.png", "b.png"] }
          (some { item := [{ path := some "a.png", image := some 7 }], count := 1 }) "b.png" =
        Run.ok (some 100,
          some { item := [{ path := some "a.png", image := some 7 },
                          { path := some "b.png", image := some 100 }], count := 2 }, w1) ∧
      w1.loadCalls = ["b.png"]) ∧
    addImage world0
        (some { item := [{ path := some "a.png", image := some 7 }], count := 1 }) "b.png" =
      Run.ok (none, some { item := [{ path := some "a.png", image := some 7 }], count := 1 },
        { world0 with loadCalls := ["b.png"] }) :=
  ⟨(addImage_miss { world0 with files := ["a.png", "b.png"] }
      { item := [{ path := some "a.png", image := some 7 }], count := 1 } "b.png" rfl
      (by decide)).1 (by decide) (by decide),
   (addImage_miss world0
      { item := [{ path := some "a.png", image := some 7 }], count := 1 } "b.png" rfl
      (by decide)).2 (by decide)⟩

/-- C8: every image list reachable from `initImageList` by `addImage` and `addLoadedImage`
calls has `count` equal to its number of entries, a path and an image in every entry, and
no path twice. -/
theorem reachable_inv (l : imageList) (h : Reachable l) : l.Inv := by
  induction h with
  | init w l h =>
    simp only [initImageList] at h
    by_cases hm : (malloc w).1 = true
    · simp only [hm, if_true, Option.some.injEq] at h
      subst h
      exact ⟨rfl, by simp, by simp⟩
    · simp [hm] at h
  | add w w2 l l2 path r _ h ih => exact addImage_inv w w2 l l2 path r ih h
  | insert w w2 l l2 path img r _ h ih => exact addLoadedImage_inv w w2 l l2 path img r ih h

/-- C8 at a concrete list: the list holding `a.png`, reached by one `addImage` call. -/
theorem reachable_inv_witness :
    imageList.Inv { item := [{ path := some "a.png", image := some 100 }], count := 1 } :=
  reachable_inv _
    (Reachable.add world0 { world0 with nextSurface := 101, loadCalls := ["a.png"] }
      emptyList _ "a.png" (some 100) (Reachable.init world0 emptyList rfl) (by decide))

/-! ## Termination of `floodFill` on 4-byte pixels -/

/-- A word store changes the word it is aimed at and no other aligned word. -/
theorem readLE_store_word (m : List Nat) (k j v : Nat) (h : 4 * k + 4 ≤ m.length) :
    readLE (writeBytes m (4 * k) (bytesLE v 4)) (4 * j) 4 =
      if j = k then v % 4294967296 else readLE m (4 * j) 4 := by
  by_cases hjk : j = k
  · subst hjk
    rw [if_pos rfl, readLE_writeBytes_same 4 v m (4 * j) h]
    norm_num
  · rw [if_neg hjk]
    apply readLE_congr
    intro i h1 h2
    rw [getD_writeBytes, length_bytesLE]
    rw [if_neg (by omega)]

theorem countWords_store_other (m : List Nat) (t k v n : Nat) (h : 4 * k + 4 ≤ m.length)
    (hn : n ≤ k) :
    countWords (writeBytes m (4 * k) (bytesLE v 4)) t n = countWords m t n := by
  induction n with
  | zero => rfl
  | succ n ih =>
    simp only [countWords]
    rw [ih (by omega), readLE_store_word m k n v h, if_neg (show ¬ n = k by omega)]

/-- Overwriting a word that holds `t` with a value other than `t` lowers the count of
words holding `t` by one. -/
theorem countWords_store (m : List Nat) (t k v n : Nat) (h : 4 * k + 4 ≤ m.length)
    (hk : k < n) (hold : readLE m (4 * k) 4 = t) (hv : v % 4294967296 ≠ t) :
    countWords (writeBytes m (4 * k) (bytesLE v 4)) t n + 1 = countWords m t n := by
  induction n with
  | zero => omega
  | succ n ih =>
    simp only [countWords]
    rw [readLE_store_word m k n v h]
    by_cases hnk : n = k
    · subst hnk
      rw [if_pos rfl, if_neg hv, if_pos hold, countWords_store_other m t n v n h (le_refl n)]
    · rw [if_neg hnk, ← ih (by omega)]
      omega

/-- On 4-byte pixels with an aligned pitch, a position `insideBoundaries` accepts is an
aligned word of memory: `getPixel` loads it and `pixel` stores to it, or both fault when
the word is not in the buffer. -/
theorem pixel4_word (s : SDL_Surface) (x y : Int) (c : Nat) (hbpp : s.BytesPerPixel = 4)
    (hal : s.pitch % 4 = 0) (hin : insideBoundaries (some s) x y ≠ 0) :
    ∃ k : Nat,
      getPixel (some s) x y =
        (if 4 * k + 4 ≤ s.pixels.length then Run.ok (readLE s.pixels (4 * k) 4)
          else Run.fault) ∧
      pixel (some s) x y c =
        (if 4 * k + 4 ≤ s.pixels.length then
          Run.ok (1, some { s with
            pixels := writeBytes s.pixels (4 * k) (bytesLE (c % 4294967296) 4) })
          else Run.fault) := by
  have hxy : 0 ≤ x ∧ 0 ≤ y := by
    simp only [insideBoundaries] at hin
    by_contra hcon
    rw [if_pos (by omega)] at hin
    exact hin rfl
  have hyp : 0 ≤ y * (s.pitch : Int) := mul_nonneg hxy.2 (Int.ofNat_nonneg _)
  have hal2 : (y * (s.pitch : Int)) % 4 = 0 := by
    have h4 : ((s.pitch : Int)) % 4 = 0 := by omega
    rw [Int.mul_emod, h4]
    simp
  have ho : 4 * (Int.tdiv (y * s.pitch) 4 + x) = y * s.pitch + x * 4 := by
    rw [Int.tdiv_eq_ediv hyp (by norm_num)]
    omega
  refine ⟨((y * s.pitch + x * 4) / 4).toNat, ?_, ?_⟩
  · simp only [getPixel, hbpp, load]
    have e1 : (y * (s.pitch : Int) + x * 4).toNat = 4 * ((y * s.pitch + x * 4) / 4).toNat := by
      omega
    by_cases hb : 4 * ((y * (s.pitch : Int) + x * 4) / 4).toNat + 4 ≤ s.pixels.length
    · rw [if_pos hb, if_pos (by constructor <;> omega), e1]
    · rw [if_neg hb, if_neg (by omega)]
  · simp only [pixel, hin, ne_eq, not_false_eq_true, if_true, hbpp, ho, store, length_bytesLE]
    have e1 : (y * (s.pitch : Int) + x * 4).toNat = 4 * ((y * s.pitch + x * 4) / 4).toNat := by
      omega
    by_cases hb : 4 * ((y * (s.pitch : Int) + x * 4) / 4).toNat + 4 ≤ s.pixels.length
    · rw [if_pos hb, if_pos (by constructor <;> omega), e1]
      rfl
    · rw [if_neg hb, if_neg (by omega)]
      rfl

/-- With a recursion depth above the number of words of colour `t`, `floodFill` on 4-byte
pixels ends in a fault or returns, and when it returns the surface has the same layout and
no more words of colour `t` than before. -/
theorem floodFill_run (t f : Nat) (hf : f % 4294967296 ≠ t) (fuel : Nat) :
    ∀ (s : SDL_Surface) (x y : Int), s.BytesPerPixel = 4 → s.pitch % 4 = 0 →
      s.countColour t < fuel →
      floodFill fuel (some s) x y t f = Run.fault ∨
      ∃ (r : Int) (s2 : SDL_Surface), floodFill fuel (some s) x y t f = Run.ok (r, some s2) ∧
        s2.BytesPerPixel = 4 ∧ s2.pitch = s.pitch ∧ s2.countColour t ≤ s.countColour t := by
  induction fuel with
  | zero => intro s x y _ _ h; omega
  | succ fuel ih =>
    intro s x y hbpp hal hcount
    rw [floodFill]
    by_cases hin : insideBoundaries (some s) x y ≠ 0
    · obtain ⟨k, hg, hp⟩ := pixel4_word s x y f hbpp hal hin
      rw [if_pos hin]
      rw [hg]
      by_cases hb : 4 * k + 4 ≤ s.pixels.length
      · rw [if_pos hb]
        simp only [Run.bind]
        by_cases hpt : readLE s.pixels (4 * k) 4 = t
        · rw [if_pos hpt, hp, if_pos hb]
          simp only [Run.bind, ne_eq, one_ne_zero, not_false_eq_true, if_true]
          have hc1 : SDL_Surface.countColour { s with
              pixels := writeBytes s.pixels (4 * k) (bytesLE (f % 4294967296) 4) } t + 1
              = s.countColour t := by
            simp only [SDL_Surface.countColour, length_writeBytes]
            exact countWords_store s.pixels t k (f % 4294967296) _ hb (by omega) hpt
              (by rw [Nat.mod_mod]; exact hf)
          have hp1 : SDL_Surface.pitch { s with
              pixels := writeBytes s.pixels (4 * k) (bytesLE (f % 4294967296) 4) } = s.pitch :=
            rfl
          rcases ih { s with pixels := writeBytes s.pixels (4 * k) (bytesLE (f % 4294967296) 4) }
              (x + 1) y hbpp hal (by omega) with h1 | ⟨r1, s2, h1, hb2, hp2, hc2⟩
          · rw [h1]; exact Or.inl rfl
          rw [h1]
          simp only [Run.bind]
          rw [hp1] at hp2
          rcases ih s2 (x - 1) y hb2 (by rw [hp2]; exact hal) (by omega) with
            h2 | ⟨r2, s3, h2, hb3, hp3, hc3⟩
          · rw [h2]; exact Or.inl rfl
          rw [h2]
          simp only [Run.bind]
          rcases ih s3 x (y + 1) hb3 (by rw [hp3, hp2]; exact hal) (by omega) with
            h3 | ⟨r3, s4, h3, hb4, hp4, hc4⟩
          · rw [h3]; exact Or.inl rfl
          rw [h3]
          simp only [Run.bind]
          rcases ih s4 x (y - 1) hb4 (by rw [hp4, hp3, hp2]; exact hal) (by omega) with
            h4 | ⟨r4, s5, h4, hb5, hp5, hc5⟩
          · rw [h4]; exact Or.inl rfl
          rw [h4]
          exact Or.inr ⟨1, s5, rfl, hb5, by rw [hp5, hp4, hp3, hp2], by omega⟩
        · rw [if_neg hpt]
          exact Or.inr ⟨0, s, rfl, hbpp, rfl, le_refl _⟩
      · rw [if_neg hb]
        exact Or.inl rfl
    · rw [if_neg hin]
      exact Or.inr ⟨0, s, rfl, hbpp, rfl, le_refl _⟩

/-- C10, amended: on a surface of 4-byte pixels with an aligned pitch, where a colour is
stored whole, `floodFill` with `fill != target` terminates from every start point: a
recursion depth of one more than the number of words of the target colour is enough for
the call to return or to stop at an access outside the pixel buffer. -/
theorem floodFill_terminates (s : SDL_Surface) (x y : Int) (target fill : Nat)
    (hbpp : s.BytesPerPixel = 4) (hal : s.pitch % 4 = 0) (hfill : fill < 4294967296)
    (hne : fill ≠ target) :
    floodFill (s.countColour target + 1) (some s) x y target fill ≠ Run.timeout := by
  have hf : fill % 4294967296 ≠ target := by
    rw [Nat.mod_eq_of_lt hfill]
    exact hne
  rcases floodFill_run target fill hf (s.countColour target + 1) s x y hbpp hal
      (Nat.lt_succ_self _) with h | ⟨r, s2, h, -⟩
  · rw [h]
    exact fun hc => Run.noConfusion hc
  · rw [h]
    exact fun hc => Run.noConfusion hc

/-! ## Regions of one colour -/

theorem region_colour (w h : Int) (col : Int → Int → Nat) (t : Nat) (x y a b : Int)
    (hr : Region w h col t x y a b) : inGrid w h a b ∧ col a b = t := by
  cases hr with
  | start h1 h2 => exact ⟨h1, h2⟩
  | step a0 b0 _ _ _ _ h1 h2 => exact ⟨h1, h2⟩

theorem region_start (w h : Int) (col : Int → Int → Nat) (t : Nat) (x y a b : Int)
    (hr : Region w h col t x y a b) : Region w h col t x y x y := by
  induction hr with
  | start h1 h2 => exact Region.start h1 h2
  | step a0 b0 a2 b2 _ _ _ _ ih => exact ih

/-- A region started at a neighbour of `(x, y)`, in a colouring with no more pixels of
colour `t`, lies in the region of `(x, y)`. -/
theorem region_mono (w h : Int) (col col2 : Int → Int → Nat) (t : Nat) (x y x2 y2 a b : Int)
    (hsub : ∀ a b, inGrid w h a b → col2 a b = t → col a b = t)
    (hxy : Region w h col t x y x y) (hadj : adjacent x y x2 y2)
    (hr : Region w h col2 t x2 y2 a b) : Region w h col t x y a b := by
  induction hr with
  | start h1 h2 => exact Region.step x y x2 y2 hxy hadj h1 (hsub _ _ h1 h2)
  | step a0 b0 a2 b2 _ hadj2 h1 h2 ih => exact Region.step a0 b0 a2 b2 ih hadj2 h1 (hsub _ _ h1 h2)

theorem filledFrom_sub (w h : Int) (col col2 : Int → Int → Nat) (t f : Nat) (x y : Int)
    (hne : f ≠ t) (hf : FilledFrom w h col col2 t f x y) (a b : Int) (hin : inGrid w h a b)
    (h2 : col2 a b = t) : col a b = t := by
  by_cases hr : Region w h col t x y a b
  · rw [(hf a b hin).1 hr] at h2
    exact absurd h2 hne
  · rw [(hf a b hin).2 hr] at h2
    exact h2

theorem filledFrom_keeps (w h : Int) (col col2 : Int → Int → Nat) (t f : Nat) (x y : Int)
    (hf : FilledFrom w h col col2 t f x y) (a b : Int) (hin : inGrid w h a b)
    (h1 : col a b = f) : col2 a b = f := by
  by_cases hr : Region w h col t x y a b
  · exact (hf a b hin).1 hr
  · rw [(hf a b hin).2 hr]
    exact h1

/-- The recursion of `floodFill` on colourings: recolouring `(x, y)` and then, one after
the other, the regions of its four neighbours recolours the region of `(x, y)`. -/
theorem fill_assemble (w h : Int) (c0 c1 c2 c3 c4 c5 : Int → Int → Nat) (t f : Nat)
    (hne : f ≠ t) (x y : Int) (hin : inGrid w h x y) (ht : c0 x y = t)
    (h1 : ∀ a b, inGrid w h a b → c1 a b = if a = x ∧ b = y then f else c0 a b)
    (h2 : FilledFrom w h c1 c2 t f (x + 1) y) (h3 : FilledFrom w h c2 c3 t f (x - 1) y)
    (h4 : FilledFrom w h c3 c4 t f x (y + 1)) (h5 : FilledFrom w h c4 c5 t f x (y - 1)) :
    FilledFrom w h c0 c5 t f x y := by
  have hxy : Region w h c0 t x y x y := Region.start hin ht
  have s1 : ∀ a b, inGrid w h a b → c1 a b = t → c0 a b = t := by
    intro a b hab hc
    rw [h1 a b hab] at hc
    by_cases hp : a = x ∧ b = y
    · rw [if_pos hp] at hc; exact absurd hc hne
    · rw [if_neg hp] at hc; exact hc
  have s2 : ∀ a b, inGrid w h a b → c2 a b = t → c0 a b = t :=
    fun a b hab hc => s1 a b hab (filledFrom_sub w h c1 c2 t f _ _ hne h2 a b hab hc)
  have s3 : ∀ a b, inGrid w h a b → c3 a b = t → c0 a b = t :=
    fun a b hab hc => s2 a b hab (filledFrom_sub w h c2 c3 t f _ _ hne h3 a b hab hc)
  have s4 : ∀ a b, inGrid w h a b → c4 a b = t → c0 a b = t :=
    fun a b hab hc => s3 a b hab (filledFrom_sub w h c3 c4 t f _ _ hne h4 a b hab hc)
  have m1 : ∀ a b, Region w h c1 t (x + 1) y a b → Region w h c0 t x y a b :=
    fun a b hr => region_mono w h c0 c1 t x y _ _ a b s1 hxy (Or.inl ⟨rfl, rfl⟩) hr
  have m2 : ∀ a b, Region w h c2 t (x - 1) y a b → Region w h c0 t x y a b :=
    fun a b hr => region_mono w h c0 c2 t x y _ _ a b s2 hxy (Or.inr (Or.inl ⟨rfl, rfl⟩)) hr
  have m3 : ∀ a b, Region w h c3 t x (y + 1) a b → Region w h c0 t x y a b :=
    fun a b hr =>
      region_mono w h c0 c3 t x y _ _ a b s3 hxy (Or.inr (Or.inr (Or.inl ⟨rfl, rfl⟩))) hr
  have m4 : ∀ a b, Region w h c4 t x (y - 1) a b → Region w h c0 t x y a b :=
    fun a b hr =>
      region_mono w h c0 c4 t x y _ _ a b s4 hxy (Or.inr (Or.inr (Or.inr ⟨rfl, rfl⟩))) hr
  -- a pixel that is not recoloured at the end still has colour `t` in every state
  have back : ∀ a b, inGrid w h a b → c0 a b = t → c5 a b ≠ f →
      c1 a b = t ∧ c2 a b = t ∧ c3 a b = t ∧ c4 a b = t ∧ ¬ (a = x ∧ b = y) := by
    intro a b hab h0 hc5
    have hc4 : c4 a b ≠ f := fun hc => hc5 (filledFrom_keeps w h c4 c5 t f _ _ h5 a b hab hc)
    have hc3 : c3 a b ≠ f := fun hc => hc4 (filledFrom_keeps w h c3 c4 t f _ _ h4 a b hab hc)
    have hc2 : c2 a b ≠ f := fun hc => hc3 (filledFrom_keeps w h c2 c3 t f _ _ h3 a b hab hc)
    have hc1 : c1 a b ≠ f := fun hc => hc2 (filledFrom_keeps w h c1 c2 t f _ _ h2 a b hab hc)
    have hp : ¬ (a = x ∧ b = y) := by
      intro hp
      rw [h1 a b hab, if_pos hp] at hc1
      exact hc1 rfl
    have e1 : c1 a b = t := by rw [h1 a b hab, if_neg hp]; exact h0
    have r1 : ¬ Region w h c1 t (x + 1) y a b := fun hr => hc2 ((h2 a b hab).1 hr)
    have e2 : c2 a b = t := by rw [(h2 a b hab).2 r1]; exact e1
    have r2 : ¬ Region w h c2 t (x - 1) y a b := fun hr => hc3 ((h3 a b hab).1 hr)
    have e3 : c3 a b = t := by rw [(h3 a b hab).2 r2]; exact e2
    have r3 : ¬ Region w h c3 t x (y + 1) a b := fun hr => hc4 ((h4 a b hab).1 hr)
    have e4 : c4 a b = t := by rw [(h4 a b hab).2 r3]; exact e3
    exact ⟨e1, e2, e3, e4, hp⟩
  -- where a recoloured pixel got its colour
  have origin : ∀ a b, inGrid w h a b → c0 a b = t → c5 a b = f →
      (a = x ∧ b = y) ∨ Region w h c1 t (x + 1) y a b ∨ Region w h c2 t (x - 1) y a b ∨
        Region w h c3 t x (y + 1) a b ∨ Region w h c4 t x (y - 1) a b := by
    intro a b hab h0 hc5
    by_cases hp : a = x ∧ b = y
    · exact Or.inl hp
    by_cases r1 : Region w h c1 t (x + 1) y a b
    · exact Or.inr (Or.inl r1)
    by_cases r2 : Region w h c2 t (x - 1) y a b
    · exact Or.inr (Or.inr (Or.inl r2))
    by_cases r3 : Region w h c3 t x (y + 1) a b
    · exact Or.inr (Or.inr (Or.inr (Or.inl r3)))
    by_cases r4 : Region w h c4 t x (y - 1) a b
    · exact Or.inr (Or.inr (Or.inr (Or.inr r4)))
    exfalso
    rw [(h5 a b hab).2 r4, (h4 a b hab).2 r3, (h3 a b hab).2 r2, (h2 a b hab).2 r1,
      h1 a b hab, if_neg hp, h0] at hc5
    exact hne hc5.symm
  have filled : ∀ a b, Region w h c0 t x y a b → c5 a b = f := by
    intro a b hr
    induction hr with
    | start _ _ =>
      have e1 : c1 x y = f := by rw [h1 x y hin, if_pos ⟨rfl, rfl⟩]
      exact filledFrom_keeps w h c4 c5 t f _ _ h5 x y hin
        (filledFrom_keeps w h c3 c4 t f _ _ h4 x y hin
          (filledFrom_keeps w h c2 c3 t f _ _ h3 x y hin
            (filledFrom_keeps w h c1 c2 t f _ _ h2 x y hin e1)))
    | step a0 b0 a2 b2 hr0 hadj hab h0 ih =>
      by_contra hc5
      obtain ⟨e1, e2, e3, e4, hp⟩ := back a2 b2 hab h0 hc5
      have hab0 := (region_colour w h c0 t x y a0 b0 hr0)
      have k5 : ¬ Region w h c4 t x (y - 1) a2 b2 := fun hr => hc5 ((h5 a2 b2 hab).1 hr)
      have hc4 : c4 a2 b2 ≠ f := by rw [e4]; exact hne.symm
      have k4 : ¬ Region w h c3 t x (y + 1) a2 b2 := fun hr => hc4 ((h4 a2 b2 hab).1 hr)
      have hc3 : c3 a2 b2 ≠ f := by rw [e3]; exact hne.symm
      have k3 : ¬ Region w h c2 t (x - 1) y a2 b2 := fun hr => hc3 ((h3 a2 b2 hab).1 hr)
      have hc2 : c2 a2 b2 ≠ f := by rw [e2]; exact hne.symm
      have k2 : ¬ Region w h c1 t (x + 1) y a2 b2 := fun hr => hc2 ((h2 a2 b2 hab).1 hr)
      rcases origin a0 b0 hab0.1 hab0.2 ih with hp0 | r1 | r2 | r3 | r4
      · obtain ⟨rfl, rfl⟩ := hp0
        rcases hadj with ⟨ha, hb⟩ | ⟨ha, hb⟩ | ⟨ha, hb⟩ | ⟨ha, hb⟩
        · subst ha hb; exact k2 (Region.start hab e1)
        · subst ha hb; exact k3 (Region.start hab e2)
        · subst ha hb; exact k4 (Region.start hab e3)
        · subst ha hb; exact k5 (Region.start hab e4)
      · exact k2 (Region.step a0 b0 a2 b2 r1 hadj hab e1)
      · exact k3 (Region.step a0 b0 a2 b2 r2 hadj hab e2)
      · exact k4 (Region.step a0 b0 a2 b2 r3 hadj hab e3)
      · exact k5 (Region.step a0 b0 a2 b2 r4 hadj hab e4)
  intro a b hab
  refine ⟨filled a b, ?_⟩
  intro hr
  have hp : ¬ (a = x ∧ b = y) := by
    rintro ⟨rfl, rfl⟩
    exact hr hxy
  rw [(h5 a b hab).2 (fun k => hr (m4 a b k)), (h4 a b hab).2 (fun k => hr (m3 a b k)),
    (h3 a b hab).2 (fun k => hr (m2 a b k)), (h2 a b hab).2 (fun k => hr (m1 a b k)),
    h1 a b hab, if_neg hp]

/-! ## Pixels of a well-formed surface of 4-byte pixels -/

theorem sameLayout_wf (s s2 : SDL_Surface) (h : SameLayout s s2) (hwf : s.WellFormed) :
    s2.WellFormed := by
  obtain ⟨h1, h2, h3, h4, h5⟩ := h
  unfold SDL_Surface.WellFormed
  rw [h1, h2, h3, h4, h5]
  exact hwf

theorem sameLayout_trans (s s2 s3 : SDL_Surface) (h : SameLayout s s2) (h2 : SameLayout s2 s3) :
    SameLayout s s3 := by
  obtain ⟨a1, a2, a3, a4, a5⟩ := h
  obtain ⟨b1, b2, b3, b4, b5⟩ := h2
  exact ⟨b1.trans a1, b2.trans a2, b3.trans a3, b4.trans a4, b5.trans a5⟩

/-- Different pixels of the grid have different byte offsets. -/
theorem offset_inj (s : SDL_Surface) (hwf : s.WellFormed) (hbpp : s.BytesPerPixel = 4)
    (a b a2 b2 : Int) (h1 : inGrid s.w s.h a b) (h2 : inGrid s.w s.h a2 b2)
    (he : b * (s.pitch : Int) + a * 4 = b2 * (s.pitch : Int) + a2 * 4) : a2 = a ∧ b2 = b := by
  obtain ⟨_, _, hrow, _, _⟩ := hwf
  rw [hbpp] at hrow
  push_cast at hrow
  obtain ⟨ha0, ha1, hb0, hb1⟩ := h1
  obtain ⟨ha20, ha21, hb20, hb21⟩ := h2
  have hP : (0 : Int) ≤ s.pitch := Int.ofNat_nonneg _
  have hb : b2 = b := by
    rcases lt_trichotomy b b2 with hlt | heq | hgt
    · have hm : (b + 1) * (s.pitch : Int) ≤ b2 * (s.pitch : Int) :=
        mul_le_mul_of_nonneg_right (by omega) hP
      have hexp : (b + 1) * (s.pitch : Int) = b * s.pitch + s.pitch := by ring
      omega
    · exact heq.symm
    · have hm : (b2 + 1) * (s.pitch : Int) ≤ b * (s.pitch : Int) :=
        mul_le_mul_of_nonneg_right (by omega) hP
      have hexp : (b2 + 1) * (s.pitch : Int) = b2 * s.pitch + s.pitch := by ring
      omega
  subst hb
  exact ⟨by omega, rfl⟩

/-- On a well-formed surface of 4-byte pixels, at a pixel of the grid: `getPixel` returns
its colour, `pixel` stores the colour given and returns 1, and the store changes the
colour of that pixel only. -/
theorem pixel4_grid (s : SDL_Surface) (hwf : s.WellFormed) (hbpp : s.BytesPerPixel = 4)
    (a b : Int) (c : Nat) (hg : inGrid s.w s.h a b) :
    getPixel (some s) a b = Run.ok (s.colourAt a b) ∧
      pixel (some s) a b c = Run.ok (1, some (s.setAt a b c)) ∧
      SameLayout s (s.setAt a b c) ∧
      (∀ a2 b2, inGrid s.w s.h a2 b2 →
        (s.setAt a b c).colourAt a2 b2 =
          if a2 = a ∧ b2 = b then c % 4294967296 else s.colourAt a2 b2) ∧
      ∀ t : Nat, s.colourAt a b = t → c % 4294967296 ≠ t →
        (s.setAt a b c).countColour t + 1 = s.countColour t := by
  obtain ⟨ho, h0, hlen⟩ := offset4 s a b hwf hbpp ⟨hg.1, hg.2.1⟩ ⟨hg.2.2.1, hg.2.2.2⟩
  have hin : insideBoundaries (some s) a b = 1 := by
    simp only [insideBoundaries]
    rw [if_neg (by obtain ⟨h1, h2, h3, h4⟩ := hg; omega)]
  have hal : ∀ a3 b3 : Int, inGrid s.w s.h a3 b3 →
      (b3 * (s.pitch : Int) + a3 * 4).toNat = 4 * ((b3 * (s.pitch : Int) + a3 * 4) / 4).toNat ∧
        4 * ((b3 * (s.pitch : Int) + a3 * 4) / 4).toNat + 4 ≤ s.pixels.length := by
    intro a3 b3 h3
    obtain ⟨ho3, h03, hlen3⟩ :=
      offset4 s a3 b3 hwf hbpp ⟨h3.1, h3.2.1⟩ ⟨h3.2.2.1, h3.2.2.2⟩
    constructor <;> omega
  refine ⟨?_, ?_, ⟨rfl, rfl, rfl, rfl, ?_⟩, ?_, ?_⟩
  · simp only [getPixel, hbpp, load, SDL_Surface.colourAt]
    rw [if_pos ⟨h0, by exact_mod_cast hlen⟩]
  · simp only [pixel, hin, hbpp, ho, store, length_bytesLE, Run.bind, SDL_Surface.setAt]
    rw [if_pos (by norm_num), if_pos ⟨h0, by exact_mod_cast hlen⟩]
  · simp only [SDL_Surface.setAt, length_writeBytes]
  · intro a2 b2 h2
    simp only [SDL_Surface.setAt, SDL_Surface.colourAt]
    rw [(hal a b hg).1, (hal a2 b2 h2).1, readLE_store_word _ _ _ _ (hal a b hg).2]
    by_cases hp : a2 = a ∧ b2 = b
    · rw [if_pos hp, if_pos (by rw [hp.1, hp.2])]
      exact Nat.mod_mod _ _
    · rw [if_neg hp, if_neg]
      intro hk
      apply hp
      apply offset_inj s hwf hbpp a b a2 b2 hg h2
      have e1 := (hal a b hg).1
      have e2 := (hal a2 b2 h2).1
      obtain ⟨_, h03, _⟩ := offset4 s a2 b2 hwf hbpp ⟨h2.1, h2.2.1⟩ ⟨h2.2.2.1, h2.2.2.2⟩
      omega
  · intro t ht hc
    simp only [SDL_Surface.setAt, SDL_Surface.countColour, length_writeBytes]
    rw [(hal a b hg).1]
    apply countWords_store _ _ _ _ _ (hal a b hg).2 (by have := (hal a b hg).2; omega)
    · rw [← (hal a b hg).1]
      exact ht
    · rw [Nat.mod_mod]
      exact hc

/-! ## `floodFill` recolours the region of its start -/

theorem filledFrom_empty (w h : Int) (col : Int → Int → Nat) (t f : Nat) (x y : Int)
    (hno : ¬ (inGrid w h x y ∧ col x y = t)) : FilledFrom w h col col t f x y := by
  intro a b _
  have hr : ¬ Region w h col t x y a b := fun hr =>
    hno (region_colour w h col t x y x y (region_start w h col t x y a b hr))
  exact ⟨fun k => absurd k hr, fun _ => rfl⟩

/-- On a well-formed surface of 4-byte pixels, a call of `floodFill` at a position left of
the last column and above the last row, whose region stays clear of the last column and
the last row, returns with exactly that region recoloured, given a recursion depth above
the number of words of the target colour. -/
theorem floodFill_fills (t f : Nat) (hne : f ≠ t) (hf : f < 4294967296) (fuel : Nat) :
    ∀ (s : SDL_Surface) (x y : Int), s.WellFormed → s.BytesPerPixel = 4 →
      s.countColour t < fuel → x < s.w → y < s.h →
      (∀ a b, Region s.w s.h s.colourAt t x y a b → a + 1 < s.w ∧ b + 1 < s.h) →
      ∃ (r : Int) (s2 : SDL_Surface),
        floodFill fuel (some s) x y t f = Run.ok (r, some s2) ∧
        ((inGrid s.w s.h x y ∧ s.colourAt x y = t) → r = 1) ∧
        (¬ (inGrid s.w s.h x y ∧ s.colourAt x y = t) → r = 0 ∧ s2 = s) ∧
        SameLayout s s2 ∧ s2.countColour t ≤ s.countColour t ∧
        FilledFrom s.w s.h s.colourAt s2.colourAt t f x y := by
  induction fuel with
  | zero => intro s x y _ _ h; omega
  | succ fuel ih =>
    intro s x y hwf hbpp hcount hxw hyh hclear
    have hsame : SameLayout s s := ⟨rfl, rfl, rfl, rfl, rfl⟩
    rw [floodFill]
    by_cases hin : insideBoundaries (some s) x y ≠ 0
    · have hg : inGrid s.w s.h x y := by
        simp only [insideBoundaries] at hin
        by_contra hcon
        unfold inGrid at hcon
        rw [if_pos (by omega)] at hin
        exact hin rfl
      obtain ⟨hget, hput, hlay1, hcol1, hcnt1⟩ := pixel4_grid s hwf hbpp x y f hg
      rw [if_pos hin, hget]
      simp only [Run.bind]
      by_cases hpt : s.colourAt x y = t
      · have hfm : f % 4294967296 = f := Nat.mod_eq_of_lt hf
        rw [hfm] at hcol1
        have hc1 := hcnt1 t hpt (by rw [hfm]; exact hne)
        have hxy : Region s.w s.h s.colourAt t x y x y := Region.start hg hpt
        obtain ⟨hx1, hy1⟩ := hclear x y hxy
        have sub1 : ∀ a b, inGrid s.w s.h a b → (s.setAt x y f).colourAt a b = t →
            s.colourAt a b = t := by
          intro a b hab hc
          rw [hcol1 a b hab] at hc
          by_cases hp : a = x ∧ b = y
          · rw [if_pos hp] at hc; exact absurd hc hne
          · rw [if_neg hp] at hc; exact hc
        rw [if_pos hpt, hput]
        simp only [Run.bind, ne_eq, one_ne_zero, not_false_eq_true, if_true]
        -- first call: right neighbour
        obtain ⟨r1, s2, e1, -, -, lay2, cnt2, F2⟩ :=
          ih (s.setAt x y f) (x + 1) y (sameLayout_wf s _ hlay1 hwf) hbpp (by omega)
            hx1 hyh
            (fun a b hr => hclear a b
              (region_mono s.w s.h s.colourAt _ t x y _ _ a b sub1 hxy (Or.inl ⟨rfl, rfl⟩) hr))
        have F2 : FilledFrom s.w s.h (s.setAt x y f).colourAt s2.colourAt t f (x + 1) y := F2
        have L2 := sameLayout_trans s _ s2 hlay1 lay2
        have sub2 : ∀ a b, inGrid s.w s.h a b → s2.colourAt a b = t → s.colourAt a b = t :=
          fun a b hab hc => sub1 a b hab (filledFrom_sub _ _ _ _ t f _ _ hne F2 a b hab hc)
        rw [e1]
        simp only [Run.bind]
        -- second call: left neighbour
        obtain ⟨r2, s3, e2, -, -, lay3, cnt3, F3⟩ :=
          ih s2 (x - 1) y (sameLayout_wf s _ L2 hwf) (L2.2.2.2.1.trans hbpp) (by omega)
            (by rw [L2.1]; omega) (by rw [L2.2.1]; exact hyh)
            (by
              rw [L2.1, L2.2.1]
              exact fun a b hr => hclear a b
                (region_mono s.w s.h s.colourAt _ t x y _ _ a b sub2 hxy
                  (Or.inr (Or.inl ⟨rfl, rfl⟩)) hr))
        rw [L2.1, L2.2.1] at F3
        have L3 := sameLayout_trans s _ s3 L2 lay3
        have sub3 : ∀ a b, inGrid s.w s.h a b → s3.colourAt a b = t → s.colourAt a b = t :=
          fun a b hab hc => sub2 a b hab (filledFrom_sub _ _ _ _ t f _ _ hne F3 a b hab hc)
        rw [e2]
        simp only [Run.bind]
        -- third call: lower neighbour
        obtain ⟨r3, s4, e3, -, -, lay4, cnt4, F4⟩ :=
          ih s3 x (y + 1) (sameLayout_wf s _ L3 hwf) (L3.2.2.2.1.trans hbpp) (by omega)
            (by rw [L3.1]; exact hxw) (by rw [L3.2.1]; exact hy1)
            (by
              rw [L3.1, L3.2.1]
              exact fun a b hr => hclear a b
                (region_mono s.w s.h s.colourAt _ t x y _ _ a b sub3 hxy
                  (Or.inr (Or.inr (Or.inl ⟨rfl, rfl⟩))) hr))
        rw [L3.1, L3.2.1] at F4
        have L4 := sameLayout_trans s _ s4 L3 lay4
        have sub4 : ∀ a b, inGrid s.w s.h a b → s4.colourAt a b = t → s.colourAt a b = t :=
          fun a b hab hc => sub3 a b hab (filledFrom_sub _ _ _ _ t f _ _ hne F4 a b hab hc)
        rw [e3]
        simp only [Run.bind]
        -- fourth call: upper neighbour
        obtain ⟨r4, s5, e4, -, -, lay5, cnt5, F5⟩ :=
          ih s4 x (y - 1) (sameLayout_wf s _ L4 hwf) (L4.2.2.2.1.trans hbpp) (by omega)
            (by rw [L4.1]; exact hxw) (by rw [L4.2.1]; omega)
            (by
              rw [L4.1, L4.2.1]
              exact fun a b hr => hclear a b
                (region_mono s.w s.h s.colourAt _ t x y _ _ a b sub4 hxy
                  (Or.inr (Or.inr (Or.inr ⟨rfl, rfl⟩))) hr))
        rw [L4.1, L4.2.1] at F5
        have L5 := sameLayout_trans s _ s5 L4 lay5
        rw [e4]
        refine ⟨1, s5, rfl, fun _ => rfl, fun hno => absurd ⟨hg, hpt⟩ hno, L5, by omega, ?_⟩
        exact fill_assemble s.w s.h s.colourAt _ _ _ _ _ t f hne x y hg hpt hcol1 F2 F3 F4 F5
      · rw [if_neg hpt]
        exact ⟨0, s, rfl, fun h => absurd h.2 hpt, fun _ => ⟨rfl, rfl⟩, hsame, le_refl _,
          filledFrom_empty _ _ _ t f x y (fun h => hpt h.2)⟩
    · rw [if_neg hin]
      have hno : ¬ inGrid s.w s.h x y := by
        intro hg
        apply hin
        simp only [insideBoundaries]
        rw [if_neg (by obtain ⟨h1, h2, h3, h4⟩ := hg; omega)]
        decide
      exact ⟨0, s, rfl, fun h => absurd h.1 hno, fun _ => ⟨rfl, rfl⟩, hsame, le_refl _,
        filledFrom_empty _ _ _ t f x y (fun h => hno h.1)⟩

/-! ## Recursive fills on concrete surfaces -/

/-- On the filled row `boundaryFill` with border colour 1 never returns: the calls at
(0,0) and (1,0) keep calling each other. -/
theorem boundaryFill_row_loop (n : Nat) :
    boundaryFill n (some row3x1Filled) 0 0 1 2 = Run.timeout ∧
      boundaryFill n (some row3x1Filled) 1 0 1 2 = Run.timeout := by
  induction n with
  | zero => exact ⟨rfl, rfl⟩
  | succ n ih =>
    constructor
    · have h : boundaryFill (n + 1) (some row3x1Filled) 0 0 1 2 =
          (boundaryFill n (some row3x1Filled) 1 0 1 2).bind fun r1 =>
          (boundaryFill n r1.2 (0 - 1) 0 1 2).bind fun r2 =>
          (boundaryFill n r2.2 0 (0 + 1) 1 2).bind fun r3 =>
          (boundaryFill n r3.2 0 (0 - 1) 1 2).bind fun r4 =>
          Run.ok (1, r4.2) := rfl
      rw [h, ih.2]
      rfl
    · have h : boundaryFill (n + 1) (some row3x1Filled) 1 0 1 2 =
          (boundaryFill n (some row3x1Filled) 2 0 1 2).bind fun r1 =>
          (boundaryFill n r1.2 0 0 1 2).bind fun r2 =>
          (boundaryFill n r2.2 1 (0 + 1) 1 2).bind fun r3 =>
          (boundaryFill n r3.2 1 (0 - 1) 1 2).bind fun r4 =>
          Run.ok (1, r4.2) := rfl
      rw [h]
      cases n with
      | zero => rfl
      | succ m =>
        have h2 : boundaryFill (m + 1) (some row3x1Filled) 2 0 1 2 =
            Run.ok (0, some row3x1Filled) := rfl
        rw [h2]
        simp only [Run.bind]
        rw [ih.1]

/-- C9 (defect in the code): `boundaryFill` does not test for pixels it has already
filled, so it does not terminate. On the 3x1 row with colours 0, 0, 1, started at the
in-bounds pixel (0,0) of colour 0 with border colour 1 and fill colour 2, the calls at
(0,0) and (1,0) call each other for ever: no recursion depth is enough. -/
theorem boundaryFill_diverges :
    getPixel (some row3x1) 0 0 = Run.ok 0 ∧
      ∀ fuel : Nat, boundaryFill fuel (some row3x1) 0 0 1 2 = Run.timeout := by
  refine ⟨rfl, ?_⟩
  intro fuel
  cases fuel with
  | zero => rfl
  | succ n =>
    have h : boundaryFill (n + 1) (some row3x1) 0 0 1 2 =
        (boundaryFill n (some { row3x1 with pixels := [2, 0, 0, 0, 0, 0, 0, 0, 1, 0, 0, 0] })
          1 0 1 2).bind fun r1 =>
        (boundaryFill n r1.2 (0 - 1) 0 1 2).bind fun r2 =>
        (boundaryFill n r2.2 0 (0 + 1) 1 2).bind fun r3 =>
        (boundaryFill n r3.2 0 (0 - 1) 1 2).bind fun r4 =>
        Run.ok (1, r4.2) := rfl
    rw [h]
    cases n with
    | zero => rfl
    | succ m =>
      have h2 : boundaryFill (m + 1)
          (some { row3x1 with pixels := [2, 0, 0, 0, 0, 0, 0, 0, 1, 0, 0, 0] }) 1 0 1 2 =
          (boundaryFill m (some row3x1Filled) 2 0 1 2).bind fun r1 =>
          (boundaryFill m r1.2 0 0 1 2).bind fun r2 =>
          (boundaryFill m r2.2 1 (0 + 1) 1 2).bind fun r3 =>
          (boundaryFill m r3.2 1 (0 - 1) 1 2).bind fun r4 =>
          Run.ok (1, r4.2) := rfl
      rw [h2]
      cases m with
      | zero => rfl
      | succ k =>
        have h3 : boundaryFill (k + 1) (some row3x1Filled) 2 0 1 2 =
            Run.ok (0, some row3x1Filled) := rfl
        rw [h3]
        simp only [Run.bind]
        rw [(boundaryFill_row_loop (k + 1)).1]

/-- The region of colour 1 at (1,0) of the 2x3 surface is the pixel (1,0) alone. -/
theorem diagonal2x3_region (a b : Int)
    (hr : Region diagonal2x3.w diagonal2x3.h diagonal2x3.colourAt 1 1 0 a b) :
    a = 1 ∧ b = 0 := by
  induction hr with
  | start _ _ => exact ⟨rfl, rfl⟩
  | step a0 b0 a2 b2 _ hadj hin hcol ih =>
    obtain ⟨rfl, rfl⟩ := ih
    rcases hadj with ⟨rfl, rfl⟩ | ⟨rfl, rfl⟩ | ⟨rfl, rfl⟩ | ⟨rfl, rfl⟩ <;>
      first
        | exact absurd hin (by decide)
        | exact absurd hcol (by decide)

/-- C3 as stated fails, in two ways. Because `insideBoundaries` accepts `x == w`, the fill
started at the pixel (1,0) of colour 1 of the 2x3 surface goes on to "(2,0)", which is the
pixel (0,1), and recolours it although it is not in the region of (1,0): it touches (1,0)
only at a corner. And on 1-byte pixels the fill colour 258 is stored as 2, so the region
does not read back as the fill colour. -/
theorem floodFill_not_exact_region :
    (getPixel (some diagonal2x3) 1 0 = Run.ok 1 ∧
      ¬ Region diagonal2x3.w diagonal2x3.h diagonal2x3.colourAt 1 1 0 0 1 ∧
      getPixel (some diagonal2x3) 0 1 = Run.ok 1 ∧
      (∀ n : Nat, floodFill (n + 3) (some diagonal2x3) 1 0 1 2 =
        Run.ok (1, some { diagonal2x3 with
          pixels := [0, 0, 0, 0, 2, 0, 0, 0,
                     2, 0, 0, 0, 0, 0, 0, 0,
                     0, 0, 0, 0, 0, 0, 0, 0] })) ∧
      getPixel (some { diagonal2x3 with
          pixels := [0, 0, 0, 0, 2, 0, 0, 0,
                     2, 0, 0, 0, 0, 0, 0, 0,
                     0, 0, 0, 0, 0, 0, 0, 0] }) 0 1 = Run.ok 2) ∧
    ((∀ n : Nat, floodFill (n + 3) (some corner3x3bpp1) 0 0 1 258 =
        Run.ok (1, some { corner3x3bpp1 with
          pixels := [2, 2, 0, 0, 0, 0, 0, 0, 0, 0, 0, 0] })) ∧
      getPixel (some { corner3x3bpp1 with pixels := [2, 2, 0, 0, 0, 0, 0, 0, 0, 0, 0, 0] }) 0 0
        = Run.ok 2 ∧ (2 : Nat) ≠ 258) :=
  ⟨⟨rfl, fun hr => absurd (diagonal2x3_region 0 1 hr).1 (by decide), rfl, fun _ => rfl, rfl⟩,
    fun _ => rfl, rfl, by decide⟩

/-- On the 1-byte surface, filling colour 1 with colour 257 stores the byte 1 again, and
the calls at (0,0) and (1,0) keep calling each other. -/
theorem floodFill_row_loop (n : Nat) :
    floodFill n (some row3x1bpp1) 0 0 1 257 = Run.timeout ∧
      floodFill n (some row3x1bpp1) 1 0 1 257 = Run.timeout := by
  induction n with
  | zero => exact ⟨rfl, rfl⟩
  | succ n ih =>
    constructor
    · have h : floodFill (n + 1) (some row3x1bpp1) 0 0 1 257 =
          (floodFill n (some row3x1bpp1) 1 0 1 257).bind fun r1 =>
          (floodFill n r1.2 (0 - 1) 0 1 257).bind fun r2 =>
          (floodFill n r2.2 0 (0 + 1) 1 257).bind fun r3 =>
          (floodFill n r3.2 0 (0 - 1) 1 257).bind fun r4 =>
          Run.ok (1, r4.2) := rfl
      rw [h, ih.2]
      rfl
    · have h : floodFill (n + 1) (some row3x1bpp1) 1 0 1 257 =
          (floodFill n (some row3x1bpp1) 2 0 1 257).bind fun r1 =>
          (floodFill n r1.2 0 0 1 257).bind fun r2 =>
          (floodFill n r2.2 1 (0 + 1) 1 257).bind fun r3 =>
          (floodFill n r3.2 1 (0 - 1) 1 257).bind fun r4 =>
          Run.ok (1, r4.2) := rfl
      rw [h]
      cases n with
      | zero => rfl
      | succ m =>
        have h2 : floodFill (m + 1) (some row3x1bpp1) 2 0 1 257 =
            Run.ok (0, some row3x1bpp1) := rfl
        rw [h2]
        simp only [Run.bind]
        rw [ih.1]

/-- C10 as stated fails: on a surface of 1-byte pixels, with target colour 1 and fill
colour 257 (different colours, equal once stored in a byte), `floodFill` does not
terminate, whatever the recursion depth allowed. -/
theorem floodFill_truncated_colour_diverges :
    (257 : Nat) ≠ 1 ∧
      ¬ ∃ fuel : Nat, floodFill fuel (some row3x1bpp1) 0 0 1 257 ≠ Run.timeout := by
  refine ⟨by decide, ?_⟩
  rintro ⟨fuel, h⟩
  exact h (floodFill_row_loop fuel).1

/-- C10, amended, on the 3x3 surface: a depth of 3 is enough for the two pixels of
colour 1. -/
theorem floodFill_terminates_witness :
    floodFill (corner3x3.countColour 1 + 1) (some corner3x3) 0 0 1 2 ≠ Run.timeout :=
  floodFill_terminates corner3x3 0 0 1 2 rfl rfl (by decide) (by decide)

/-- C3, amended: on a well-formed surface of 4-byte pixels, with `fill != target` and a
recursion depth above the number of words of the target colour: started at a pixel of
colour `target` whose 4-connected region of `target` pixels stays clear of the last column
and the last row, `floodFill` returns 1 and has recoloured exactly that region to `fill`,
every other pixel keeping its colour; started at a pixel of another colour, or at a
position with `x < 0`, `y < 0`, `x > w` or `y > h`, it returns 0 and leaves the surface as
it is. -/
theorem floodFill_recolours_region (s : SDL_Surface) (x y : Int) (target fill fuel : Nat)
    (hwf : s.WellFormed) (hbpp : s.BytesPerPixel = 4) (hfill : fill < 4294967296)
    (hne : fill ≠ target) (hfuel : s.countColour target < fuel) :
    (inGrid s.w s.h x y → s.colourAt x y = target →
      (∀ a b, Region s.w s.h s.colourAt target x y a b → a + 1 < s.w ∧ b + 1 < s.h) →
      ∃ s2 : SDL_Surface,
        floodFill fuel (some s) x y target fill = Run.ok (1, some s2) ∧ SameLayout s s2 ∧
        FilledFrom s.w s.h s.colourAt s2.colourAt target fill x y) ∧
    (inGrid s.w s.h x y → s.colourAt x y ≠ target →
      floodFill fuel (some s) x y target fill = Run.ok (0, some s)) ∧
    ((x < 0 ∨ y < 0 ∨ x > s.w ∨ y > s.h) →
      floodFill fuel (some s) x y target fill = Run.ok (0, some s)) := by
  refine ⟨?_, ?_, ?_⟩
  · intro hg ht hclear
    obtain ⟨r, s2, e, h1, -, lay, -, F⟩ :=
      floodFill_fills target fill hne hfill fuel s x y hwf hbpp hfuel hg.2.1 hg.2.2.2 hclear
    rw [h1 ⟨hg, ht⟩] at e
    exact ⟨s2, e, lay, F⟩
  · intro hg ht
    have hclear : ∀ a b, Region s.w s.h s.colourAt target x y a b →
        a + 1 < s.w ∧ b + 1 < s.h := fun a b hr =>
      absurd (region_colour _ _ _ _ _ _ _ _ (region_start _ _ _ _ _ _ _ _ hr)).2 ht
    obtain ⟨r, s2, e, -, h0, -⟩ :=
      floodFill_fills target fill hne hfill fuel s x y hwf hbpp hfuel hg.2.1 hg.2.2.2 hclear
    obtain ⟨hr, hs⟩ := h0 (fun h => ht h.2)
    rw [hr, hs] at e
    exact e
  · intro hout
    obtain ⟨n, rfl⟩ : ∃ n, fuel = n + 1 := ⟨fuel - 1, by omega⟩
    have hin : insideBoundaries (some s) x y = 0 := by
      simp only [insideBoundaries]
      rw [if_pos (by omega)]
    rw [floodFill, hin]
    rfl

/-- The region of colour 1 at (0,0) of the 3x3 surface is the two pixels (0,0), (1,0). -/
theorem corner3x3_region (a b : Int)
    (hr : Region corner3x3.w corner3x3.h corner3x3.colourAt 1 0 0 a b) :
    (a = 0 ∧ b = 0) ∨ (a = 1 ∧ b = 0) := by
  induction hr with
  | start _ _ => exact Or.inl ⟨rfl, rfl⟩
  | step a0 b0 a2 b2 _ hadj hin hcol ih =>
    rcases ih with ⟨rfl, rfl⟩ | ⟨rfl, rfl⟩ <;>
      rcases hadj with ⟨rfl, rfl⟩ | ⟨rfl, rfl⟩ | ⟨rfl, rfl⟩ | ⟨rfl, rfl⟩ <;>
      first
        | exact Or.inl ⟨rfl, rfl⟩
        | exact Or.inr ⟨rfl, rfl⟩
        | exact absurd hin (by decide)
        | exact absurd hcol (by decide)

/-- C3, amended, on the 3x3 surface: the fill at (0,0) returns 1 and recolours the
region of (0,0), the pixels (0,0) and (1,0). -/
theorem floodFill_recolours_region_witness :
    ∃ s2 : SDL_Surface,
      floodFill 3 (some corner3x3) 0 0 1 2 = Run.ok (1, some s2) ∧ SameLayout corner3x3 s2 ∧
      FilledFrom corner3x3.w corner3x3.h corner3x3.colourAt s2.colourAt 1 2 0 0 :=
  (floodFill_recolours_region corner3x3 0 0 1 2 3 (by decide) rfl (by decide) (by decide)
    (by decide)).1 (by decide) rfl
    (fun a b hr => by
      rcases corner3x3_region a b hr with ⟨rfl, rfl⟩ | ⟨rfl, rfl⟩ <;> decide)

/-! ## Bresenham line -/

/-- The first loop of `drawLine` run with a recording `plot`: from a state with error term
`e` in `[2E - 2D, 2E)` and `n` columns to go, it records the columns `x + inx * i`,
`i < n`, each with the row offset `(2 E i + e + 2 D - 2 E) / (2 D)`. -/
theorem drawLineLoopX_plots (g : Int → Int → Int × Int)
    (plot : List (Int × Int) → Int → Int → Run (List (Int × Int)))
    (hplot : ∀ l a b, plot l a b = Run.ok (l ++ [g a b]))
    (D E inx iny x2 : Int) (hD : 0 < D) (hE : 0 ≤ E) (hED : E ≤ D) (hinx : inx ≠ 0)
    (n : Nat) :
    ∀ (fuel : Nat) (acc : List (Int × Int)) (x y e : Int), n < fuel → x2 = x + inx * n →
      2 * E - 2 * D ≤ e → e < 2 * E →
      drawLineLoopX plot fuel acc x y e x2 inx iny (2 * D) (2 * E) =
        Run.ok (acc ++ (List.range n).map (fun i : Nat =>
            g (x + inx * (i : Int)) (y + iny * ((2 * E * (i : Int) + (e + 2 * D - 2 * E)) / (2 * D)))),
          x2, y + iny * ((2 * E * (n : Int) + (e + 2 * D - 2 * E)) / (2 * D))) := by
  have h2D : (2 * D) ≠ 0 := by omega
  induction n with
  | zero =>
    intro fuel acc x y e hfuel hx he1 he2
    obtain ⟨f, rfl⟩ : ∃ f, fuel = f + 1 := ⟨fuel - 1, by omega⟩
    have hxx : x = x2 := by simp at hx; exact hx.symm
    have hz : (2 * E * ((0 : Nat) : Int) + (e + 2 * D - 2 * E)) / (2 * D) = 0 :=
      Int.ediv_eq_zero_of_lt (by push_cast; omega) (by push_cast; omega)
    rw [drawLineLoopX, if_neg (by simp [hxx]), hz]
    simp [hxx]
  | succ n ih =>
    intro fuel acc x y e hfuel hx he1 he2
    obtain ⟨f, rfl⟩ : ∃ f, fuel = f + 1 := ⟨fuel - 1, by omega⟩
    have hne : x ≠ x2 := by
      intro hxx
      rw [hxx] at hx
      have : inx * ((n + 1 : Nat) : Int) = 0 := by omega
      rcases mul_eq_zero.mp this with h | h
      · exact hinx h
      · exact absurd h (by push_cast; omega)
    have hz : (2 * E * ((0 : Nat) : Int) + (e + 2 * D - 2 * E)) / (2 * D) = 0 :=
      Int.ediv_eq_zero_of_lt (by push_cast; omega) (by push_cast; omega)
    rw [drawLineLoopX, if_pos hne, hplot]
    simp only [Run.bind]
    rw [List.range_succ_eq_map, List.map_cons, List.map_map, hz]
    by_cases hge : e ≥ 0
    · rw [if_pos hge, ih f (acc ++ [g x y]) (x + inx) (y + iny) (e - 2 * D + 2 * E) (by omega)
        (by rw [hx]; push_cast; ring) (by omega) (by omega)]
      have hq : ∀ i : Int, (2 * E * (i + 1) + (e + 2 * D - 2 * E)) / (2 * D)
          = (2 * E * i + (e - 2 * D + 2 * E + 2 * D - 2 * E)) / (2 * D) + 1 := by
        intro i
        rw [← Int.add_mul_ediv_right _ _ h2D]
        congr 1
        ring
      congr 1
      refine Prod.ext ?_ (Prod.ext rfl ?_)
      · simp only [List.append_assoc, List.singleton_append, mul_zero, add_zero]
        congr 2
        · simp
        · apply List.map_congr_left
          intro i _
          simp only [Function.comp, Nat.succ_eq_add_one]
          push_cast
          rw [hq]
          congr 1 <;> ring
      · show y + iny + iny * _ = y + iny * _
        push_cast
        rw [hq]
        ring
    · rw [if_neg hge, ih f (acc ++ [g x y]) (x + inx) y (e + 2 * E) (by omega)
        (by rw [hx]; push_cast; ring) (by omega) (by omega)]
      have hq : ∀ i : Int, (2 * E * (i + 1) + (e + 2 * D - 2 * E))
          = (2 * E * i + (e + 2 * E + 2 * D - 2 * E)) := by
        intro i
        ring
      congr 1
      refine Prod.ext ?_ (Prod.ext rfl ?_)
      · simp only [List.append_assoc, List.singleton_append, mul_zero, add_zero]
        congr 2
        · simp
        · apply List.map_congr_left
          intro i _
          simp only [Function.comp, Nat.succ_eq_add_one]
          push_cast
          rw [hq]
          congr 1
          ring
      · show y + iny * _ = y + iny * _
        push_cast
        rw [hq]

theorem bind_ok_run {α β : Type} (a : α) (g : α → Run β) : (Run.ok a).bind g = g a := rfl

theorem bind_assoc_run {α β γ : Type} (m : Run α) (g : α → Run β) (k : β → Run γ) :
    (m.bind g).bind k = m.bind fun a => (g a).bind k := by
  cases m <;> rfl

theorem plotAll_append {σ : Type} (plot : σ → Int → Int → Run σ) (ps qs : List (Int × Int)) :
    ∀ st : σ, plotAll plot st (ps ++ qs) = (plotAll plot st ps).bind fun st1 =>
      plotAll plot st1 qs := by
  induction ps with
  | nil => intro st; rfl
  | cons p ps ih =>
    intro st
    simp only [List.cons_append, plotAll]
    rw [bind_assoc_run]
    congr 1
    funext st1
    exact ih st1

/-- The recording run of the first loop does not depend on what was recorded before. -/
theorem drawLineLoopX_record_acc (g : Int → Int → Int × Int) (fuel : Nat) :
    ∀ (acc : List (Int × Int)) (x y e x2 inx iny dx dy : Int),
      drawLineLoopX (fun l a b => Run.ok (l ++ [g a b])) fuel acc x y e x2 inx iny dx dy =
        (drawLineLoopX (fun l a b => Run.ok (l ++ [g a b])) fuel [] x y e x2 inx iny dx dy).bind
          fun r => Run.ok (acc ++ r.1, r.2) := by
  induction fuel with
  | zero => intro acc x y e x2 inx iny dx dy; rfl
  | succ f ih =>
    intro acc x y e x2 inx iny dx dy
    rw [drawLineLoopX, drawLineLoopX]
    by_cases hx : x ≠ x2
    · rw [if_pos hx, if_pos hx]
      simp only [bind_ok_run, List.nil_append]
      by_cases he : e ≥ 0
      · rw [if_pos he, if_pos he, ih (acc ++ [g x y]), ih [g x y], bind_assoc_run]
        congr 1
        funext r
        simp [bind_ok_run]
      · rw [if_neg he, if_neg he, ih (acc ++ [g x y]), ih [g x y], bind_assoc_run]
        congr 1
        funext r
        simp [bind_ok_run]
    · rw [if_neg hx, if_neg hx]
      simp [bind_ok_run]

/-- The first loop of `drawLine` makes its `plot` calls at the positions its recording run
lists, in that order. -/
theorem drawLineLoopX_plotAll {σ : Type} (plot : σ → Int → Int → Run σ)
    (g : Int → Int → Int × Int) (fuel : Nat) :
    ∀ (st : σ) (x y e x2 inx iny dx dy : Int) (pts : List (Int × Int)) (xf yf : Int),
      drawLineLoopX (fun l a b => Run.ok (l ++ [g a b])) fuel [] x y e x2 inx iny dx dy =
          Run.ok (pts, xf, yf) →
      drawLineLoopX (fun s a b => plot s (g a b).1 (g a b).2) fuel st x y e x2 inx iny dx dy =
        (plotAll plot st pts).bind fun st2 => Run.ok (st2, xf, yf) := by
  induction fuel with
  | zero =>
    intro st x y e x2 inx iny dx dy pts xf yf h
    exact absurd h (by simp [drawLineLoopX])
  | succ f ih =>
    intro st x y e x2 inx iny dx dy pts xf yf h
    rw [drawLineLoopX] at h ⊢
    by_cases hx : x ≠ x2
    · rw [if_pos hx] at h ⊢
      simp only [bind_ok_run, List.nil_append] at h
      have key : ∀ (x3 y3 e3 : Int),
          drawLineLoopX (fun l a b => Run.ok (l ++ [g a b])) f [g x y] x3 y3 e3 x2 inx iny dx dy
            = Run.ok (pts, xf, yf) →
          ((plot st (g x y).1 (g x y).2).bind fun st1 =>
            drawLineLoopX (fun s a b => plot s (g a b).1 (g a b).2) f st1 x3 y3 e3 x2 inx iny
              dx dy) =
            (plotAll plot st pts).bind fun st2 => Run.ok (st2, xf, yf) := by
        intro x3 y3 e3 h3
        rw [drawLineLoopX_record_acc] at h3
        cases hl : drawLineLoopX (fun l a b => Run.ok (l ++ [g a b])) f [] x3 y3 e3 x2 inx iny
            dx dy with
        | fault => rw [hl] at h3; exact absurd h3 (by simp [Run.bind])
        | timeout => rw [hl] at h3; exact absurd h3 (by simp [Run.bind])
        | ok r =>
          obtain ⟨pts2, xf2, yf2⟩ := r
          rw [hl] at h3
          simp only [Run.bind, Run.ok.injEq, Prod.mk.injEq, List.singleton_append] at h3
          obtain ⟨hp, hxf, hyf⟩ := h3
          subst hp hxf hyf
          simp only [plotAll]
          rw [bind_assoc_run]
          congr 1
          funext st1
          exact ih st1 x3 y3 e3 x2 inx iny dx dy pts2 xf2 yf2 hl
      by_cases he : e ≥ 0
      · rw [if_pos he] at h
        simp only [he, if_true]
        exact key _ _ _ h
      · rw [if_neg he] at h
        simp only [he, if_false]
        exact key _ _ _ h
    · rw [if_neg hx] at h ⊢
      simp only [Run.ok.injEq, Prod.mk.injEq] at h
      obtain ⟨hp, hxf, hyf⟩ := h
      subst hp hxf hyf
      rfl

/-- The second loop of `drawLine` is the first loop with the two axes exchanged. -/
theorem drawLineLoopY_eq {σ : Type} (plot : σ → Int → Int → Run σ) (fuel : Nat) :
    ∀ (st : σ) (x1 y1 e y2 inx iny dx dy : Int),
      drawLineLoopY plot fuel st x1 y1 e y2 inx iny dx dy =
        (drawLineLoopX (fun s a b => plot s b a) fuel st y1 x1 e y2 iny inx dy dx).bind
          fun r => Run.ok (r.1, r.2.2, r.2.1) := by
  induction fuel with
  | zero => intro st x1 y1 e y2 inx iny dx dy; rfl
  | succ f ih =>
    intro st x1 y1 e y2 inx iny dx dy
    rw [drawLineLoopY, drawLineLoopX]
    by_cases hy : y1 ≠ y2
    · rw [if_pos hy, if_pos hy]
      cases hp : plot st x1 y1 with
      | fault => rfl
      | timeout => rfl
      | ok st1 =>
        simp only [Run.bind]
        by_cases he : e ≥ 0
        · rw [if_pos he, if_pos he, ih]
          rfl
        · rw [if_neg he, if_neg he, ih]
          rfl
    · rw [if_neg hy, if_neg hy]
      rfl

theorem bind_ok_right {α : Type} (m : Run α) : (m.bind fun a => Run.ok a) = m := by
  cases m <;> rfl

/-- The routine `drawLine` makes its `pixel` calls at the positions `drawLinePlots` lists,
in that order: whenever the recording run returns `pts`, the run with any `plot` is the
sequence of `plot` calls at `pts`. -/
theorem drawLineWith_plotAll {σ : Type} (plot : σ → Int → Int → Run σ) (fuel : Nat) (st : σ)
    (x1 y1 x2 y2 : Int) (pts : List (Int × Int))
    (h : drawLinePlots fuel x1 y1 x2 y2 = Run.ok pts) :
    drawLineWith plot fuel st x1 y1 x2 y2 = plotAll plot st pts := by
  simp only [drawLinePlots, drawLineWith] at h ⊢
  split at h
  · rename_i hb
    rw [if_pos hb]
    cases hl : drawLineLoopX (fun l x y => Run.ok (l ++ [(x, y)])) fuel [] x1 y1
        (2 * ((y2 - y1).natAbs : Int) - ((x2 - x1).natAbs : Int)) x2
        (if x2 - x1 > 0 then 1 else -1) (if y2 - y1 > 0 then 1 else -1)
        (2 * ((x2 - x1).natAbs : Int)) (2 * ((y2 - y1).natAbs : Int)) with
    | fault => rw [hl] at h; exact absurd h (by simp [Run.bind])
    | timeout => rw [hl] at h; exact absurd h (by simp [Run.bind])
    | ok r =>
      obtain ⟨p, xf, yf⟩ := r
      rw [hl] at h
      simp only [bind_ok_run, Run.ok.injEq] at h
      subst h
      have hk := drawLineLoopX_plotAll plot Prod.mk fuel st _ _ _ _ _ _ _ _ p xf yf hl
      simp only at hk
      rw [hk, bind_assoc_run, plotAll_append]
      congr 1
      funext st1
      simp only [bind_ok_run, plotAll]
      exact (bind_ok_right _).symm
  · rename_i hb
    rw [if_neg hb]
    rw [drawLineLoopY_eq] at h ⊢
    cases hl : drawLineLoopX (fun l a b => Run.ok (l ++ [(b, a)])) fuel [] y1 x1
        (2 * ((x2 - x1).natAbs : Int) - ((y2 - y1).natAbs : Int)) y2
        (if y2 - y1 > 0 then 1 else -1) (if x2 - x1 > 0 then 1 else -1)
        (2 * ((y2 - y1).natAbs : Int)) (2 * ((x2 - x1).natAbs : Int)) with
    | fault => rw [hl] at h; exact absurd h (by simp [Run.bind])
    | timeout => rw [hl] at h; exact absurd h (by simp [Run.bind])
    | ok r =>
      obtain ⟨p, xf, yf⟩ := r
      rw [hl] at h
      simp only [bind_ok_run, Run.ok.injEq] at h
      subst h
      have hk := drawLineLoopX_plotAll plot (fun a b => (b, a)) fuel st _ _ _ _ _ _ _ _ p xf yf hl
      simp only at hk
      rw [hk, bind_assoc_run, bind_assoc_run, plotAll_append]
      congr 1
      funext st1
      simp only [bind_ok_run, plotAll]
      exact (bind_ok_right _).symm

/-- Closed form of the positions `drawLine` plots when `|dy| <= |dx|`. -/
theorem drawLinePlots_xmajor (fuel : Nat) (x1 y1 x2 y2 : Int)
    (hmaj : (y2 - y1).natAbs ≤ (x2 - x1).natAbs) (hfuel : (x2 - x1).natAbs < fuel) :
    drawLinePlots fuel x1 y1 x2 y2 =
      Run.ok (majorPlots Prod.mk x1 (if x2 - x1 > 0 then 1 else -1)
        y1 (if y2 - y1 > 0 then 1 else -1) (x2 - x1).natAbs (y2 - y1).natAbs) := by
  have hge : (((x2 - x1).natAbs : Nat) : Int) ≥ (((y2 - y1).natAbs : Nat) : Int) := by
    exact_mod_cast hmaj
  simp only [drawLinePlots, drawLineWith, hge, if_true, majorPlots, Int.toNat_ofNat]
  by_cases hD : (x2 - x1).natAbs = 0
  · have hx : x1 = x2 := by omega
    obtain ⟨f, rfl⟩ : ∃ f, fuel = f + 1 := ⟨fuel - 1, by omega⟩
    rw [drawLineLoopX, if_neg (by simp [hx])]
    simp [hD, Run.bind, List.range_succ]
  · have hinx : (if x2 - x1 > 0 then (1 : Int) else -1) ≠ 0 := by
      split <;> decide
    rw [drawLineLoopX_plots Prod.mk _ (fun _ _ _ => rfl) _ _ _ _ x2 (by omega) (by omega) hge
      hinx (x2 - x1).natAbs fuel [] x1 y1 _ hfuel (by split <;> omega) (by omega) (by omega)]
    have h1 : ∀ i : Int, 2 * (((y2 - y1).natAbs : Nat) : Int) * i +
        (2 * (((y2 - y1).natAbs : Nat) : Int) - (((x2 - x1).natAbs : Nat) : Int) +
          2 * (((x2 - x1).natAbs : Nat) : Int) - 2 * (((y2 - y1).natAbs : Nat) : Int))
        = 2 * (((y2 - y1).natAbs : Nat) : Int) * i + (((x2 - x1).natAbs : Nat) : Int) := by
      intro i
      ring
    have hx2 : x2 = x1 + (if x2 - x1 > 0 then 1 else -1) * (((x2 - x1).natAbs : Nat) : Int) := by
      split <;> omega
    simp only [Run.bind, List.nil_append, List.range_succ, List.map_append, List.map_cons,
      List.map_nil, h1]
    refine congrArg Run.ok (congrArg _ ?_)
    rw [List.cons.injEq]
    exact ⟨Prod.ext hx2 rfl, rfl⟩

/-- Closed form of the positions `drawLine` plots when `|dx| < |dy|`. -/
theorem drawLinePlots_ymajor (fuel : Nat) (x1 y1 x2 y2 : Int)
    (hmaj : (x2 - x1).natAbs < (y2 - y1).natAbs) (hfuel : (y2 - y1).natAbs < fuel) :
    drawLinePlots fuel x1 y1 x2 y2 =
      Run.ok (majorPlots (fun a b => (b, a)) y1 (if y2 - y1 > 0 then 1 else -1)
        x1 (if x2 - x1 > 0 then 1 else -1) (y2 - y1).natAbs (x2 - x1).natAbs) := by
  have hlt : ¬ (((x2 - x1).natAbs : Nat) : Int) ≥ (((y2 - y1).natAbs : Nat) : Int) := by
    omega
  simp only [drawLinePlots, drawLineWith, hlt, if_false, majorPlots, Int.toNat_ofNat]
  have hiny : (if y2 - y1 > 0 then (1 : Int) else -1) ≠ 0 := by
    split <;> decide
  rw [drawLineLoopY_eq]
  rw [drawLineLoopX_plots (fun a b => (b, a)) _ (fun _ _ _ => rfl) _ _ _ _ y2 (by omega)
    (by omega) (by omega) hiny (y2 - y1).natAbs fuel [] y1 x1 _ hfuel (by split <;> omega)
    (by omega) (by omega)]
  have h1 : ∀ i : Int, 2 * (((x2 - x1).natAbs : Nat) : Int) * i +
      (2 * (((x2 - x1).natAbs : Nat) : Int) - (((y2 - y1).natAbs : Nat) : Int) +
        2 * (((y2 - y1).natAbs : Nat) : Int) - 2 * (((x2 - x1).natAbs : Nat) : Int))
      = 2 * (((x2 - x1).natAbs : Nat) : Int) * i + (((y2 - y1).natAbs : Nat) : Int) := by
    intro i
    ring
  have hy2 : y2 = y1 + (if y2 - y1 > 0 then 1 else -1) * (((y2 - y1).natAbs : Nat) : Int) := by
    split <;> omega
  simp only [Run.bind, List.nil_append, List.range_succ, List.map_append, List.map_cons,
    List.map_nil, h1]
  refine congrArg Run.ok (congrArg _ ?_)
  rw [List.cons.injEq]
  exact ⟨Prod.ext rfl hy2, rfl⟩

/-- Rounding `a / (2 D)` to nearest from the two ends of a line gives opposite results
unless `a / (2 D)` is exactly half-way between two integers. -/
theorem half_round_pair (D a : Int) (hD : 0 < D) (hr : a % (2 * D) ≠ D) :
    (a + D) / (2 * D) + (D - a) / (2 * D) = 0 := by
  have h2D : (2 * D) ≠ 0 := by omega
  obtain ⟨q, r, hqr, hr0, hr1, hrD⟩ :
      ∃ q r : Int, a = r + q * (2 * D) ∧ 0 ≤ r ∧ r < 2 * D ∧ r ≠ D :=
    ⟨a / (2 * D), a % (2 * D),
      by linarith [Int.ediv_add_emod a (2 * D), mul_comm (2 * D) (a / (2 * D))],
      Int.emod_nonneg a h2D, Int.emod_lt_of_pos a (show 0 < 2 * D by omega), hr⟩
  have e1 : a + D = (r + D) + q * (2 * D) := by rw [hqr]; ring
  have e2 : D - a = (D - r) + (-q) * (2 * D) := by rw [hqr]; ring
  rw [e1, e2, Int.add_mul_ediv_right _ _ h2D, Int.add_mul_ediv_right _ _ h2D]
  by_cases hlt : r < D
  · rw [Int.ediv_eq_zero_of_lt (show 0 ≤ r + D by omega) (show r + D < 2 * D by omega),
      Int.ediv_eq_zero_of_lt (show 0 ≤ D - r by omega) (show D - r < 2 * D by omega)]
    ring
  · have e3 : r + D = (r - D) + 1 * (2 * D) := by ring
    have e4 : D - r = (D - r + 2 * D) + (-1) * (2 * D) := by ring
    rw [e3, e4, Int.add_mul_ediv_right _ _ h2D, Int.add_mul_ediv_right _ _ h2D,
      Int.ediv_eq_zero_of_lt (show 0 ≤ r - D by omega) (show r - D < 2 * D by omega),
      Int.ediv_eq_zero_of_lt (show 0 ≤ D - r + 2 * D by omega)
        (show D - r + 2 * D < 2 * D by omega)]
    ring

/-- A line without half-way ties, walked from its other end, gives the same positions in
the opposite order. -/
theorem majorPlots_reverse (g : Int → Int → Int × Int) (a1 a2 sa sa2 b1 b2 sb sb2 D E : Int)
    (hD : 0 ≤ D) (hE : 0 ≤ E) (hED : E ≤ D)
    (ha : a2 = a1 + sa * D) (hb : b2 = b1 + sb * E)
    (hsa : sa2 = -sa ∨ D = 0) (hsb : sb2 = -sb ∨ E = 0)
    (hties : ∀ n : Nat, (n : Int) < D → (2 * E * (n : Int)) % (2 * D) ≠ D) :
    majorPlots g a2 sa2 b2 sb2 D E = (majorPlots g a1 sa b1 sb D E).reverse := by
  apply List.ext_getElem
  · simp [majorPlots]
  · intro n h1 h2
    have hn : n < D.toNat + 1 := by simpa [majorPlots] using h1
    simp only [majorPlots, List.getElem_reverse, List.getElem_map, List.getElem_range,
      List.length_map, List.length_range]
    have hcast : ((D.toNat + 1 - 1 - n : Nat) : Int) = D - n := by omega
    rw [hcast]
    have hni : (n : Int) ≤ D := by omega
    have hJ0 : E = 0 → ∀ i : Int, (2 * E * i + D) / (2 * D) = 0 := by
      intro hE0 i
      rw [hE0]
      by_cases hD0 : D = 0
      · rw [hD0]; simp
      · exact Int.ediv_eq_zero_of_lt (by omega) (by omega)
    congr 1
    · rcases hsa with h | h
      · rw [ha, h]; ring
      · have : (n : Int) = 0 := by omega
        rw [ha, h, this]; ring
    · by_cases hE0 : E = 0
      · rw [hJ0 hE0, hJ0 hE0, hb, hE0]; ring
      · have hsb2 : sb2 = -sb := by
          rcases hsb with h | h
          · exact h
          · exact absurd h hE0
        have hDpos : 0 < D := by omega
        have h2D : (2 * D) ≠ 0 := by omega
        have htie : (2 * E * (n : Int)) % (2 * D) ≠ D := by
          by_cases hnD : (n : Int) < D
          · exact hties n hnD
          · have hnD2 : (n : Int) = D := by omega
            have : 2 * E * (n : Int) = E * (2 * D) := by rw [hnD2]; ring
            rw [this, Int.mul_emod_left]
            omega
        have hK := half_round_pair D (2 * E * (n : Int)) hDpos htie
        have hsplit : 2 * E * (D - (n : Int)) + D = (D - 2 * E * (n : Int)) + E * (2 * D) := by
          ring
        rw [hsplit, Int.add_mul_ediv_right _ _ h2D, hb, hsb2]
        have : (D - 2 * E * (n : Int)) / (2 * D) = -((2 * E * (n : Int) + D) / (2 * D)) := by
          omega
        rw [this]
        ring

theorem ties_cast (D E : Nat)
    (hties : ∀ i : Nat, i < D → (2 * E * i) % (2 * D) ≠ D) :
    ∀ n : Nat, (n : Int) < (D : Int) → (2 * (E : Int) * (n : Int)) % (2 * (D : Int)) ≠ D := by
  intro n hn hcon
  apply hties n (by omega)
  have hc : (((2 * E * n) % (2 * D) : Nat) : Int) = (D : Int) := by
    push_cast
    exact hcon
  exact_mod_cast hc

/-- C4, amended: when no step of the line is an exact half-way tie, `drawLine` from
`(x1,y1)` to `(x2,y2)` and `drawLine` from `(x2,y2)` to `(x1,y1)` pass the same positions to
`pixel`, in opposite order, on whatever surface and with whatever colour. With `D` the
longer and `E` the shorter of `|x2-x1|` and `|y2-y1|`, a tie is a step `i < D` with
`2 E i mod 2 D = D`; horizontal, vertical and diagonal lines and all lines with `D` odd
have none. The loop budget `fuel` only has to exceed `D`. -/
theorem drawLine_symmetric_without_ties (fuel : Nat) (x1 y1 x2 y2 : Int)
    (hfuel : max (x2 - x1).natAbs (y2 - y1).natAbs < fuel)
    (hties : ∀ i : Nat, i < max (x2 - x1).natAbs (y2 - y1).natAbs →
      (2 * min (x2 - x1).natAbs (y2 - y1).natAbs * i) %
          (2 * max (x2 - x1).natAbs (y2 - y1).natAbs) ≠
        max (x2 - x1).natAbs (y2 - y1).natAbs) :
    ∃ pts : List (Int × Int),
      drawLinePlots fuel x1 y1 x2 y2 = Run.ok pts ∧
      drawLinePlots fuel x2 y2 x1 y1 = Run.ok pts.reverse ∧
      ∀ (s : SDL_Surface) (c : Nat),
        drawLine fuel (some s) x1 y1 x2 y2 c =
            ((plotAll (plotPixel c) (some s) pts).bind fun s2 => Run.ok (1, s2)) ∧
          drawLine fuel (some s) x2 y2 x1 y1 c =
            ((plotAll (plotPixel c) (some s) pts.reverse).bind fun s2 => Run.ok (1, s2)) := by
  suffices hs : ∃ pts : List (Int × Int),
      drawLinePlots fuel x1 y1 x2 y2 = Run.ok pts ∧
      drawLinePlots fuel x2 y2 x1 y1 = Run.ok pts.reverse by
    obtain ⟨pts, h1, h2⟩ := hs
    refine ⟨pts, h1, h2, fun s c => ⟨?_, ?_⟩⟩
    · simp only [drawLine]
      rw [drawLineWith_plotAll _ _ _ _ _ _ _ pts h1]
    · simp only [drawLine]
      rw [drawLineWith_plotAll _ _ _ _ _ _ _ pts.reverse h2]
  have hdx : (x1 - x2).natAbs = (x2 - x1).natAbs := by omega
  have hdy : (y1 - y2).natAbs = (y2 - y1).natAbs := by omega
  by_cases hmaj : (y2 - y1).natAbs ≤ (x2 - x1).natAbs
  · rw [Nat.max_eq_left hmaj] at hfuel hties
    rw [Nat.min_eq_right hmaj] at hties
    refine ⟨_, drawLinePlots_xmajor fuel x1 y1 x2 y2 hmaj hfuel, ?_⟩
    rw [drawLinePlots_xmajor fuel x2 y2 x1 y1 (by omega) (by omega), hdx, hdy]
    congr 1
    apply majorPlots_reverse
    · omega
    · omega
    · exact_mod_cast hmaj
    · split <;> omega
    · split <;> omega
    · split <;> split <;> omega
    · split <;> split <;> omega
    · exact ties_cast _ _ hties
  · have hmaj2 : (x2 - x1).natAbs < (y2 - y1).natAbs := by omega
    rw [Nat.max_eq_right (le_of_lt hmaj2)] at hfuel hties
    rw [Nat.min_eq_left (le_of_lt hmaj2)] at hties
    refine ⟨_, drawLinePlots_ymajor fuel x1 y1 x2 y2 hmaj2 hfuel, ?_⟩
    rw [drawLinePlots_ymajor fuel x2 y2 x1 y1 (by omega) (by omega), hdx, hdy]
    congr 1
    apply majorPlots_reverse
    · omega
    · omega
    · exact_mod_cast le_of_lt hmaj2
    · split <;> omega
    · split <;> omega
    · split <;> split <;> omega
    · split <;> split <;> omega
    · exact ties_cast _ _ hties

/-- C4, amended, on the line from (0,0) to (3,1), which has no tie: both directions plot
(0,0), (1,0), (2,1), (3,1). -/
theorem drawLine_symmetric_without_ties_witness :
    ∃ pts : List (Int × Int),
      drawLinePlots 4 0 0 3 1 = Run.ok pts ∧ drawLinePlots 4 3 1 0 0 = Run.ok pts.reverse ∧
      ∀ (s : SDL_Surface) (c : Nat),
        drawLine 4 (some s) 0 0 3 1 c =
            ((plotAll (plotPixel c) (some s) pts).bind fun s2 => Run.ok (1, s2)) ∧
          drawLine 4 (some s) 3 1 0 0 c =
            ((plotAll (plotPixel c) (some s) pts.reverse).bind fun s2 => Run.ok (1, s2)) :=
  drawLine_symmetric_without_ties 4 0 0 3 1 (by decide) (by decide)

/-- C4 as stated fails: from (0,0) to (2,1) `drawLine` plots (1,1), from (2,1) to (0,0) it
plots (1,0) instead, and on equal blank surfaces the two calls leave different pixels
painted. -/
theorem drawLine_not_symmetric :
    drawLinePlots 3 0 0 2 1 = Run.ok [(0, 0), (1, 1), (2, 1)] ∧
      drawLinePlots 3 2 1 0 0 = Run.ok [(2, 1), (1, 0), (0, 0)] ∧
      ((1, 1) : Int × Int) ∉ [((2, 1) : Int × Int), (1, 0), (0, 0)] ∧
      drawLine 3 (some blank4x4) 0 0 2 1 0xFF0000 ≠
        drawLine 3 (some blank4x4) 2 1 0 0 0xFF0000 := by
  refine ⟨rfl, rfl, by decide, by decide⟩

/-! ## Pixel reads: 2-byte pixels and `NULL` -/

/-- C16 (defect in the code): on 2-byte pixels `getPixel` reads an `int`, four bytes, at
the pixel address, so the value returned holds the next pixel in its upper half. After
`pixel(s, 0, 0, 1)` on the 2x1 surface whose pixel (1,0) is 2, `getPixel(s, 0, 0)` is
`0x00020001`, not 1. -/
theorem getPixel_two_bytes_reads_neighbour :
    pixel (some pair2x1bpp2) 0 0 1 =
        Run.ok (1, some { pair2x1bpp2 with pixels := [1, 0, 2, 0] }) ∧
      getPixel (some { pair2x1bpp2 with pixels := [1, 0, 2, 0] }) 0 0 = Run.ok 131073 ∧
      (131073 : Nat) ≠ 1 % 65536 := by
  decide

/-- C17 (defect in the code): with a `NULL` surface `insideBoundaries`, `pixel` and
`pixelRGB` return 0, but `getPixel` has no `NULL` test and reads `surface->format`. -/
theorem getPixel_null_faults (mapRGB : Int → Int → Int → Nat) (x y r g b : Int) (c : Nat) :
    insideBoundaries none x y = 0 ∧ pixel none x y c = Run.ok (0, none) ∧
      pixelRGB mapRGB none x y r g b = Run.ok (0, none) ∧ getPixel none x y = Run.fault :=
  ⟨rfl, rfl, rfl, rfl⟩

/-! ## Rectangles on concrete surfaces -/

/-- C18 (defect in the code): `drawFilledRectangle` draws each row as a line from `x` to
`x + width`, both ends included, so it paints `width + 1` columns. On the blank 4x4
surface the rectangle (0,0,2,2) comes out 3 pixels wide, while `drawRectangle` paints the
2x2 pixels. -/
theorem drawFilledRectangle_one_column_more :
    drawFilledRectangle 3 (some blank4x4) 0 0 2 2 1 =
        Run.ok (1, some { blank4x4 with
          pixels := [1, 0, 0, 0, 1, 0, 0, 0, 1, 0, 0, 0, 0, 0, 0, 0,
                     1, 0, 0, 0, 1, 0, 0, 0, 1, 0, 0, 0, 0, 0, 0, 0,
                     0, 0, 0, 0, 0, 0, 0, 0, 0, 0, 0, 0, 0, 0, 0, 0,
                     0, 0, 0, 0, 0, 0, 0, 0, 0, 0, 0, 0, 0, 0, 0, 0] }) ∧
      drawRectangle (some blank4x4) 0 0 2 2 1 =
        Run.ok (1, some { blank4x4 with
          pixels := [1, 0, 0, 0, 1, 0, 0, 0, 0, 0, 0, 0, 0, 0, 0, 0,
                     1, 0, 0, 0, 1, 0, 0, 0, 0, 0, 0, 0, 0, 0, 0, 0,
                     0, 0, 0, 0, 0, 0, 0, 0, 0, 0, 0, 0, 0, 0, 0, 0,
                     0, 0, 0, 0, 0, 0, 0, 0, 0, 0, 0, 0, 0, 0, 0, 0] }) :=
  ⟨rfl, rfl⟩

set_option maxRecDepth 8192 in
/-- C12 (defect in the code): after `drawRectangleFrame(s, 1, 1, 2, 2, 7)` on the blank
5x5 surface, `floodFill(s, 0, 0, 0, 9)` from the corner outside the frame walks down the
right edge and, because `insideBoundaries` accepts `y == h`, reads the row below the last
one, which is past the end of the pixel buffer. -/
theorem floodFill_outside_frame_faults :
    drawRectangleFrame 3 (some blank5x5) 1 1 2 2 7 = Run.ok (1, some framed5x5) ∧
      ∀ n : Nat, floodFill (n + 14) (some framed5x5) 0 0 0 9 = Run.fault := by
  exact ⟨rfl, fun n => rfl⟩

/-! ## `floodFill` with the fill colour equal to the target colour -/

theorem getD_lt_256 (m : List Nat) (hb : ∀ b ∈ m, b < 256) (i : Nat) : m.getD i 0 < 256 := by
  rw [List.getD_eq_getElem?_getD]
  cases hi : m[i]? with
  | none => simp
  | some b =>
    simp only [Option.getD_some]
    exact hb b (List.getElem?_mem hi)

theorem readLE_lt (n : Nat) (m : List Nat) (hb : ∀ b ∈ m, b < 256) (o : Nat) :
    readLE m o n < 256 ^ n := by
  induction n generalizing o with
  | zero => simp [readLE]
  | succ n ih =>
    simp only [readLE]
    have h0 := getD_lt_256 m hb o
    have h1 := ih (o + 1)
    rw [pow_succ]
    omega

/-- The bytes of the value read at `o` are the bytes stored at `o`. -/
theorem bytesLE_readLE (n : Nat) (m : List Nat) (hb : ∀ b ∈ m, b < 256) (o j : Nat)
    (hj : j < n) : (bytesLE (readLE m o n) n).getD j 0 = m.getD (o + j) 0 := by
  induction n generalizing o j with
  | zero => omega
  | succ n ih =>
    simp only [readLE, bytesLE]
    have h0 := getD_lt_256 m hb o
    have e1 : (m.getD o 0 + 256 * readLE m (o + 1) n) % 256 = m.getD o 0 := by omega
    have e2 : (m.getD o 0 + 256 * readLE m (o + 1) n) / 256 = readLE m (o + 1) n := by omega
    rw [e1, e2]
    cases j with
    | zero => rfl
    | succ j =>
      rw [List.getD_cons_succ, ih (o + 1) j (by omega)]
      congr 1
      omega

/-- Storing the value just read at the same place leaves the buffer as it is. -/
theorem writeBytes_readLE (n : Nat) (m : List Nat) (hb : ∀ b ∈ m, b < 256) (o : Nat) :
    writeBytes m o (bytesLE (readLE m o n) n) = m := by
  apply List.ext_getElem (length_writeBytes _ _ _)
  intro i h1 h2
  rw [← List.getD_eq_getElem _ 0 h1, ← List.getD_eq_getElem _ 0 h2, getD_writeBytes,
    length_bytesLE]
  by_cases hc : o ≤ i ∧ i < o + n ∧ i < m.length
  · rw [if_pos hc, bytesLE_readLE n m hb o (i - o) (by omega)]
    congr 1
    omega
  · rw [if_neg hc]

/-- A call of `floodFill` at a position that `insideBoundaries` rejects, or whose pixel
is not of the target colour, returns 0 and leaves the surface as it is. -/
theorem floodFill_not_target (n : Nat) (s : SDL_Surface) (a b : Int) (t f : Nat)
    (hq : insideBoundaries (some s) a b = 0 ∨
      ∃ c, getPixel (some s) a b = Run.ok c ∧ c ≠ t) :
    floodFill (n + 1) (some s) a b t f = Run.ok (0, some s) := by
  rw [floodFill]
  by_cases hin : insideBoundaries (some s) a b ≠ 0
  · rcases hq with h0 | ⟨c, hc, hne⟩
    · exact absurd h0 hin
    · rw [if_pos hin]
      simp only [hc, Run.bind]
      rw [if_neg hne]
  · rw [if_neg hin]

/-- On 4-byte pixels, at a position that holds the colour `t`, the call
`pixel(surface, x, y, t)` leaves the surface as it is. -/
theorem pixel_same_colour (s : SDL_Surface) (x y : Int) (t : Nat)
    (hbpp : s.BytesPerPixel = 4) (hal : s.pitch % 4 = 0) (hbytes : ∀ b ∈ s.pixels, b < 256)
    (hin : insideBoundaries (some s) x y ≠ 0) (hstart : getPixel (some s) x y = Run.ok t) :
    pixel (some s) x y t = Run.ok (1, some s) := by
  obtain ⟨k, hg, hp⟩ := pixel4_word s x y t hbpp hal hin
  rw [hstart] at hg
  by_cases hb : 4 * k + 4 ≤ s.pixels.length
  · rw [if_pos hb] at hg hp
    have ht : t = readLE s.pixels (4 * k) 4 := by
      injection hg
    have hlt := readLE_lt 4 s.pixels hbytes (4 * k)
    rw [hp, ht, Nat.mod_eq_of_lt (by norm_num at hlt ⊢; exact hlt),
      writeBytes_readLE 4 s.pixels hbytes (4 * k)]
  · rw [if_neg hb] at hg
    exact Run.noConfusion hg

theorem bind_not_ok {α β : Type} (m : Run α) (g : α → Run β) (h : ∀ r, m ≠ Run.ok r) :
    ∀ r, m.bind g ≠ Run.ok r := by
  intro r
  cases m with
  | ok a => exact absurd rfl (h a)
  | fault => exact fun hc => Run.noConfusion hc
  | timeout => exact fun hc => Run.noConfusion hc

/-- One step of `floodFill` with fill colour `t` at a pixel that holds `t`: the store
changes nothing and the four neighbours are called on the same surface. -/
theorem floodFill_same_colour_step (n : Nat) (s : SDL_Surface) (x y : Int) (t : Nat)
    (hbpp : s.BytesPerPixel = 4) (hal : s.pitch % 4 = 0) (hbytes : ∀ b ∈ s.pixels, b < 256)
    (hin : insideBoundaries (some s) x y ≠ 0) (hstart : getPixel (some s) x y = Run.ok t) :
    floodFill (n + 1) (some s) x y t t =
      (floodFill n (some s) (x + 1) y t t).bind fun r1 =>
      (floodFill n r1.2 (x - 1) y t t).bind fun r2 =>
      (floodFill n r2.2 x (y + 1) t t).bind fun r3 =>
      (floodFill n r3.2 x (y - 1) t t).bind fun r4 =>
      Run.ok (1, r4.2) := by
  rw [floodFill, if_pos hin]
  simp only [hstart, bind_ok_run, if_true,
    pixel_same_colour s x y t hbpp hal hbytes hin hstart]
  rw [if_pos (by decide)]

/-- With fill colour `t`, a call of `floodFill` at a pixel that holds `t` and has a
neighbour that holds `t` never returns: the two pixels keep calling each other. -/
theorem floodFill_same_colour_loops (s : SDL_Surface) (t : Nat)
    (hbpp : s.BytesPerPixel = 4) (hal : s.pitch % 4 = 0) (hbytes : ∀ b ∈ s.pixels, b < 256)
    (fuel : Nat) :
    ∀ x y : Int, insideBoundaries (some s) x y ≠ 0 → getPixel (some s) x y = Run.ok t →
      (∃ a b, adjacent x y a b ∧ insideBoundaries (some s) a b ≠ 0 ∧
        getPixel (some s) a b = Run.ok t) →
      ∀ r, floodFill fuel (some s) x y t t ≠ Run.ok r := by
  induction fuel with
  | zero => intro x y _ _ _ r hc; exact Run.noConfusion hc
  | succ fuel ih =>
    intro x y hin hstart hnb
    rw [floodFill_same_colour_step fuel s x y t hbpp hal hbytes hin hstart]
    have step : ∀ a b : Int, adjacent x y a b →
        floodFill fuel (some s) a b t t = Run.ok (0, some s) ∨
          ∀ r, floodFill fuel (some s) a b t t ≠ Run.ok r := by
      intro a b hadj
      cases fuel with
      | zero => exact Or.inr fun r hc => Run.noConfusion hc
      | succ m =>
        by_cases hq : insideBoundaries (some s) a b ≠ 0
        · obtain ⟨k, hg, -⟩ := pixel4_word s a b t hbpp hal hq
          by_cases hb : 4 * k + 4 ≤ s.pixels.length
          · rw [if_pos hb] at hg
            by_cases hc : readLE s.pixels (4 * k) 4 = t
            · rw [hc] at hg
              refine Or.inr (ih a b hq hg ⟨x, y, ?_, hin, hstart⟩)
              unfold adjacent at hadj ⊢
              omega
            · exact Or.inl (floodFill_not_target m s a b t t (Or.inr ⟨_, hg, hc⟩))
          · rw [if_neg hb] at hg
            right
            intro r
            rw [floodFill, if_pos hq, hg]
            exact fun hc => Run.noConfusion hc
        · exact Or.inl (floodFill_not_target m s a b t t (Or.inl (not_not.mp hq)))
    rcases step (x + 1) y (Or.inl ⟨rfl, rfl⟩) with h1 | h1
    swap
    · exact bind_not_ok _ _ h1
    rw [h1, bind_ok_run]
    rcases step (x - 1) y (Or.inr (Or.inl ⟨rfl, rfl⟩)) with h2 | h2
    swap
    · exact bind_not_ok _ _ h2
    rw [h2, bind_ok_run]
    rcases step x (y + 1) (Or.inr (Or.inr (Or.inl ⟨rfl, rfl⟩))) with h3 | h3
    swap
    · exact bind_not_ok _ _ h3
    rw [h3, bind_ok_run]
    rcases step x (y - 1) (Or.inr (Or.inr (Or.inr ⟨rfl, rfl⟩))) with h4 | h4
    swap
    · exact bind_not_ok _ _ h4
    obtain ⟨a, b, hadj, hq, hg⟩ := hnb
    have hno := ih a b hq hg ⟨x, y, by unfold adjacent at hadj ⊢; omega, hin, hstart⟩
    intro r
    rcases hadj with ⟨rfl, rfl⟩ | ⟨rfl, rfl⟩ | ⟨rfl, rfl⟩ | ⟨rfl, rfl⟩
    · exact absurd h1 (hno _)
    · exact absurd h2 (hno _)
    · exact absurd h3 (hno _)
    · exact absurd h4 (hno _)

/-- C11, amended: on 4-byte pixels with an aligned pitch, `floodFill` with
`fillColor == targetColor`, started at a pixel of that colour. When none of the four
neighbours the code visits holds the target colour, the call returns 1 and leaves the
surface exactly as it was (a recursion depth of 2 is enough). When one of them does, the
call never returns 1: it does not return at all, whatever depth it is given. -/
theorem floodFill_same_colour (s : SDL_Surface) (x y : Int) (t : Nat)
    (hbpp : s.BytesPerPixel = 4) (hal : s.pitch % 4 = 0) (hbytes : ∀ b ∈ s.pixels, b < 256)
    (hin : insideBoundaries (some s) x y ≠ 0) (hstart : getPixel (some s) x y = Run.ok t) :
    ((∀ a b, adjacent x y a b → insideBoundaries (some s) a b = 0 ∨
        ∃ c, getPixel (some s) a b = Run.ok c ∧ c ≠ t) →
      ∀ n, floodFill (n + 2) (some s) x y t t = Run.ok (1, some s)) ∧
    ((∃ a b, adjacent x y a b ∧ insideBoundaries (some s) a b ≠ 0 ∧
        getPixel (some s) a b = Run.ok t) →
      ∀ fuel r, floodFill fuel (some s) x y t t ≠ Run.ok r) := by
  constructor
  · intro hnb n
    rw [floodFill_same_colour_step (n + 1) s x y t hbpp hal hbytes hin hstart,
      floodFill_not_target n s (x + 1) y t t (hnb _ _ (Or.inl ⟨rfl, rfl⟩)), bind_ok_run,
      floodFill_not_target n s (x - 1) y t t (hnb _ _ (Or.inr (Or.inl ⟨rfl, rfl⟩))),
      bind_ok_run,
      floodFill_not_target n s x (y + 1) t t (hnb _ _ (Or.inr (Or.inr (Or.inl ⟨rfl, rfl⟩)))),
      bind_ok_run,
      floodFill_not_target n s x (y - 1) t t (hnb _ _ (Or.inr (Or.inr (Or.inr ⟨rfl, rfl⟩)))),
      bind_ok_run]
  · intro hnb fuel
    exact floodFill_same_colour_loops s t hbpp hal hbytes fuel x y hin hstart hnb

/-- C11, amended, on the 3x3 surface whose centre alone holds colour 1: the fill of
colour 1 with colour 1 at the centre returns 1 and changes nothing. -/
theorem floodFill_same_colour_witness :
    floodFill 2 (some centre3x3) 1 1 1 1 = Run.ok (1, some centre3x3) :=
  (floodFill_same_colour centre3x3 1 1 1 rfl rfl (by decide) (by decide) rfl).1
    (fun a b hadj => by
      rcases hadj with ⟨rfl, rfl⟩ | ⟨rfl, rfl⟩ | ⟨rfl, rfl⟩ | ⟨rfl, rfl⟩ <;>
        exact Or.inr ⟨0, rfl, by decide⟩) 0

/-- On the surface `row3x1Ones`, the fill of colour 1 with colour 1 keeps going between
(0,0) and (1,0). -/
theorem floodFill_ones_loop (n : Nat) :
    floodFill n (some row3x1Ones) 0 0 1 1 = Run.timeout ∧
      floodFill n (some row3x1Ones) 1 0 1 1 = Run.timeout := by
  induction n with
  | zero => exact ⟨rfl, rfl⟩
  | succ n ih =>
    constructor
    · have h : floodFill (n + 1) (some row3x1Ones) 0 0 1 1 =
          (floodFill n (some row3x1Ones) 1 0 1 1).bind fun r1 =>
          (floodFill n r1.2 (0 - 1) 0 1 1).bind fun r2 =>
          (floodFill n r2.2 0 (0 + 1) 1 1).bind fun r3 =>
          (floodFill n r3.2 0 (0 - 1) 1 1).bind fun r4 =>
          Run.ok (1, r4.2) := rfl
      rw [h, ih.2]
      rfl
    · have h : floodFill (n + 1) (some row3x1Ones) 1 0 1 1 =
          (floodFill n (some row3x1Ones) 2 0 1 1).bind fun r1 =>
          (floodFill n r1.2 0 0 1 1).bind fun r2 =>
          (floodFill n r2.2 1 (0 + 1) 1 1).bind fun r3 =>
          (floodFill n r3.2 1 (0 - 1) 1 1).bind fun r4 =>
          Run.ok (1, r4.2) := rfl
      rw [h]
      cases n with
      | zero => rfl
      | succ m =>
        have h2 : floodFill (m + 1) (some row3x1Ones) 2 0 1 1 =
            Run.ok (0, some row3x1Ones) := rfl
        rw [h2]
        simp only [Run.bind]
        rw [ih.1]

/-- C11 as stated fails: on a 3x1 surface whose pixels (0,0) and (1,0) hold colour 1, the
start pixel (0,0) equals the target colour 1 and the fill colour is 1 too, yet
`floodFill` does not return, whatever the recursion depth allowed. -/
theorem floodFill_same_colour_diverges :
    getPixel (some row3x1Ones) 0 0 = Run.ok 1 ∧
      ∀ fuel : Nat, floodFill fuel (some row3x1Ones) 0 0 1 1 = Run.timeout :=
  ⟨rfl, fun fuel => (floodFill_ones_loop fuel).1⟩

/-! ## The progress bar -/

theorem drawFramedRectangle_some (s : SDL_Surface) (x y w h : Int) (frame background : Nat) :
    ∃ s1 : SDL_Surface,
      drawFramedRectangle (some s) x y w h frame background = Run.ok (1, some s1) := by
  unfold drawFramedRectangle
  by_cases hc : frame = background
  · rw [if_pos hc]
    exact ⟨_, rfl⟩
  · rw [if_neg hc]
    exact ⟨_, rfl⟩

/-- The width of the filled bar when `max != min` and the quotient is small enough to be
a `float`: the clamped value times the inner width, divided by `max - min`. -/
theorem progressbarFill_eq (w min max value : Int) (hne : max ≠ min)
    (hq : (Int.tdiv ((if value < min then min else if value > max then max else value) * w)
      (max - min)).natAbs < 16777216) :
    progressbarFill w min max value =
      Run.ok (Int.tdiv ((if value < min then min else if value > max then max else value) * w)
        (max - min)) := by
  unfold progressbarFill floatRound
  simp only
  rw [if_neg (by omega), if_pos hq]

/-- The steps of `drawProgressbar` once the width of the filled bar is known. -/
theorem drawProgressbar_steps (s : SDL_Surface) (x y w h : Int) (bgcol fcol scol sbgcol : Nat)
    (min max value final : Int) (hmax : max ≠ 0)
    (hfill : progressbarFill (w - 6) min max value = Run.ok final) :
    drawProgressbar (some s) x y w h bgcol fcol scol sbgcol min max value =
        ((drawFramedRectangle (some s) x y w h fcol bgcol).bind fun r1 =>
          (drawRectangle r1.2 (x + 3) (y + 3) (w - 6) (h - 6) sbgcol).bind fun r2 =>
          drawRectangle r2.2 (x + 3) (y + 3) final (h - 6) scol) ∧
      ∃ s3 : SDL_Surface,
        drawProgressbar (some s) x y w h bgcol fcol scol sbgcol min max value =
          Run.ok (1, some s3) := by
  obtain ⟨s1, h1⟩ := drawFramedRectangle_some s x y w h fcol bgcol
  have e : drawProgressbar (some s) x y w h bgcol fcol scol sbgcol min max value =
      (drawFramedRectangle (some s) x y w h fcol bgcol).bind fun r1 =>
        (drawRectangle r1.2 (x + 3) (y + 3) (w - 2 * 3) (h - 2 * 3) sbgcol).bind fun r2 =>
        (progressbarFill (w - 2 * 3) min max value).bind fun final =>
        (drawRectangle r2.2 (x + 3) (y + 3) final (h - 2 * 3) scol).bind fun r3 =>
        Run.ok (1, r3.2) := by
    unfold drawProgressbar
    simp only [recalculateRectangleDimension]
    rw [if_pos hmax]
  have e6 : w - 2 * 3 = w - 6 := by ring
  have e7 : h - 2 * 3 = h - 6 := by ring
  rw [e, e6, e7, hfill, h1]
  exact ⟨rfl, _, rfl⟩

/-- C14, amended: for a non-null surface, `min < max`, `max != 0` and `value >= max`,
with a quotient small enough to be a `float`, `drawProgressbar` draws the filled bar with
width `(max * (w - 6)) / (max - min)`: the value is clamped to `max`, but `min` is not
subtracted from it. For `min = 0` this is the inner width `w - 6`, a fully filled bar. -/
theorem drawProgressbar_clamped_to_max (s : SDL_Surface) (x y w h : Int)
    (bgcol fcol scol sbgcol : Nat) (min max value : Int)
    (hmm : min < max) (hmax : max ≠ 0) (hv : value ≥ max)
    (hq : (Int.tdiv (max * (w - 6)) (max - min)).natAbs < 16777216) :
    progressbarFill (w - 6) min max value =
        Run.ok (Int.tdiv (max * (w - 6)) (max - min)) ∧
      drawProgressbar (some s) x y w h bgcol fcol scol sbgcol min max value =
        ((drawFramedRectangle (some s) x y w h fcol bgcol).bind fun r1 =>
          (drawRectangle r1.2 (x + 3) (y + 3) (w - 6) (h - 6) sbgcol).bind fun r2 =>
          drawRectangle r2.2 (x + 3) (y + 3) (Int.tdiv (max * (w - 6)) (max - min)) (h - 6)
            scol) ∧
      (min = 0 → Int.tdiv (max * (w - 6)) (max - min) = w - 6) := by
  have hc : (if value < min then min else if value > max then max else value) = max := by
    rw [if_neg (by omega)]
    by_cases hgt : value > max
    · rw [if_pos hgt]
    · rw [if_neg hgt]
      omega
  have hfill : progressbarFill (w - 6) min max value =
      Run.ok (Int.tdiv (max * (w - 6)) (max - min)) := by
    have := progressbarFill_eq (w - 6) min max value (by omega) (by rw [hc]; exact hq)
    rw [hc] at this
    exact this
  refine ⟨hfill, (drawProgressbar_steps s x y w h bgcol fcol scol sbgcol min max value _ hmax
    hfill).1, ?_⟩
  intro h0
  rw [h0, sub_zero]
  exact Int.mul_tdiv_cancel_left _ hmax

/-- C14, amended, at `min = 0`, `max = 100`, `value = 150` and width 106: the filled bar
has the inner width 100. -/
theorem drawProgressbar_clamped_to_max_witness :
    progressbarFill (106 - 6) 0 100 150 = Run.ok (Int.tdiv (100 * (106 - 6)) (100 - 0)) ∧
      Int.tdiv (100 * (106 - 6)) (100 - 0) = 106 - 6 :=
  ⟨(drawProgressbar_clamped_to_max blank4x4 0 0 106 10 2 1 4 3 0 100 150 (by decide)
      (by decide) (by decide) (by decide)).1,
    (drawProgressbar_clamped_to_max blank4x4 0 0 106 10 2 1 4 3 0 100 150 (by decide)
      (by decide) (by decide) (by decide)).2.2 rfl⟩

/-- C14 as stated fails: with `min = 2`, `max = 4`, `value = 4` and width 12 (inner
width 6), the filled bar gets the width `(4 * 6) / (4 - 2) = 12`, not 6. On the row `y = 0`
of a 12x1 surface the bar (colour 4) covers the columns 3 to 11, over the inner
background and the frame, where a bar of the inner width would end at column 8. -/
theorem drawProgressbar_not_full :
    (2 : Int) < 4 ∧ (4 : Int) ≠ 0 ∧ (4 : Int) ≥ 4 ∧
      progressbarFill (12 - 6) 2 4 4 = Run.ok 12 ∧ (12 : Int) ≠ 12 - 6 ∧
      drawProgressbar (some blank12x1) 0 (-3) 12 7 2 1 4 3 2 4 4 =
        Run.ok (1, some { blank12x1 with
          pixels := [1, 0, 0, 0, 2, 0, 0, 0, 2, 0, 0, 0, 4, 0, 0, 0, 4, 0, 0, 0, 4, 0, 0, 0,
                     4, 0, 0, 0, 4, 0, 0, 0, 4, 0, 0, 0, 4, 0, 0, 0, 4, 0, 0, 0, 4, 0, 0, 0] }) :=
  ⟨by decide, by decide, by decide, rfl, by decide, rfl⟩

/-- C15, amended: for a non-null surface, `max != 0`, `max != min` and a quotient small
enough to be a `float`, `drawProgressbar` returns 1 and draws the filled bar with width
`(v * (w - 6)) / (max - min)` under truncating division, where `v` is `min` when
`value < min`, else `max` when `value > max`, else `value`. -/
theorem drawProgressbar_length (s : SDL_Surface) (x y w h : Int)
    (bgcol fcol scol sbgcol : Nat) (min max value : Int)
    (hmax : max ≠ 0) (hne : max ≠ min)
    (hq : (Int.tdiv ((if value < min then min else if value > max then max else value) *
      (w - 6)) (max - min)).natAbs < 16777216) :
    drawProgressbar (some s) x y w h bgcol fcol scol sbgcol min max value =
        ((drawFramedRectangle (some s) x y w h fcol bgcol).bind fun r1 =>
          (drawRectangle r1.2 (x + 3) (y + 3) (w - 6) (h - 6) sbgcol).bind fun r2 =>
          drawRectangle r2.2 (x + 3) (y + 3)
            (Int.tdiv ((if value < min then min else if value > max then max else value) *
              (w - 6)) (max - min)) (h - 6) scol) ∧
      ∃ s3 : SDL_Surface,
        drawProgressbar (some s) x y w h bgcol fcol scol sbgcol min max value =
          Run.ok (1, some s3) :=
  drawProgressbar_steps s x y w h bgcol fcol scol sbgcol min max value _ hmax
    (progressbarFill_eq (w - 6) min max value hne hq)

/-- C15, amended, on the 12x1 surface with `min = 0`, `max = 4`, `value = 2` and width 12:
the filled bar has the width `(2 * 6) / 4 = 3`. -/
theorem drawProgressbar_length_witness :
    drawProgressbar (some blank12x1) 0 (-3) 12 7 2 1 4 3 0 4 2 =
        ((drawFramedRectangle (some blank12x1) 0 (-3) 12 7 1 2).bind fun r1 =>
          (drawRectangle r1.2 (0 + 3) (-3 + 3) (12 - 6) (7 - 6) 3).bind fun r2 =>
          drawRectangle r2.2 (0 + 3) (-3 + 3)
            (Int.tdiv ((if (2 : Int) < 0 then 0 else if (2 : Int) > 4 then 4 else 2) *
              (12 - 6)) (4 - 0)) (7 - 6) 4) ∧
      ∃ s3 : SDL_Surface,
        drawProgressbar (some blank12x1) 0 (-3) 12 7 2 1 4 3 0 4 2 = Run.ok (1, some s3) :=
  drawProgressbar_length blank12x1 0 (-3) 12 7 2 1 4 3 0 4 2 (by decide) (by decide)
    (by decide)

/-- C15 as stated fails: `max != 0` does not keep `max - min` from being zero. With
`min = max = 5` the division `(value * w) / (max - min)` is a division by zero. And a
quotient of `2^24 + 1` does not survive the conversion to `float`: the bar gets the
width `2^24`. -/
theorem drawProgressbar_division_by_zero :
    (5 : Int) ≠ 0 ∧
      drawProgressbar (some blank12x1) 0 (-3) 12 7 2 1 4 3 5 5 5 = Run.fault ∧
      (16777217 : Int) ≠ 0 ∧
      Int.tdiv (16777217 * 1) (16777217 - 16777216) = 16777217 ∧
      progressbarFill 1 16777216 16777217 16777217 = Run.ok 16777216 := by
  refine ⟨by decide, rfl, by decide, by decide, ?_⟩
  simp only [progressbarFill, floatRound]
  norm_num [Nat.log2]
  rfl

/-! ## The framed rectangle of one colour -/

/-- Filling a rectangle that lies within a rectangle just filled with the same colour
changes nothing. -/
theorem SDL_FillRect_within (s : SDL_Surface) (r r2 : SDL_Rect) (c : Nat)
    (hx : r.x ≤ r2.x) (hx2 : r2.x + r2.w ≤ r.x + r.w) (hy : r.y ≤ r2.y)
    (hy2 : r2.y + r2.h ≤ r.y + r.h) :
    SDL_FillRect (SDL_FillRect s r c) r2 c = SDL_FillRect s r c := by
  have hpx : (SDL_FillRect (SDL_FillRect s r c) r2 c).pixels = (SDL_FillRect s r c).pixels := by
    simp only [SDL_FillRect]
    apply List.ext_getElem
    · simp only [List.length_mapIdx]
    · intro i h1 h2
      simp only [List.getElem_mapIdx]
      by_cases hc : max r2.x 0 ≤ ((i % s.pitch / s.BytesPerPixel : Nat) : Int) ∧
          ((i % s.pitch / s.BytesPerPixel : Nat) : Int) < min (r2.x + r2.w) s.w ∧
          max r2.y 0 ≤ ((i / s.pitch : Nat) : Int) ∧
          ((i / s.pitch : Nat) : Int) < min (r2.y + r2.h) s.h
      · have hc1 : max r.x 0 ≤ ((i % s.pitch / s.BytesPerPixel : Nat) : Int) ∧
            ((i % s.pitch / s.BytesPerPixel : Nat) : Int) < min (r.x + r.w) s.w ∧
            max r.y 0 ≤ ((i / s.pitch : Nat) : Int) ∧
            ((i / s.pitch : Nat) : Int) < min (r.y + r.h) s.h := by
          simp only [max_le_iff, lt_min_iff] at hc ⊢
          omega
        rw [if_pos hc, if_pos hc1]
      · rw [if_neg hc]
  have e : ∀ a b : SDL_Surface, a.w = b.w → a.h = b.h → a.pitch = b.pitch →
      a.BytesPerPixel = b.BytesPerPixel → a.pixels = b.pixels → a = b := by
    intro a b h1 h2 h3 h4 h5
    cases a
    cases b
    simp only at h1 h2 h3 h4 h5
    subst h1 h2 h3 h4 h5
    rfl
  exact e _ _ rfl rfl rfl rfl hpx

/-- C19, amended: for a rectangle whose stored width and height (the `Uint16` fields of
`SDL_Rect`) are at least 2 and whose stored `x` and `y` (the `Sint16` fields) are below
32767, `drawFramedRectangle` with `frameColor = backgroundColor = c` returns the value
and leaves the surface that `drawRectangle(x, y, w, h, c)` followed by
`drawRectangle(x + 1, y + 1, w - 2, h - 2, c)` would. -/
theorem drawFramedRectangle_one_colour (s : SDL_Surface) (x y w h : Int) (c : Nat)
    (hw : 2 ≤ toUint16 w) (hh : 2 ≤ toUint16 h) (hx : toSint16 x < 32767)
    (hy : toSint16 y < 32767) :
    drawFramedRectangle (some s) x y w h c c =
      (drawRectangle (some s) x y w h c).bind fun r1 =>
        drawRectangle r1.2 (x + 1) (y + 1) (w - 2) (h - 2) c := by
  have e1 : drawFramedRectangle (some s) x y w h c c =
      Run.ok (1, some (SDL_FillRect s (initRectangle x y w h) c)) := by
    unfold drawFramedRectangle
    rw [if_pos rfl]
    rfl
  have e2 : ((drawRectangle (some s) x y w h c).bind fun r1 =>
      drawRectangle r1.2 (x + 1) (y + 1) (w - 2) (h - 2) c) =
      Run.ok (1, some (SDL_FillRect (SDL_FillRect s (initRectangle x y w h) c)
        (initRectangle (x + 1) (y + 1) (w - 2) (h - 2)) c)) := rfl
  rw [e1, e2, SDL_FillRect_within]
  · simp only [initRectangle, toSint16] at hx ⊢
    omega
  · simp only [initRectangle, toSint16, toUint16] at hx hw ⊢
    omega
  · simp only [initRectangle, toSint16] at hy ⊢
    omega
  · simp only [initRectangle, toSint16, toUint16] at hy hh ⊢
    omega

/-- C19, amended, on the 4x4 surface: the framed rectangle (0, 0, 3, 3) of one colour is
the rectangle (0, 0, 3, 3) followed by the rectangle (1, 1, 1, 1). -/
theorem drawFramedRectangle_one_colour_witness :
    drawFramedRectangle (some blank4x4) 0 0 3 3 1 1 =
      (drawRectangle (some blank4x4) 0 0 3 3 1).bind fun r1 =>
        drawRectangle r1.2 (0 + 1) (0 + 1) (3 - 2) (3 - 2) 1 :=
  drawFramedRectangle_one_colour blank4x4 0 0 3 3 1 (by decide) (by decide) (by decide)
    (by decide)

set_option maxRecDepth 8192 in
/-- C19 as stated fails: for the rectangle (0, 0, 1, 3) the inner rectangle has the width
`1 - 2 = -1`, stored in the `Uint16` field as 65535. `drawFramedRectangle` with one colour
paints the column 0 of the rows 0 to 2; the two `drawRectangle` calls paint the pixels
(1,1), (2,1) and (3,1) as well. -/
theorem drawFramedRectangle_one_colour_differs :
    drawFramedRectangle (some blank4x4) 0 0 1 3 1 1 =
        Run.ok (1, some { blank4x4 with
          pixels := [1, 0, 0, 0, 0, 0, 0, 0, 0, 0, 0, 0, 0, 0, 0, 0,
                     1, 0, 0, 0, 0, 0, 0, 0, 0, 0, 0, 0, 0, 0, 0, 0,
                     1, 0, 0, 0, 0, 0, 0, 0, 0, 0, 0, 0, 0, 0, 0, 0,
                     0, 0, 0, 0, 0, 0, 0, 0, 0, 0, 0, 0, 0, 0, 0, 0] }) ∧
      ((drawRectangle (some blank4x4) 0 0 1 3 1).bind fun r1 =>
        drawRectangle r1.2 (0 + 1) (0 + 1) (1 - 2) (3 - 2) 1) =
        Run.ok (1, some { blank4x4 with
          pixels := [1, 0, 0, 0, 0, 0, 0, 0, 0, 0, 0, 0, 0, 0, 0, 0,
                     1, 0, 0, 0, 1, 0, 0, 0, 1, 0, 0, 0, 1, 0, 0, 0,
                     1, 0, 0, 0, 0, 0, 0, 0, 0, 0, 0, 0, 0, 0, 0, 0,
                     0, 0, 0, 0, 0, 0, 0, 0, 0, 0, 0, 0, 0, 0, 0, 0] }) ∧
      drawFramedRectangle (some blank4x4) 0 0 1 3 1 1 ≠
        ((drawRectangle (some blank4x4) 0 0 1 3 1).bind fun r1 =>
          drawRectangle r1.2 (0 + 1) (0 + 1) (1 - 2) (3 - 2) 1) := by
  refine ⟨rfl, rfl, ?_⟩
  intro hc
  have h1 : drawFramedRectangle (some blank4x4) 0 0 1 3 1 1 =
      Run.ok (1, some { blank4x4 with
        pixels := [1, 0, 0, 0, 0, 0, 0, 0, 0, 0, 0, 0, 0, 0, 0, 0,
                   1, 0, 0, 0, 0, 0, 0, 0, 0, 0, 0, 0, 0, 0, 0, 0,
                   1, 0, 0, 0, 0, 0, 0, 0, 0, 0, 0, 0, 0, 0, 0, 0,
                   0, 0, 0, 0, 0, 0, 0, 0, 0, 0, 0, 0, 0, 0, 0, 0] }) := rfl
  have h2 : ((drawRectangle (some blank4x4) 0 0 1 3 1).bind fun r1 =>
      drawRectangle r1.2 (0 + 1) (0 + 1) (1 - 2) (3 - 2) 1) =
      Run.ok (1, some { blank4x4 with
        pixels := [1, 0, 0, 0, 0, 0, 0, 0, 0, 0, 0, 0, 0, 0, 0, 0,
                   1, 0, 0, 0, 1, 0, 0, 0, 1, 0, 0, 0, 1, 0, 0, 0,
                   1, 0, 0, 0, 0, 0, 0, 0, 0, 0, 0, 0, 0, 0, 0, 0,
                   0, 0, 0, 0, 0, 0, 0, 0, 0, 0, 0, 0, 0, 0, 0, 0] }) := rfl
  rw [h1, h2] at hc
  revert hc
  decide

/-! ## Pixels of any width -/

/-- A store leaves the bytes of a range it does not touch. -/
theorem readLE_writeBytes_other (m : List Nat) (o o2 n v : Nat)
    (h : o2 + n ≤ o ∨ o + n ≤ o2) :
    readLE (writeBytes m o (bytesLE v n)) o2 n = readLE m o2 n := by
  apply readLE_congr
  intro i h1 h2
  rw [getD_writeBytes, length_bytesLE, if_neg (by omega)]

/-- A pixel of the grid of a well-formed surface lies in the pixel buffer. -/
theorem offset_in_buffer (s : SDL_Surface) (hwf : s.WellFormed) (a b : Int)
    (hg : inGrid s.w s.h a b) :
    0 ≤ b * (s.pitch : Int) + a * (s.BytesPerPixel : Int) ∧
      b * (s.pitch : Int) + a * (s.BytesPerPixel : Int) + (s.BytesPerPixel : Int) ≤
        s.pixels.length := by
  obtain ⟨_, _, hrow, _, hbuf⟩ := hwf
  obtain ⟨ha0, ha1, hb0, hb1⟩ := hg
  have hn : (0 : Int) ≤ s.BytesPerPixel := Int.ofNat_nonneg _
  have hP : (0 : Int) ≤ s.pitch := Int.ofNat_nonneg _
  have h1 : 0 ≤ b * (s.pitch : Int) := mul_nonneg hb0 hP
  have h2 : 0 ≤ a * (s.BytesPerPixel : Int) := mul_nonneg ha0 hn
  have h3 : (a + 1) * (s.BytesPerPixel : Int) ≤ s.w * (s.BytesPerPixel : Int) :=
    mul_le_mul_of_nonneg_right (by omega) hn
  have h4 : (a + 1) * (s.BytesPerPixel : Int) = a * s.BytesPerPixel + s.BytesPerPixel := by
    ring
  have h5 : (b + 1) * (s.pitch : Int) ≤ s.h * (s.pitch : Int) :=
    mul_le_mul_of_nonneg_right (by omega) hP
  have h6 : (b + 1) * (s.pitch : Int) = b * s.pitch + s.pitch := by ring
  constructor <;> omega

/-- Different pixels of the grid occupy disjoint byte ranges. -/
theorem offset_apart (s : SDL_Surface) (hwf : s.WellFormed) (a b a2 b2 : Int)
    (h1 : inGrid s.w s.h a b) (h2 : inGrid s.w s.h a2 b2) (hne : ¬ (a2 = a ∧ b2 = b)) :
    b2 * (s.pitch : Int) + a2 * (s.BytesPerPixel : Int) + (s.BytesPerPixel : Int) ≤
        b * (s.pitch : Int) + a * (s.BytesPerPixel : Int) ∨
      b * (s.pitch : Int) + a * (s.BytesPerPixel : Int) + (s.BytesPerPixel : Int) ≤
        b2 * (s.pitch : Int) + a2 * (s.BytesPerPixel : Int) := by
  obtain ⟨_, _, hrow, _, _⟩ := hwf
  obtain ⟨ha0, ha1, hb0, hb1⟩ := h1
  obtain ⟨ha20, ha21, hb20, hb21⟩ := h2
  have hn : (0 : Int) ≤ s.BytesPerPixel := Int.ofNat_nonneg _
  have hP : (0 : Int) ≤ s.pitch := Int.ofNat_nonneg _
  have e1 : (a + 1) * (s.BytesPerPixel : Int) = a * s.BytesPerPixel + s.BytesPerPixel := by
    ring
  have e2 : (a2 + 1) * (s.BytesPerPixel : Int) = a2 * s.BytesPerPixel + s.BytesPerPixel := by
    ring
  have e3 : (b + 1) * (s.pitch : Int) = b * s.pitch + s.pitch := by ring
  have e4 : (b2 + 1) * (s.pitch : Int) = b2 * s.pitch + s.pitch := by ring
  have w1 : (a + 1) * (s.BytesPerPixel : Int) ≤ s.w * (s.BytesPerPixel : Int) :=
    mul_le_mul_of_nonneg_right (by omega) hn
  have w2 : (a2 + 1) * (s.BytesPerPixel : Int) ≤ s.w * (s.BytesPerPixel : Int) :=
    mul_le_mul_of_nonneg_right (by omega) hn
  have p1 : 0 ≤ a * (s.BytesPerPixel : Int) := mul_nonneg ha0 hn
  have p2 : 0 ≤ a2 * (s.BytesPerPixel : Int) := mul_nonneg ha20 hn
  rcases lt_trichotomy b b2 with hlt | heq | hgt
  · right
    have hm : (b + 1) * (s.pitch : Int) ≤ b2 * (s.pitch : Int) :=
      mul_le_mul_of_nonneg_right (by omega) hP
    omega
  · subst heq
    rcases lt_trichotomy a a2 with hlt | heq | hgt
    · right
      have hm : (a + 1) * (s.BytesPerPixel : Int) ≤ a2 * (s.BytesPerPixel : Int) :=
        mul_le_mul_of_nonneg_right (by omega) hn
      omega
    · exact absurd ⟨heq.symm, rfl⟩ hne
    · left
      have hm : (a2 + 1) * (s.BytesPerPixel : Int) ≤ a * (s.BytesPerPixel : Int) :=
        mul_le_mul_of_nonneg_right (by omega) hn
      omega
  · left
    have hm : (b2 + 1) * (s.pitch : Int) ≤ b * (s.pitch : Int) :=
      mul_le_mul_of_nonneg_right (by omega) hP
    omega

/-- The bytes `pixel` stores for 3-byte pixels are the three low bytes of the colour. -/
theorem bytesLE_three (c : Nat) :
    bytesLE (c % 256 ^ 3) 3 = [c % 256, c / 256 % 256, c / 65536 % 256] := by
  simp only [bytesLE]
  have h1 : c % 256 ^ 3 % 256 = c % 256 := by omega
  have h2 : c % 256 ^ 3 / 256 % 256 = c / 256 % 256 := by omega
  have h3 : c % 256 ^ 3 / 256 / 256 % 256 = c / 65536 % 256 := by omega
  rw [h1, h2, h3]

/-- On a well-formed surface of 1-, 2-, 3- or 4-byte pixels, at a pixel of the grid,
`pixel` returns 1 and stores the low bytes of the colour at the bytes of that pixel. -/
theorem pixel_store (s : SDL_Surface) (hwf : s.WellFormed) (h1 : 1 ≤ s.BytesPerPixel)
    (h4 : s.BytesPerPixel ≤ 4) (a b : Int) (c : Nat) (hg : inGrid s.w s.h a b) :
    pixel (some s) a b c = Run.ok (1, some { s with
      pixels := writeBytes s.pixels (b * s.pitch + a * s.BytesPerPixel).toNat
        (bytesLE (c % 256 ^ s.BytesPerPixel) s.BytesPerPixel) }) := by
  obtain ⟨hb0, hb1⟩ := offset_in_buffer s hwf a b hg
  have hin : insideBoundaries (some s) a b = 1 := by
    simp only [insideBoundaries]
    rw [if_neg (by obtain ⟨g1, g2, g3, g4⟩ := hg; omega)]
  have hal : (s.pitch : Int) % 4 = 0 := by
    have := hwf.2.2.2.1
    omega
  have hyp : 0 ≤ b * (s.pitch : Int) := mul_nonneg hg.2.2.1 (Int.ofNat_nonneg _)
  have hmod : (b * (s.pitch : Int)) % 4 = 0 := by
    rw [Int.mul_emod, hal]
    simp
  have hcases : s.BytesPerPixel = 1 ∨ s.BytesPerPixel = 2 ∨ s.BytesPerPixel = 3 ∨
      s.BytesPerPixel = 4 := by omega
  rcases hcases with hn | hn | hn | hn
  · rw [hn] at hb0 hb1 ⊢
    have e : bytesLE (c % 256 ^ 1) 1 = [c % 256] := by simp [bytesLE]
    have eo : b * (s.pitch : Int) + a * ((1 : Nat) : Int) = b * s.pitch + a := by simp
    rw [e, eo]
    rw [eo] at hb0 hb1
    simp only [pixel, hin, hn, store, List.length_singleton, Run.bind]
    rw [if_pos (by norm_num), if_pos ⟨hb0, by exact_mod_cast hb1⟩]
  · rw [hn] at hb0 hb1 ⊢
    have e : (256 : Nat) ^ 2 = 65536 := by norm_num
    have eo : 2 * (Int.tdiv (b * s.pitch) 2 + a) = b * (s.pitch : Int) + a * ((2 : Nat) : Int) := by
      rw [Int.tdiv_eq_ediv hyp (by norm_num)]
      push_cast
      omega
    rw [e]
    simp only [pixel, hin, hn, eo, store, length_bytesLE, Run.bind]
    rw [if_pos (by norm_num), if_pos ⟨hb0, by exact_mod_cast hb1⟩]
  · rw [hn] at hb0 hb1 ⊢
    have eo : b * (s.pitch : Int) + a * 3 = b * (s.pitch : Int) + a * ((3 : Nat) : Int) := by
      push_cast
      rfl
    rw [bytesLE_three]
    simp only [pixel, hin, hn, eo, store, List.length_cons, List.length_nil, Run.bind]
    rw [if_pos (by norm_num), if_pos ⟨hb0, by exact_mod_cast hb1⟩]
  · rw [hn] at hb0 hb1 ⊢
    have e : (256 : Nat) ^ 4 = 4294967296 := by norm_num
    have eo : 4 * (Int.tdiv (b * s.pitch) 4 + a) = b * (s.pitch : Int) + a * ((4 : Nat) : Int) := by
      rw [Int.tdiv_eq_ediv hyp (by norm_num)]
      push_cast
      omega
    rw [e]
    simp only [pixel, hin, hn, eo, store, length_bytesLE, Run.bind]
    rw [if_pos (by norm_num), if_pos ⟨hb0, by exact_mod_cast hb1⟩]

/-- On a well-formed surface of 1-, 2-, 3- or 4-byte pixels, at a pixel of the grid:
`pixel` returns 1, and the store sets that pixel to the colour reduced to the pixel width
and changes no other pixel. -/
theorem pixel_grid (s : SDL_Surface) (hwf : s.WellFormed) (h1 : 1 ≤ s.BytesPerPixel)
    (h4 : s.BytesPerPixel ≤ 4) (a b : Int) (c : Nat) (hg : inGrid s.w s.h a b) :
    ∃ s2 : SDL_Surface, pixel (some s) a b c = Run.ok (1, some s2) ∧ SameLayout s s2 ∧
      ∀ a2 b2, inGrid s.w s.h a2 b2 →
        s2.pixelAt a2 b2 =
          if a2 = a ∧ b2 = b then c % 256 ^ s.BytesPerPixel else s.pixelAt a2 b2 := by
  refine ⟨_, pixel_store s hwf h1 h4 a b c hg, ⟨rfl, rfl, rfl, rfl, ?_⟩, ?_⟩
  · simp only [length_writeBytes]
  · intro a2 b2 hg2
    obtain ⟨hb0, hb1⟩ := offset_in_buffer s hwf a b hg
    obtain ⟨hc0, hc1⟩ := offset_in_buffer s hwf a2 b2 hg2
    simp only [SDL_Surface.pixelAt]
    by_cases hp : a2 = a ∧ b2 = b
    · rw [if_pos hp, hp.1, hp.2, readLE_writeBytes_same _ _ _ _ (by omega), Nat.mod_mod]
    · rw [if_neg hp]
      apply readLE_writeBytes_other
      rcases offset_apart s hwf a b a2 b2 hg hg2 hp with h | h
      · left
        omega
      · right
        omega

/-! ## Painting pixels of a well-formed surface -/

theorem painted_trans (s s1 s2 : SDL_Surface) (c : Nat) (P Q : Int → Int → Prop)
    (h1 : Painted s s1 c P) (h2 : Painted s1 s2 c Q) :
    Painted s s2 c (fun a b => P a b ∨ Q a b) := by
  obtain ⟨l1, p1⟩ := h1
  obtain ⟨l2, p2⟩ := h2
  refine ⟨sameLayout_trans s s1 s2 l1 l2, ?_⟩
  intro a b hg
  have hg1 : inGrid s1.w s1.h a b := by rw [l1.1, l1.2.1]; exact hg
  constructor
  · intro hpq
    by_cases hq : Q a b
    · exact (p2 a b hg1).1 hq
    · rw [(p2 a b hg1).2 hq]
      rcases hpq with hp | hq2
      · exact (p1 a b hg).1 hp
      · exact absurd hq2 hq
  · intro hpq
    rw [(p2 a b hg1).2 (fun hq => hpq (Or.inr hq)), (p1 a b hg).2 (fun hp => hpq (Or.inl hp))]

theorem painted_congr (s s2 : SDL_Surface) (c : Nat) (P Q : Int → Int → Prop)
    (h : Painted s s2 c P) (hpq : ∀ a b, inGrid s.w s.h a b → (P a b ↔ Q a b)) :
    Painted s s2 c Q := by
  obtain ⟨l1, p1⟩ := h
  refine ⟨l1, fun a b hg => ⟨fun hq => (p1 a b hg).1 ((hpq a b hg).2 hq), fun hq =>
    (p1 a b hg).2 (fun hp => hq ((hpq a b hg).1 hp))⟩⟩

/-- On a well-formed surface of 1- to 4-byte pixels, `pixel` calls at positions of the
grid return, and set exactly the positions of the calls to the colour reduced to the pixel
width. -/
theorem plotAll_paint (c v : Nat) (ps : List (Int × Int)) :
    ∀ s : SDL_Surface, s.WellFormed → 1 ≤ s.BytesPerPixel → s.BytesPerPixel ≤ 4 →
      v = c % 256 ^ s.BytesPerPixel → (∀ p ∈ ps, inGrid s.w s.h p.1 p.2) →
      ∃ s2 : SDL_Surface, plotAll (plotPixel c) (some s) ps = Run.ok (some s2) ∧
        Painted s s2 v (fun a b => (a, b) ∈ ps) := by
  induction ps with
  | nil =>
    intro s _ _ _ _ _
    exact ⟨s, rfl, ⟨rfl, rfl, rfl, rfl, rfl⟩, fun a b _ =>
      ⟨fun hm => absurd hm (List.not_mem_nil _), fun _ => rfl⟩⟩
  | cons p ps ih =>
    intro s hwf hb1 hb4 hv hin
    have hg := hin p (List.mem_cons_self _ _)
    obtain ⟨s1, hpx, hlay, hcol⟩ := pixel_grid s hwf hb1 hb4 p.1 p.2 c hg
    have hwf1 := sameLayout_wf s _ hlay hwf
    obtain ⟨s2, e2, l2, p2⟩ := ih s1 hwf1 (by rw [hlay.2.2.2.1]; exact hb1)
      (by rw [hlay.2.2.2.1]; exact hb4) (by rw [hlay.2.2.2.1]; exact hv)
      (fun q hq => by
        rw [hlay.1, hlay.2.1]
        exact hin q (List.mem_cons_of_mem _ hq))
    refine ⟨s2, ?_, sameLayout_trans _ _ _ hlay l2, ?_⟩
    · simp only [plotAll, plotPixel, hpx, bind_ok_run]
      exact e2
    · intro a b hab
      have hab1 : inGrid s1.w s1.h a b := by
        rw [hlay.1, hlay.2.1]
        exact hab
      have h1 := hcol a b hab
      rw [← hv] at h1
      constructor
      · intro hm
        by_cases hq : (a, b) ∈ ps
        · exact (p2 a b hab1).1 hq
        · rw [(p2 a b hab1).2 hq, h1]
          rcases List.mem_cons.mp hm with he | he
          · rw [if_pos (by rw [← he]; exact ⟨rfl, rfl⟩)]
          · exact absurd he hq
      · intro hm
        rw [(p2 a b hab1).2 (fun hq => hm (List.mem_cons_of_mem _ hq)), h1, if_neg]
        rintro ⟨ha, hb⟩
        exact hm (by rw [ha, hb]; exact List.mem_cons_self _ _)

/-! ## The circle outline -/

/-- The recording run of the loop of `drawCircle` does not depend on what was recorded
before. -/
theorem drawCircleLoop_record_acc (mx my : Int) (fuel : Nat) :
    ∀ (acc : List (Int × Int)) (x y xc yc re : Int),
      drawCircleLoop (fun l a b => Run.ok (l ++ [(a, b)])) mx my fuel acc x y xc yc re =
        (drawCircleLoop (fun l a b => Run.ok (l ++ [(a, b)])) mx my fuel [] x y xc yc re).bind
          fun l => Run.ok (acc ++ l) := by
  induction fuel with
  | zero => intro acc x y xc yc re; rfl
  | succ f ih =>
    intro acc x y xc yc re
    rw [drawCircleLoop, drawCircleLoop]
    by_cases hx : x ≥ y
    · rw [if_pos hx, if_pos hx]
      simp only [bind_ok_run, List.nil_append]
      by_cases hd : 2 * (re + yc) + xc > 0
      · rw [if_pos hd, if_pos hd, ih (acc ++ _ ++ _ ++ _ ++ _ ++ _ ++ _ ++ _ ++ _),
          ih (_ ++ _ ++ _ ++ _ ++ _ ++ _ ++ _ ++ _), bind_assoc_run]
        congr 1
        funext l
        simp [bind_ok_run]
      · rw [if_neg hd, if_neg hd, ih (acc ++ _ ++ _ ++ _ ++ _ ++ _ ++ _ ++ _ ++ _),
          ih (_ ++ _ ++ _ ++ _ ++ _ ++ _ ++ _ ++ _), bind_assoc_run]
        congr 1
        funext l
        simp [bind_ok_run]
    · rw [if_neg hx, if_neg hx]
      simp [bind_ok_run]

/-- One iteration of the recording run: the eight positions of the iteration, then the
positions of the rest of the loop. -/
theorem drawCircleLoop_record_step (mx my : Int) (f : Nat) (x y xc yc re : Int) (hx : x ≥ y) :
    drawCircleLoop (fun l a b => Run.ok (l ++ [(a, b)])) mx my (f + 1) [] x y xc yc re =
      (if 2 * (re + yc) + xc > 0 then
        drawCircleLoop (fun l a b => Run.ok (l ++ [(a, b)])) mx my f [] (x - 1) (y + 1)
          (xc + 2) (yc + 2) (re + yc + xc)
      else
        drawCircleLoop (fun l a b => Run.ok (l ++ [(a, b)])) mx my f [] x (y + 1) xc
          (yc + 2) (re + yc)).bind fun l =>
        Run.ok ([(mx + y, my - x), (mx + x, my - y), (mx + x, my + y), (mx + y, my + x),
          (mx - y, my + x), (mx - x, my + y), (mx - x, my - y), (mx - y, my - x)] ++ l) := by
  rw [drawCircleLoop, if_pos hx]
  simp only [bind_ok_run, List.nil_append]
  by_cases hd : 2 * (re + yc) + xc > 0
  · rw [if_pos hd, if_pos hd, drawCircleLoop_record_acc]
    rfl
  · rw [if_neg hd, if_neg hd, drawCircleLoop_record_acc]
    rfl

/-- The loop of `drawCircle` makes its `plot` calls at the positions its recording run
lists, in that order. -/
theorem drawCircleLoop_plotAll {σ : Type} (plot : σ → Int → Int → Run σ) (mx my : Int)
    (fuel : Nat) :
    ∀ (st : σ) (x y xc yc re : Int) (pts : List (Int × Int)),
      drawCircleLoop (fun l a b => Run.ok (l ++ [(a, b)])) mx my fuel [] x y xc yc re =
        Run.ok pts →
      drawCircleLoop plot mx my fuel st x y xc yc re = plotAll plot st pts := by
  induction fuel with
  | zero =>
    intro st x y xc yc re pts h
    exact absurd h (by simp [drawCircleLoop])
  | succ f ih =>
    intro st x y xc yc re pts h
    by_cases hx : x ≥ y
    · rw [drawCircleLoop_record_step mx my f x y xc yc re hx] at h
      rw [drawCircleLoop, if_pos hx]
      by_cases hd : 2 * (re + yc) + xc > 0
      · rw [if_pos hd] at h
        cases hl : drawCircleLoop (fun l a b => Run.ok (l ++ [(a, b)])) mx my f [] (x - 1)
            (y + 1) (xc + 2) (yc + 2) (re + yc + xc) with
        | fault => rw [hl] at h; exact absurd h (by simp [Run.bind])
        | timeout => rw [hl] at h; exact absurd h (by simp [Run.bind])
        | ok l =>
          rw [hl, bind_ok_run] at h
          injection h with h
          subst h
          have key := fun st2 : σ => ih st2 _ _ _ _ _ l hl
          simp only [hd, if_true, key, plotAll, List.cons_append, List.nil_append]
          rfl
      · rw [if_neg hd] at h
        cases hl : drawCircleLoop (fun l a b => Run.ok (l ++ [(a, b)])) mx my f [] x
            (y + 1) xc (yc + 2) (re + yc) with
        | fault => rw [hl] at h; exact absurd h (by simp [Run.bind])
        | timeout => rw [hl] at h; exact absurd h (by simp [Run.bind])
        | ok l =>
          rw [hl, bind_ok_run] at h
          injection h with h
          subst h
          have key := fun st2 : σ => ih st2 _ _ _ _ _ l hl
          simp only [hd, if_false, key, plotAll, List.cons_append, List.nil_append]
          rfl
    · rw [drawCircleLoop, if_neg hx] at h ⊢
      injection h with h
      subst h
      rfl

/-- With more iterations allowed than `x + 1 - y`, the recording run of the loop of
`drawCircle` returns; the positions it lists are within `r` of the centre on both axes,
and their offsets from the centre are closed under the two reflections and the exchange
of the axes. -/
theorem drawCircleLoop_plots (mx my r : Int) (fuel : Nat) :
    ∀ (x y xc yc re : Int), 0 ≤ y → x ≤ r → x + 1 - y < fuel → 0 < fuel →
      ∃ pts : List (Int × Int),
        drawCircleLoop (fun l a b => Run.ok (l ++ [(a, b)])) mx my fuel [] x y xc yc re =
          Run.ok pts ∧
        (∀ p ∈ pts, mx - r ≤ p.1 ∧ p.1 ≤ mx + r ∧ my - r ≤ p.2 ∧ p.2 ≤ my + r) ∧
        ∀ dx dy : Int, (mx + dx, my + dy) ∈ pts →
          (mx - dx, my + dy) ∈ pts ∧ (mx + dx, my - dy) ∈ pts ∧ (mx + dy, my + dx) ∈ pts := by
  induction fuel with
  | zero => intro x y xc yc re _ _ _ h0; omega
  | succ f ih =>
    intro x y xc yc re hy hxr hfuel _
    by_cases hx : x ≥ y
    · rw [drawCircleLoop_record_step mx my f x y xc yc re hx]
      obtain ⟨pts2, h2, hb2, hs2⟩ : ∃ pts2 : List (Int × Int),
          (if 2 * (re + yc) + xc > 0 then
            drawCircleLoop (fun l a b => Run.ok (l ++ [(a, b)])) mx my f [] (x - 1) (y + 1)
              (xc + 2) (yc + 2) (re + yc + xc)
          else
            drawCircleLoop (fun l a b => Run.ok (l ++ [(a, b)])) mx my f [] x (y + 1) xc
              (yc + 2) (re + yc)) = Run.ok pts2 ∧
          (∀ p ∈ pts2, mx - r ≤ p.1 ∧ p.1 ≤ mx + r ∧ my - r ≤ p.2 ∧ p.2 ≤ my + r) ∧
          ∀ dx dy : Int, (mx + dx, my + dy) ∈ pts2 →
            (mx - dx, my + dy) ∈ pts2 ∧ (mx + dx, my - dy) ∈ pts2 ∧
              (mx + dy, my + dx) ∈ pts2 := by
        by_cases hd : 2 * (re + yc) + xc > 0
        · rw [if_pos hd]
          exact ih _ _ _ _ _ (by omega) (by omega) (by omega) (by omega)
        · rw [if_neg hd]
          exact ih _ _ _ _ _ (by omega) (by omega) (by omega) (by omega)
      rw [h2, bind_ok_run]
      refine ⟨_, rfl, ?_, ?_⟩
      · intro p hp
        rcases List.mem_append.mp hp with h8 | h
        · simp only [List.mem_cons, List.not_mem_nil, or_false] at h8
          rcases h8 with rfl | rfl | rfl | rfl | rfl | rfl | rfl | rfl <;>
            refine ⟨?_, ?_, ?_, ?_⟩ <;> dsimp only <;> omega
        · exact hb2 p h
      · intro dx dy hm
        rcases List.mem_append.mp hm with h8 | h
        · simp only [List.mem_cons, Prod.mk.injEq, List.not_mem_nil, or_false] at h8
          refine ⟨List.mem_append_left _ ?_, List.mem_append_left _ ?_,
            List.mem_append_left _ ?_⟩ <;>
          simp only [List.mem_cons, Prod.mk.injEq, List.not_mem_nil, or_false] <;>
          rcases h8 with h | h | h | h | h | h | h | h <;>
          first
            | exact Or.inl ⟨by omega, by omega⟩
            | exact Or.inr (Or.inl ⟨by omega, by omega⟩)
            | exact Or.inr (Or.inr (Or.inl ⟨by omega, by omega⟩))
            | exact Or.inr (Or.inr (Or.inr (Or.inl ⟨by omega, by omega⟩)))
            | exact Or.inr (Or.inr (Or.inr (Or.inr (Or.inl ⟨by omega, by omega⟩))))
            | exact Or.inr (Or.inr (Or.inr (Or.inr (Or.inr (Or.inl ⟨by omega, by omega⟩)))))
            | exact Or.inr (Or.inr (Or.inr (Or.inr (Or.inr (Or.inr
                (Or.inl ⟨by omega, by omega⟩))))))
            | exact Or.inr (Or.inr (Or.inr (Or.inr (Or.inr (Or.inr
                (Or.inr ⟨by omega, by omega⟩))))))
        · obtain ⟨m1, m2, m3⟩ := hs2 dx dy h
          exact ⟨List.mem_append_right _ m1, List.mem_append_right _ m2,
            List.mem_append_right _ m3⟩
    · rw [drawCircleLoop, if_neg hx]
      exact ⟨[], rfl, fun p hp => absurd hp (List.not_mem_nil _),
        fun dx dy hm => absurd hm (List.not_mem_nil _)⟩

/-- C20: with more than `radius + 1` loop iterations allowed, `drawCircle` makes its
`pixel` calls at a list `ps` of positions whose offsets `(dx, dy)` from the centre are
closed under `(dx, dy) -> (-dx, dy)`, `(dx, dy) -> (dx, -dy)` and
`(dx, dy) -> (dy, dx)`; and on every well-formed surface of 1- to 4-byte pixels that
contains the square of the circle, `drawCircle` returns 1 and has painted exactly the
pixels of `ps`, which hold the colour reduced to the pixel width. -/
theorem drawCircle_symmetric (midx midy radius fuel : Nat) (hfuel : radius + 1 < fuel) :
    ∃ ps : List (Int × Int),
      drawCirclePlots fuel midx midy radius = Run.ok ps ∧
      (∀ dx dy : Int, ((midx : Int) + dx, (midy : Int) + dy) ∈ ps →
        ((midx : Int) - dx, (midy : Int) + dy) ∈ ps ∧
        ((midx : Int) + dx, (midy : Int) - dy) ∈ ps ∧
        ((midx : Int) + dy, (midy : Int) + dx) ∈ ps) ∧
      ∀ (s : SDL_Surface) (c : Nat), s.WellFormed → 1 ≤ s.BytesPerPixel →
        s.BytesPerPixel ≤ 4 →
        radius ≤ midx → (midx : Int) + radius < s.w →
        radius ≤ midy → (midy : Int) + radius < s.h →
        ∃ s2 : SDL_Surface,
          drawCircle fuel (some s) midx midy radius c = Run.ok (1, some s2) ∧
          Painted s s2 (c % 256 ^ s.BytesPerPixel) (fun a b => (a, b) ∈ ps) := by
  obtain ⟨ps, hps, hb, hsym⟩ := drawCircleLoop_plots midx midy radius fuel radius 0
    (1 - 2 * radius) 1 0 (le_refl _) (le_refl _) (by omega) (by omega)
  refine ⟨ps, hps, hsym, ?_⟩
  intro s c hwf hb1 hb4 hx1 hx2 hy1 hy2
  obtain ⟨s2, e2, hp⟩ := plotAll_paint c _ ps s hwf hb1 hb4 rfl (fun p hp => by
    obtain ⟨h1, h2, h3, h4⟩ := hb p hp
    unfold inGrid
    omega)
  refine ⟨s2, ?_, hp⟩
  unfold drawCircle drawCircleWith
  simp only
  rw [drawCircleLoop_plotAll (plotPixel c) midx midy fuel (some s) _ _ _ _ _ ps hps, e2]
  rfl

/-- C20 for the circle of radius 3 around (5, 5), drawn in colour 7 on the 10x10
surface. -/
theorem drawCircle_symmetric_witness :
    ∃ (ps : List (Int × Int)) (s2 : SDL_Surface),
      drawCirclePlots 5 5 5 3 = Run.ok ps ∧
      (∀ dx dy : Int, (5 + dx, 5 + dy) ∈ ps →
        (5 - dx, 5 + dy) ∈ ps ∧ (5 + dx, 5 - dy) ∈ ps ∧ (5 + dy, 5 + dx) ∈ ps) ∧
      drawCircle 5 (some blank10x10) 5 5 3 7 = Run.ok (1, some s2) ∧
      Painted blank10x10 s2 7 (fun a b => (a, b) ∈ ps) := by
  obtain ⟨ps, h1, h2, h3⟩ := drawCircle_symmetric 5 5 3 5 (by decide)
  obtain ⟨s2, h4, h5⟩ := h3 blank10x10 7
    (by simp only [SDL_Surface.WellFormed, blank10x10, List.length_replicate]; decide)
    (by decide) (by decide) (by decide) (by decide) (by decide) (by decide)
  exact ⟨ps, s2, h1, h2, h4, h5⟩

/-! ## The filled circle -/

/-- A horizontal `drawLine` from `(x1, row)` to `(x2, row)` with `x1 <= x2` makes its
`pixel` calls at the positions `(a, row)` with `x1 <= a <= x2`. -/
theorem hline_plots (fuel : Nat) (x1 x2 row : Int) (hx : x1 ≤ x2) (hfuel : x2 - x1 < fuel) :
    ∃ ps : List (Int × Int), drawLinePlots fuel x1 row x2 row = Run.ok ps ∧
      ∀ a b : Int, (a, b) ∈ ps ↔ (b = row ∧ x1 ≤ a ∧ a ≤ x2) := by
  refine ⟨_, drawLinePlots_xmajor fuel x1 row x2 row (by simp) (by omega), ?_⟩
  intro a b
  have hD : (((x2 - x1).natAbs : Nat) : Int) = x2 - x1 := by omega
  have hdiv : (x2 - x1) / (2 * (x2 - x1)) = 0 := by
    by_cases h0 : x2 - x1 = 0
    · rw [h0]
      rfl
    · exact Int.ediv_eq_zero_of_lt (by omega) (by omega)
  simp only [majorPlots, sub_self, Int.natAbs_zero, Int.Nat.cast_ofNat_Int, Nat.cast_zero,
    mul_zero, zero_mul, zero_add, hD, hdiv, add_zero, List.mem_map, List.mem_range,
    Prod.mk.injEq, gt_iff_lt, lt_self_iff_false, if_false]
  constructor
  · rintro ⟨i, hi, h1, h2⟩
    refine ⟨h2.symm, ?_, ?_⟩
    · split at h1 <;> omega
    · split at h1 <;> omega
  · rintro ⟨hb, h1, h2⟩
    refine ⟨(a - x1).toNat, by omega, ?_, hb.symm⟩
    split <;> omega

/-- On a well-formed surface of 1- to 4-byte pixels, a horizontal `drawLine` within the
grid returns 1 and paints the pixels between its end points, both included. -/
theorem hline_paint (s : SDL_Surface) (hwf : s.WellFormed) (hb1 : 1 ≤ s.BytesPerPixel)
    (hb4 : s.BytesPerPixel ≤ 4) (c v : Nat) (hv : v = c % 256 ^ s.BytesPerPixel) (fuel : Nat)
    (x1 x2 row : Int) (h0 : 0 ≤ x1) (hx : x1 ≤ x2) (hw : x2 < s.w) (hr0 : 0 ≤ row)
    (hr1 : row < s.h) (hfuel : x2 - x1 < fuel) :
    ∃ s2 : SDL_Surface, drawLine fuel (some s) x1 row x2 row c = Run.ok (1, some s2) ∧
      Painted s s2 v (fun a b => b = row ∧ x1 ≤ a ∧ a ≤ x2) := by
  obtain ⟨ps, hps, hmem⟩ := hline_plots fuel x1 x2 row hx hfuel
  obtain ⟨s2, e2, hp⟩ := plotAll_paint c v ps s hwf hb1 hb4 hv (fun p hp => by
    obtain ⟨h1, h2, h3⟩ := (hmem p.1 p.2).1 hp
    unfold inGrid
    omega)
  refine ⟨s2, ?_, painted_congr s s2 v _ _ hp (fun a b _ => hmem a b)⟩
  unfold drawLine
  simp only
  rw [drawLineWith_plotAll (plotPixel c) fuel (some s) x1 row x2 row ps hps, e2]
  rfl

theorem painted_refl (s : SDL_Surface) (c : Nat) : Painted s s c (fun _ _ => False) :=
  ⟨⟨rfl, rfl, rfl, rfl, rfl⟩, fun _ _ _ => ⟨fun h => absurd h not_false, fun _ => rfl⟩⟩

theorem sq_le_sq_of_bounds (d x : Int) (h1 : -x ≤ d) (h2 : d ≤ x) : d * d ≤ x * x := by
  nlinarith [mul_nonneg (sub_nonneg.mpr h2) (show (0 : Int) ≤ x + d by linarith)]

/-- A pixel of a chord drawn while the error term is at most `x` is less than `r + 1`
from the centre: `d` and `e` are its offsets, `u` the half length of the chord and `v`
the distance of its row, `x` and `y` in either order. -/
theorem chord_near (x y r re d e u v : Int) (hre : re = x * x + y * y - r * r) (hb : re ≤ x)
    (hxr : x ≤ r) (hd1 : -u ≤ d) (hd2 : d ≤ u) (he : e = v ∨ e = -v)
    (huv : (u = x ∧ v = y) ∨ (u = y ∧ v = x)) :
    d * d + e * e < (r + 1) * (r + 1) := by
  have h1 := sq_le_sq_of_bounds d u hd1 hd2
  have h2 : e * e = v * v := by
    rcases he with rfl | rfl
    · rfl
    · ring
  rcases huv with ⟨rfl, rfl⟩ | ⟨rfl, rfl⟩ <;> nlinarith

/-- The loop of `drawFilledCircle` on a well-formed surface of 1- to 4-byte pixels that
contains the square of the circle, from a state of the midpoint iteration
(`x_change = 1 - 2x`, `y_change = 2y + 1`, `radius_error = x^2 + y^2 - r^2`, at most `x`
while `x >= y`): it returns, the pixels it paints are less than `r + 1` from the centre,
and the chord of the current row is among them. -/
theorem drawFilledCircleLoop_paints (mx my r : Int) (c v : Nat)
    (lineFuel : Nat) (hline : 2 * r < lineFuel) (fuel : Nat) :
    ∀ (s : SDL_Surface) (x y xc yc re : Int), s.WellFormed → 1 ≤ s.BytesPerPixel →
      s.BytesPerPixel ≤ 4 → v = c % 256 ^ s.BytesPerPixel →
      r ≤ mx → mx + r < s.w → r ≤ my → my + r < s.h →
      0 ≤ y → x ≤ r → xc = 1 - 2 * x → yc = 2 * y + 1 → re = x * x + y * y - r * r →
      (x ≥ y → re ≤ x) → x + 1 - y < fuel → 0 < fuel →
      ∃ (s2 : SDL_Surface) (P : Int → Int → Prop),
        drawFilledCircleLoop lineFuel mx my c fuel (some s) x y xc yc re = Run.ok (some s2) ∧
        Painted s s2 v P ∧
        (∀ a b, P a b → (a - mx) * (a - mx) + (b - my) * (b - my) < (r + 1) * (r + 1)) ∧
        (x ≥ y → ∀ a, mx - x ≤ a → a ≤ mx + x → P a (my - y)) := by
  induction fuel with
  | zero => intro s x y xc yc re _ _ _ _ _ _ _ _ _ _ _ _ _ _ _ h0; omega
  | succ f ih =>
    intro s x y xc yc re hwf hb1 hb4 hv hx1 hx2 hy1 hy2 hy hxr hxc hyc hre hb hfuel _
    rw [drawFilledCircleLoop]
    by_cases hx : x ≥ y
    · rw [if_pos hx]
      obtain ⟨s1, e1, p1⟩ := hline_paint s hwf hb1 hb4 c v hv lineFuel (mx - x) (mx + x)
        (my - y) (by omega) (by omega) (by omega) (by omega) (by omega) (by omega)
      have w1 := sameLayout_wf s s1 p1.1 hwf
      have n1 : s1.BytesPerPixel = s.BytesPerPixel := p1.1.2.2.2.1
      obtain ⟨s2, e2, p2⟩ := hline_paint s1 w1 (by rw [n1]; exact hb1) (by rw [n1]; exact hb4)
        c v (by rw [n1]; exact hv) lineFuel (mx - y) (mx + y) (my - x)
        (by omega) (by omega) (by rw [p1.1.1]; omega) (by omega) (by rw [p1.1.2.1]; omega)
        (by omega)
      have p12 := painted_trans s s1 s2 v _ _ p1 p2
      have w2 := sameLayout_wf s s2 p12.1 hwf
      have n2 : s2.BytesPerPixel = s.BytesPerPixel := p12.1.2.2.2.1
      obtain ⟨s3, e3, p3⟩ := hline_paint s2 w2 (by rw [n2]; exact hb1) (by rw [n2]; exact hb4)
        c v (by rw [n2]; exact hv) lineFuel (mx - x) (mx + x) (my + y)
        (by omega) (by omega) (by rw [p12.1.1]; omega) (by omega) (by rw [p12.1.2.1]; omega)
        (by omega)
      have p13 := painted_trans s s2 s3 v _ _ p12 p3
      have w3 := sameLayout_wf s s3 p13.1 hwf
      have n3 : s3.BytesPerPixel = s.BytesPerPixel := p13.1.2.2.2.1
      obtain ⟨s4, e4, p4⟩ := hline_paint s3 w3 (by rw [n3]; exact hb1) (by rw [n3]; exact hb4)
        c v (by rw [n3]; exact hv) lineFuel (mx - y) (mx + y) (my + x)
        (by omega) (by omega) (by rw [p13.1.1]; omega) (by omega) (by rw [p13.1.2.1]; omega)
        (by omega)
      have p14 := painted_trans s s3 s4 v _ _ p13 p4
      have w4 := sameLayout_wf s s4 p14.1 hwf
      have n4 : s4.BytesPerPixel = s.BytesPerPixel := p14.1.2.2.2.1
      obtain ⟨s5, P5, e5, p5, far5⟩ : ∃ (s5 : SDL_Surface) (P5 : Int → Int → Prop),
          (if 2 * (re + yc) + xc > 0 then
            drawFilledCircleLoop lineFuel mx my c f (some s4) (x - 1) (y + 1) (xc + 2)
              (yc + 2) (re + yc + xc)
          else
            drawFilledCircleLoop lineFuel mx my c f (some s4) x (y + 1) xc (yc + 2)
              (re + yc)) = Run.ok (some s5) ∧
          Painted s4 s5 v P5 ∧
          ∀ a b, P5 a b → (a - mx) * (a - mx) + (b - my) * (b - my) < (r + 1) * (r + 1) := by
        by_cases hd : 2 * (re + yc) + xc > 0
        · rw [if_pos hd]
          obtain ⟨s5, P5, e5, p5, far5, -⟩ := ih s4 (x - 1) (y + 1) (xc + 2) (yc + 2)
            (re + yc + xc) w4 (by rw [n4]; exact hb1) (by rw [n4]; exact hb4)
            (by rw [n4]; exact hv) hx1 (by rw [p14.1.1]; exact hx2) hy1
            (by rw [p14.1.2.1]; exact hy2) (by omega) (by omega) (by omega) (by omega)
            (by rw [hre, hyc, hxc]; ring) (by omega) (by omega) (by omega)
          exact ⟨s5, P5, e5, p5, far5⟩
        · rw [if_neg hd]
          obtain ⟨s5, P5, e5, p5, far5, -⟩ := ih s4 x (y + 1) xc (yc + 2)
            (re + yc) w4 (by rw [n4]; exact hb1) (by rw [n4]; exact hb4)
            (by rw [n4]; exact hv) hx1 (by rw [p14.1.1]; exact hx2) hy1
            (by rw [p14.1.2.1]; exact hy2) (by omega) (by omega) hxc (by omega)
            (by rw [hre, hyc]; ring) (by omega) (by omega) (by omega)
          exact ⟨s5, P5, e5, p5, far5⟩
      refine ⟨s5, _, ?_, painted_trans s s4 s5 v _ _ p14 p5, ?_, ?_⟩
      · rw [e1, bind_ok_run, e2, bind_ok_run, e3, bind_ok_run, e4, bind_ok_run]
        exact e5
      · intro a b hP
        have hbx := hb hx
        rcases hP with (((⟨h1, h2, h3⟩ | ⟨h1, h2, h3⟩) | ⟨h1, h2, h3⟩) | ⟨h1, h2, h3⟩) | h5
        · exact chord_near x y r re (a - mx) (b - my) x y hre hbx hxr (by omega) (by omega)
            (by omega) (Or.inl ⟨rfl, rfl⟩)
        · exact chord_near x y r re (a - mx) (b - my) y x hre hbx hxr (by omega) (by omega)
            (by omega) (Or.inr ⟨rfl, rfl⟩)
        · exact chord_near x y r re (a - mx) (b - my) x y hre hbx hxr (by omega) (by omega)
            (by omega) (Or.inl ⟨rfl, rfl⟩)
        · exact chord_near x y r re (a - mx) (b - my) y x hre hbx hxr (by omega) (by omega)
            (by omega) (Or.inr ⟨rfl, rfl⟩)
        · exact far5 a b h5
      · intro _ a ha1 ha2
        exact Or.inl (Or.inl (Or.inl (Or.inl ⟨rfl, ha1, ha2⟩)))
    · rw [if_neg hx]
      exact ⟨s, _, rfl, painted_refl s v, fun a b hf => absurd hf not_false,
        fun h => absurd h hx⟩

/-- C13: on a well-formed surface of 1- to 4-byte pixels that contains the square
`[mx - r, mx + r] x [my - r, my + r]`, with more than `2 r + 1` iterations allowed for
each loop, `drawFilledCircle` returns 1, the centre pixel and every pixel `(mx + d, my)`
with `|d| <= r` of the horizontal diameter hold the colour `c` (reduced to the pixel
width), and every pixel whose squared distance from the centre is at least `(r + 1)^2`
holds what it held before. -/
theorem drawFilledCircle_paints (s : SDL_Surface) (midx midy radius c fuel : Nat)
    (hwf : s.WellFormed) (hb1 : 1 ≤ s.BytesPerPixel) (hb4 : s.BytesPerPixel ≤ 4)
    (hx1 : radius ≤ midx) (hx2 : (midx : Int) + radius < s.w)
    (hy1 : radius ≤ midy) (hy2 : (midy : Int) + radius < s.h)
    (hfuel : 2 * radius + 1 < fuel) :
    ∃ s2 : SDL_Surface,
      drawFilledCircle fuel (some s) midx midy radius c = Run.ok (1, some s2) ∧
      SameLayout s s2 ∧
      s2.pixelAt midx midy = c % 256 ^ s.BytesPerPixel ∧
      (∀ d : Int, -(radius : Int) ≤ d → d ≤ radius →
        s2.pixelAt (midx + d) midy = c % 256 ^ s.BytesPerPixel) ∧
      ∀ a b : Int, inGrid s.w s.h a b →
        ((radius : Int) + 1) ^ 2 ≤ (a - midx) ^ 2 + (b - midy) ^ 2 →
        s2.pixelAt a b = s.pixelAt a b := by
  obtain ⟨s2, P, e, hp, hfar, hdiam⟩ := drawFilledCircleLoop_paints midx midy radius c
    (c % 256 ^ s.BytesPerPixel) fuel (by omega) fuel s radius 0 (1 - 2 * radius) 1 0 hwf hb1
    hb4 rfl (by omega) hx2 (by omega) hy2 (le_refl _) (le_refl _) rfl (by norm_num) (by ring)
    (by omega) (by omega) (by omega)
  have hd : ∀ d : Int, -(radius : Int) ≤ d → d ≤ radius →
      s2.pixelAt (midx + d) midy = c % 256 ^ s.BytesPerPixel := by
    intro d h1 h2
    have hP := hdiam (by omega) ((midx : Int) + d) (by omega) (by omega)
    rw [sub_zero] at hP
    exact (hp.2 _ _ (by unfold inGrid; omega)).1 hP
  refine ⟨s2, ?_, hp.1, ?_, hd, ?_⟩
  · unfold drawFilledCircle
    simp only
    rw [e]
    rfl
  · have h0 := hd 0 (by omega) (by omega)
    rw [add_zero] at h0
    exact h0
  · intro a b hg hfar2
    refine (hp.2 a b hg).2 (fun hP => ?_)
    have := hfar a b hP
    simp only [pow_two] at hfar2
    omega

/-- C13 on the 100x100 surface of 4-byte pixels, centre (50, 50), radius 10, colour
0xFF0000: the pixels (50, 50) and (59, 50) are painted, the pixel (50, 0) keeps its
value. -/
theorem drawFilledCircle_paints_witness :
    ∃ s2 : SDL_Surface,
      drawFilledCircle 22 (some blank100x100) 50 50 10 0xFF0000 = Run.ok (1, some s2) ∧
      s2.pixelAt 50 50 = 0xFF0000 ∧ s2.pixelAt 59 50 = 0xFF0000 ∧
      s2.pixelAt 50 0 = blank100x100.pixelAt 50 0 := by
  obtain ⟨s2, h1, -, h2, h3, h4⟩ := drawFilledCircle_paints blank100x100 50 50 10 0xFF0000 22
    (by simp only [SDL_Surface.WellFormed, blank100x100, List.length_replicate]; decide)
    (by decide) (by decide) (by decide) (by decide) (by decide) (by decide) (by decide)
  exact ⟨s2, h1, h2, h3 9 (by decide) (by decide), h4 50 0 (by decide) (by decide)⟩

/-! ## Angles, colours, text style, `pixelRGB` and trimming -/

/-- C21: `calculateXY` returns 0 for every degree in `[0, 360]`, and returns -1 with `*x`
and `*y` as they were for every degree outside; the degrees in `[0, 90]` and
`[181, 270]` give `(cos, sin)`, the degrees in `[91, 180]` and `[271, 360]` give
`(sin, cos)`. -/
theorem calculateXY_ranges (cosPart sinPart : Int → Int → Int) (radius degree x y : Int) :
    ((0 ≤ degree ∧ degree ≤ 360) →
        (calculateXY cosPart sinPart radius degree x y).1 = 0) ∧
      ((degree < 0 ∨ 360 < degree) →
        calculateXY cosPart sinPart radius degree x y = (-1, x, y)) ∧
      (((0 ≤ degree ∧ degree ≤ 90) ∨ (181 ≤ degree ∧ degree ≤ 270)) →
        calculateXY cosPart sinPart radius degree x y =
          (0, cosPart radius degree, sinPart radius degree)) ∧
      (((91 ≤ degree ∧ degree ≤ 180) ∨ (271 ≤ degree ∧ degree ≤ 360)) →
        calculateXY cosPart sinPart radius degree x y =
          (0, sinPart radius degree, cosPart radius degree)) := by
  unfold calculateXY VAL_BETWEEN
  refine ⟨?_, ?_, ?_, ?_⟩
  · intro h
    by_cases h1 : (0 ≤ degree ∧ degree ≤ 90) ∨ (181 ≤ degree ∧ degree ≤ 270)
    · rw [if_pos h1]
    · rw [if_neg h1, if_pos (by omega)]
  · intro h
    rw [if_neg (by omega), if_neg (by omega)]
  · intro h
    rw [if_pos h]
  · intro h
    rw [if_neg (by omega), if_pos h]

/-- C21 at the degrees 45, 100 and 400, with radius 10 and 7, 8 in `*x`, `*y`. -/
theorem calculateXY_ranges_witness :
    calculateXY (fun _ _ => 1) (fun _ _ => 2) 10 45 7 8 = (0, 1, 2) ∧
      calculateXY (fun _ _ => 1) (fun _ _ => 2) 10 100 7 8 = (0, 2, 1) ∧
      calculateXY (fun _ _ => 1) (fun _ _ => 2) 10 400 7 8 = (-1, 7, 8) :=
  ⟨(calculateXY_ranges (fun _ _ => 1) (fun _ _ => 2) 10 45 7 8).2.2.1 (by decide),
    (calculateXY_ranges (fun _ _ => 1) (fun _ _ => 2) 10 100 7 8).2.2.2 (by decide),
    (calculateXY_ranges (fun _ _ => 1) (fun _ _ => 2) 10 400 7 8).2.1 (by decide)⟩

/-- C24 (defect in the code): `mapColor` takes `r` from the bits 0 to 7 and `b` from the
bits 16 to 23, the reverse of the decomposition of `drawText`, `renderText` and
`drawStyledText`: for `0x112233` it gives `(0x33, 0x22, 0x11)`, they give
`(0x11, 0x22, 0x33)`. -/
theorem mapColor_reverses_layout :
    mapColor 0x112233 = { r := 0x33, g := 0x22, b := 0x11 } ∧
      textColor 0x112233 = { r := 0x11, g := 0x22, b := 0x33 } ∧
      mapColor 0x112233 ≠ textColor 0x112233 := by
  decide

/-- C25 (defect in the code): when the render fails, `drawStyledText` returns 0 with the
style it has set still on the font (here bold, 1); when the render succeeds it returns 1
with the style back to `TTF_STYLE_NORMAL`. -/
theorem drawStyledText_keeps_style_on_failure :
    drawStyledText (fun _ _ _ => none) 0 0 0 (some "") (some blank4x4) (some { style := 0 })
        0xFFFFFF 1 = (0, some { style := 1 }, none) ∧
      (1 : Int) ≠ TTF_STYLE_NORMAL ∧
      (drawStyledText (fun _ _ _ => some blank2x2) 0 0 0 (some "a") (some blank4x4)
        (some { style := 0 }) 0xFFFFFF 1).2.1 = some { style := TTF_STYLE_NORMAL } := by
  refine ⟨rfl, by decide, rfl⟩

/-- C27 (defect in the code): `pixelRGB` stores at the word `x + y` of the buffer, not at
the pixel `(x, y)`. On the 2x2 surface, at `(0, 1)`, it overwrites the pixel `(1, 0)`;
`pixel` with the same colour writes the pixel `(0, 1)`. -/
theorem pixelRGB_writes_other_pixel :
    pixelRGB (fun _ _ _ => 0xAABBCC) (some blank2x2) 0 1 0xAA 0xBB 0xCC =
        Run.ok (1, some { blank2x2 with
          pixels := [0, 0, 0, 0, 0xCC, 0xBB, 0xAA, 0, 0, 0, 0, 0, 0, 0, 0, 0] }) ∧
      pixel (some blank2x2) 0 1 0xAABBCC =
        Run.ok (1, some { blank2x2 with
          pixels := [0, 0, 0, 0, 0, 0, 0, 0, 0xCC, 0xBB, 0xAA, 0, 0, 0, 0, 0] }) := by
  decide

/-- C28 (defect in the code): `trimFromBeginning` overwrites a leading space with NUL,
after which `strlen(data)` is 0 and the loop ends: for the string `" a"` it returns the
start of the buffer, now the empty string, where the trimmed string is `"a"`. A string
without leading white space is returned as it is. -/
theorem trimFromBeginning_returns_empty :
    cstring [32, 97, 0] 0 = [32, 97] ∧
      trimFromBeginning 3 [32, 97, 0] 0 0 = Run.ok (0, [0, 97, 0]) ∧
      cstring [0, 97, 0] 0 = [] ∧
      (∀ n, trimFromBeginning (n + 2) [32, 97, 0] 0 0 = Run.ok (0, [0, 97, 0])) ∧
      trimFromBeginning 3 [97, 32, 0] 0 0 = Run.ok (0, [97, 32, 0]) := by
  refine ⟨by decide, by decide, by decide, fun n => rfl, by decide⟩

/-! ## Font list -/

theorem addFontLoop_eq (item : List fontListItem) (path : String) (fontSize : Int) (n i : Nat)
    (h : i + n ≤ item.length) :
    addFontLoop item path fontSize i n =
      Run.ok (firstFont path fontSize ((item.drop i).take n)) := by
  induction n generalizing i with
  | zero => simp [addFontLoop, firstFont]
  | succ n ih =>
    have hi : i < item.length := by omega
    have hd : item.drop i = item[i] :: item.drop (i + 1) := List.drop_eq_getElem_cons hi
    have hg : item.get? i = some item[i] := by simp [hi]
    simp only [addFontLoop, hg, hd, List.take_succ_cons, firstFont]
    rw [ih (i + 1) (by omega)]
    cases item[i].path with
    | none => rfl
    | some p =>
      by_cases hp : path = p
      · simp only [hp, if_true]
        by_cases hs : fontSize = item[i].size
        · simp only [hs, if_true]
          cases item[i].font <;> rfl
        · simp only [hs, if_false]
      · simp only [hp, if_false]

theorem firstFont_append (path : String) (fontSize : Int) (xs ys : List fontListItem) :
    firstFont path fontSize (xs ++ ys) =
      match firstFont path fontSize xs with
      | some a => some a
      | none => firstFont path fontSize ys := by
  induction xs with
  | nil => simp only [List.nil_append, firstFont]
  | cons it rest ih =>
    simp only [List.cons_append, firstFont]
    cases it.path with
    | none => exact ih
    | some p =>
      by_cases hp : path = p
      · subst hp
        simp only [if_true]
        by_cases hs : fontSize = it.size
        · simp only [hs, if_true]
          cases it.font with
          | none =>
            simp only
            rw [← hs]
            exact ih
          | some f => rfl
        · simp only [hs, if_false]
          exact ih
      · simp only [hp, if_false]
        exact ih

/-- A hit: `addFont` returns the cached font and leaves list and world as they are. -/
theorem addFont_hit (w : FontWorld) (l : fontList) (path : String) (fontSize : Int) (f : Nat)
    (hc : l.count = l.item.length) (hf : firstFont path fontSize l.item = some f) :
    addFont w (some l) path fontSize = Run.ok (some f, some l, w) := by
  have e : addFontLoop l.item path fontSize 0 l.count = Run.ok (some f) := by
    rw [addFontLoop_eq l.item path fontSize l.count 0 (by omega), hc]
    simp [hf]
  simp only [addFont, e, bind_ok_run]

/-- A miss with a font that opens and allocations that succeed: `addFont` appends the
entry `(path, font, size)` and returns the new font; the world keeps its fonts and its
allocator keeps succeeding. -/
theorem addFont_miss (w : FontWorld) (l : fontList) (path : String) (fontSize : Int)
    (hc : l.count = l.item.length) (hm : ∀ b ∈ w.world.mallocPlan, b = true)
    (hopen : (path, fontSize) ∈ w.fonts) (hf : firstFont path fontSize l.item = none) :
    ∃ w1 : FontWorld,
      addFont w (some l) path fontSize =
        Run.ok (some w.nextFont,
          some { item := l.item ++
                   [{ path := some path, font := some w.nextFont, size := fontSize }],
                 count := l.count + 1 }, w1) ∧
      w1.fonts = w.fonts ∧ w1.nextFont = w.nextFont + 1 ∧
      ∀ b ∈ w1.world.mallocPlan, b = true := by
  have e : addFontLoop l.item path fontSize 0 l.count = Run.ok none := by
    rw [addFontLoop_eq l.item path fontSize l.count 0 (by omega), hc]
    simp [hf]
  obtain ⟨h1, h2, -⟩ := malloc_ok w.world hm
  obtain ⟨h3, h4, -⟩ := malloc_ok (malloc w.world).2 h2
  have hle : l.count ≤ l.item.length := by omega
  have ht : l.item.take l.count = l.item := by rw [hc]; exact List.take_length _
  refine ⟨{ fonts := w.fonts, nextFont := w.nextFont + 1,
            openCalls := w.openCalls ++ [(path, fontSize)], closed := w.closed,
            world := (malloc (malloc w.world).2).2 }, ?_, ?_, ?_, ?_⟩
  · simp only [addFont, e, bind_ok_run, TTF_OpenFont, hopen, if_true, initializeText, h1, h3,
      hle, ht]
  · rfl
  · rfl
  · exact h4

/-- C26, amended: for a font list that caches neither `(p, s1)` nor `(p, s2)`, with
`s1 != s2`, both fonts opening and allocations succeeding: `addFont(list, p, s1)`
followed by `addFont(list, p, s2)` appends two entries, distinct in size and in font, and
`count` grows by 2; `addFont(list, p, s1)` repeated, right after the first call or after
the second, returns the font cached for `(p, s1)` and leaves list and world as they
are. -/
theorem addFont_two_sizes (w : FontWorld) (l : fontList) (p : String) (s1 s2 : Int)
    (hc : l.count = l.item.length) (hm : ∀ b ∈ w.world.mallocPlan, b = true)
    (ho1 : (p, s1) ∈ w.fonts) (ho2 : (p, s2) ∈ w.fonts) (hne : s1 ≠ s2)
    (hf1 : firstFont p s1 l.item = none) (hf2 : firstFont p s2 l.item = none) :
    ∃ w1 w2 : FontWorld,
      addFont w (some l) p s1 =
        Run.ok (some w.nextFont,
          some { item := l.item ++ [{ path := some p, font := some w.nextFont, size := s1 }],
                 count := l.count + 1 }, w1) ∧
      addFont w1
          (some { item := l.item ++ [{ path := some p, font := some w.nextFont, size := s1 }],
                  count := l.count + 1 }) p s2 =
        Run.ok (some (w.nextFont + 1),
          some { item := l.item ++ [{ path := some p, font := some w.nextFont, size := s1 },
                   { path := some p, font := some (w.nextFont + 1), size := s2 }],
                 count := l.count + 2 }, w2) ∧
      ({ path := some p, font := some w.nextFont, size := s1 } : fontListItem) ≠
        { path := some p, font := some (w.nextFont + 1), size := s2 } ∧
      addFont w1
          (some { item := l.item ++ [{ path := some p, font := some w.nextFont, size := s1 }],
                  count := l.count + 1 }) p s1 =
        Run.ok (some w.nextFont,
          some { item := l.item ++ [{ path := some p, font := some w.nextFont, size := s1 }],
                 count := l.count + 1 }, w1) ∧
      addFont w2
          (some { item := l.item ++ [{ path := some p, font := some w.nextFont, size := s1 },
                    { path := some p, font := some (w.nextFont + 1), size := s2 }],
                  count := l.count + 2 }) p s1 =
        Run.ok (some w.nextFont,
          some { item := l.item ++ [{ path := some p, font := some w.nextFont, size := s1 },
                   { path := some p, font := some (w.nextFont + 1), size := s2 }],
                 count := l.count + 2 }, w2) := by
  obtain ⟨w1, e1, hfonts1, hnext1, hm1⟩ := addFont_miss w l p s1 hc hm ho1 hf1
  have hs21 : ¬ s2 = s1 := fun h => hne h.symm
  have hmiss2 : firstFont p s2
      (l.item ++ [{ path := some p, font := some w.nextFont, size := s1 }]) = none := by
    rw [firstFont_append, hf2]
    simp [firstFont, hs21]
  have hhit1 : firstFont p s1
      (l.item ++ [{ path := some p, font := some w.nextFont, size := s1 }]) =
      some w.nextFont := by
    rw [firstFont_append, hf1]
    simp [firstFont]
  obtain ⟨w2, e2, -, -, -⟩ := addFont_miss w1
    { item := l.item ++ [{ path := some p, font := some w.nextFont, size := s1 }],
      count := l.count + 1 } p s2 (by simp [hc]) hm1 (by rw [hfonts1]; exact ho2) hmiss2
  simp only [hnext1, List.append_assoc, List.singleton_append] at e2
  have hhit2 : firstFont p s1
      (l.item ++ [{ path := some p, font := some w.nextFont, size := s1 },
        { path := some p, font := some (w.nextFont + 1), size := s2 }]) =
      some w.nextFont := by
    rw [firstFont_append, hf1]
    simp [firstFont]
  refine ⟨w1, w2, e1, e2, ?_, ?_, ?_⟩
  · intro h
    injection h with _ _ h3
    exact hne h3
  · exact addFont_hit w1 _ p s1 w.nextFont (by simp [hc]) hhit1
  · exact addFont_hit w2 _ p s1 w.nextFont (by simp [hc]) hhit2

/-- C26, amended, on the empty font list with `a.ttf` in the sizes 12 and 14: two
entries, fonts 100 and 101, and the repeated call returns font 100. -/
theorem addFont_two_sizes_witness :
    ∃ w1 w2 : FontWorld,
      addFont fontWorld0 (some emptyFontList) "a.ttf" 12 =
        Run.ok (some 100,
          some { item := [{ path := some "a.ttf", font := some 100, size := 12 }],
                 count := 1 }, w1) ∧
      addFont w1
          (some { item := [{ path := some "a.ttf", font := some 100, size := 12 }],
                  count := 1 }) "a.ttf" 14 =
        Run.ok (some 101,
          some { item := [{ path := some "a.ttf", font := some 100, size := 12 },
                   { path := some "a.ttf", font := some 101, size := 14 }],
                 count := 2 }, w2) ∧
      addFont w2
          (some { item := [{ path := some "a.ttf", font := some 100, size := 12 },
                    { path := some "a.ttf", font := some 101, size := 14 }],
                  count := 2 }) "a.ttf" 12 =
        Run.ok (some 100,
          some { item := [{ path := some "a.ttf", font := some 100, size := 12 },
                   { path := some "a.ttf", font := some 101, size := 14 }],
                 count := 2 }, w2) := by
  obtain ⟨w1, w2, h1, h2, -, -, h5⟩ := addFont_two_sizes fontWorld0 emptyFontList "a.ttf" 12 14
    rfl (by decide) (by decide) (by decide) (by decide) rfl rfl
  exact ⟨w1, w2, h1, h2, h5⟩

/-- C26 as stated fails: on a font list that already caches `a.ttf` in size 12,
`addFont(list, "a.ttf", 12)` returns the cached font and appends nothing, so after
`addFont(list, "a.ttf", 14)` the count has grown by 1, from 1 to 2, not by 2. -/
theorem addFont_cached_grows_by_one :
    (12 : Int) ≠ 14 ∧
      addFont fontWorld0 (some fontList12) "a.ttf" 12 =
        Run.ok (some 7, some fontList12, fontWorld0) ∧
      addFont fontWorld0 (some fontList12) "a.ttf" 14 =
        Run.ok (some 100,
          some { item := [{ path := some "a.ttf", font := some 7, size := 12 },
                   { path := some "a.ttf", font := some 100, size := 14 }],
                 count := 2 },
          { fontWorld0 with nextFont := 101, openCalls := [("a.ttf", 14)] }) ∧
      (2 : Nat) ≠ fontList12.count + 2 := by
  refine ⟨by decide, ?_, ?_, by decide⟩
  · exact addFont_hit fontWorld0 fontList12 "a.ttf" 12 7 rfl rfl
  · decide

/-! ## Aligned images -/

theorem floatRound_small (n : Int) (h : n.natAbs < 16777216) : floatRound n = n := by
  unfold floatRound
  rw [if_pos h]

/-- The midpoint rectangle for a surface and an image whose sizes are `Uint16` values. -/
theorem calculateImageMidPoint_eq (src : SDL_Rect) (s img : SDL_Surface)
    (hsw : 0 ≤ s.w ∧ s.w ≤ 65535) (hsh : 0 ≤ s.h ∧ s.h ≤ 65535)
    (hiw : 0 ≤ img.w ∧ img.w ≤ 65535) (hih : 0 ≤ img.h ∧ img.h ≤ 65535) :
    calculateImageMidPoint src (some img) (some s) =
      Run.ok (1, { x := s.w / 2 - img.w / 2, y := s.h / 2 - img.h / 2,
                   w := img.w, h := img.h }) := by
  have e1 : Int.tdiv s.w 2 = s.w / 2 := Int.tdiv_eq_ediv hsw.1 (by norm_num)
  have e2 : Int.tdiv s.h 2 = s.h / 2 := Int.tdiv_eq_ediv hsh.1 (by norm_num)
  have e3 : Int.tdiv img.w 2 = img.w / 2 := Int.tdiv_eq_ediv hiw.1 (by norm_num)
  have e4 : Int.tdiv img.h 2 = img.h / 2 := Int.tdiv_eq_ediv hih.1 (by norm_num)
  have u1 : toUint16 img.w = img.w := by unfold toUint16; omega
  have u2 : toUint16 img.h = img.h := by unfold toUint16; omega
  simp only [calculateImageMidPoint, e1, e2, e3, e4, u1, u2]
  rw [floatRound_small (s.w / 2) (by omega), floatRound_small (s.h / 2) (by omega),
    floatRound_small (img.w / 2) (by omega), floatRound_small (img.h / 2) (by omega),
    floatRound_small (s.w / 2 - img.w / 2) (by omega),
    floatRound_small (s.h / 2 - img.h / 2) (by omega)]
  simp only [floatToSint16]
  rw [if_pos (by omega), if_pos (by omega)]
  rfl

/-- C22, amended: for a surface and an image whose widths and heights are `Uint16` values
and for `x, y <= 32767`, `drawAlignedImage` returns 1 and blits the rectangle
`(0, 0, iw, ih)` of the image at `(X, Y)`, where `X = x` if `x >= 0` and
`sw / 2 - iw / 2` otherwise, and `Y = y` if `y >= 0` and `sh / 2 - ih / 2` otherwise
(divisions rounding down); with `x < 0` and `y < 0` this is the call `drawCenteredImage`
makes. -/
theorem drawAlignedImage_position (dest : SDL_Rect) (s img : SDL_Surface) (x y : Int)
    (hsw : 0 ≤ s.w ∧ s.w ≤ 65535) (hsh : 0 ≤ s.h ∧ s.h ≤ 65535)
    (hiw : 0 ≤ img.w ∧ img.w ≤ 65535) (hih : 0 ≤ img.h ∧ img.h ≤ 65535)
    (hx : x ≤ 32767) (hy : y ≤ 32767) :
    drawAlignedImage dest (some s) (some img) x y =
        Run.ok (1, some ({ x := 0, y := 0, w := img.w, h := img.h },
          { x := if x ≥ 0 then x else s.w / 2 - img.w / 2,
            y := if y ≥ 0 then y else s.h / 2 - img.h / 2,
            w := img.w, h := img.h })) ∧
      drawCenteredImage dest (some s) (some img) =
        Run.ok (1, some ({ x := 0, y := 0, w := img.w, h := img.h },
          { x := s.w / 2 - img.w / 2, y := s.h / 2 - img.h / 2, w := img.w, h := img.h })) ∧
      (x < 0 → y < 0 →
        drawAlignedImage dest (some s) (some img) x y =
          drawCenteredImage dest (some s) (some img)) := by
  have hmid := calculateImageMidPoint_eq dest s img hsw hsh hiw hih
  have u1 : toUint16 img.w = img.w := by unfold toUint16; omega
  have u2 : toUint16 img.h = img.h := by unfold toUint16; omega
  have hinit : initRectangle 0 0 img.w img.h = { x := 0, y := 0, w := img.w, h := img.h } := by
    simp only [initRectangle, u1, u2]
    rfl
  have ha : drawAlignedImage dest (some s) (some img) x y =
      Run.ok (1, some ({ x := 0, y := 0, w := img.w, h := img.h },
        { x := if x ≥ 0 then x else s.w / 2 - img.w / 2,
          y := if y ≥ 0 then y else s.h / 2 - img.h / 2,
          w := img.w, h := img.h })) := by
    simp only [drawAlignedImage, hmid, bind_ok_run, hinit]
    have ex : (if x < 0 then s.w / 2 - img.w / 2 else toSint16 x) =
        (if x ≥ 0 then x else s.w / 2 - img.w / 2) := by
      by_cases h0 : x < 0
      · rw [if_pos h0, if_neg (by omega)]
      · rw [if_neg h0, if_pos (by omega)]
        unfold toSint16
        omega
    have ey : (if y < 0 then s.h / 2 - img.h / 2 else toSint16 y) =
        (if y ≥ 0 then y else s.h / 2 - img.h / 2) := by
      by_cases h0 : y < 0
      · rw [if_pos h0, if_neg (by omega)]
      · rw [if_neg h0, if_pos (by omega)]
        unfold toSint16
        omega
    rw [ex, ey]
  have hcen : drawCenteredImage dest (some s) (some img) =
      Run.ok (1, some ({ x := 0, y := 0, w := img.w, h := img.h },
        { x := s.w / 2 - img.w / 2, y := s.h / 2 - img.h / 2, w := img.w, h := img.h })) := by
    simp only [drawCenteredImage, hmid, bind_ok_run, hinit]
  refine ⟨ha, hcen, ?_⟩
  intro h1 h2
  rw [ha, hcen, if_neg (by omega), if_neg (by omega)]

/-- C22, amended, for the 2x2 image on the 10x10 surface: at `(-1, 3)` the image goes to
`(4, 3)`, and at `(-1, -1)` to `(4, 4)`, where `drawCenteredImage` puts it. -/
theorem drawAlignedImage_position_witness :
    drawAlignedImage { x := 0, y := 0, w := 0, h := 0 } (some blank10x10) (some blank2x2)
        (-1) 3 =
        Run.ok (1, some ({ x := 0, y := 0, w := 2, h := 2 }, { x := 4, y := 3, w := 2, h := 2 }))
      ∧ drawAlignedImage { x := 0, y := 0, w := 0, h := 0 } (some blank10x10) (some blank2x2)
          (-1) (-1) =
        drawCenteredImage { x := 0, y := 0, w := 0, h := 0 } (some blank10x10)
          (some blank2x2) :=
  ⟨(drawAlignedImage_position { x := 0, y := 0, w := 0, h := 0 } blank10x10 blank2x2 (-1) 3
      (by decide) (by decide) (by decide) (by decide) (by decide) (by decide)).1,
    (drawAlignedImage_position { x := 0, y := 0, w := 0, h := 0 } blank10x10 blank2x2 (-1) (-1)
      (by decide) (by decide) (by decide) (by decide) (by decide) (by decide)).2.2
      (by decide) (by decide)⟩

/-- C22 as stated fails: `dest.x` is a `Sint16` field, so for `x = 40000 >= 0` the image
is blitted at `X = 40000 - 65536 = -25536`, not at `X = x`. -/
theorem drawAlignedImage_wraps :
    (40000 : Int) ≥ 0 ∧
      drawAlignedImage { x := 0, y := 0, w := 0, h := 0 } (some blank10x10) (some blank2x2)
        40000 0 =
        Run.ok (1, some ({ x := 0, y := 0, w := 2, h := 2 },
          { x := -25536, y := 0, w := 2, h := 2 })) ∧
      (-25536 : Int) ≠ 40000 := by
  decide

/-! ## The inverted image -/

set_option maxRecDepth 8192 in
/-- C23 (defect in the code): `pixel` accepts `x == w` (the off-by-one of
`insideBoundaries`), so an image drawn at `dx = 2` on the 2x2 surface, whose only
destination `(2, 0)` is out of bounds, changes the pixel `(0, 1)`, outside its footprint:
the bytes 8 to 10 become `0xFFFFFF`, the inverse of black. Inside the surface the image
`image2x2` is inverted as the claim says. -/
theorem drawImageInverted_leaks_into_next_row :
    drawImageInverted getRGB888 2 (some blank2x2) (some dot1x1) 2 0 =
        Run.ok (1, some { blank2x2 with
          pixels := [0, 0, 0, 0, 0, 0, 0, 0, 0xFF, 0xFF, 0xFF, 0, 0, 0, 0, 0] }) ∧
      ¬ inGrid blank2x2.w blank2x2.h 2 0 ∧
      drawImageInverted getRGB888 3 (some blank4x4) (some image2x2) 1 1 =
        Run.ok (1, some { blank4x4 with
          pixels := [0, 0, 0, 0, 0, 0, 0, 0, 0, 0, 0, 0, 0, 0, 0, 0,
                     0, 0, 0, 0, 0xCF, 0xDF, 0xEF, 0, 0xFF, 0xFF, 0xFF, 0, 0, 0, 0, 0,
                     0, 0, 0, 0, 0xFF, 0xFF, 0xFF, 0, 0xFF, 0xFF, 0xFF, 0, 0, 0, 0, 0,
                     0, 0, 0, 0, 0, 0, 0, 0, 0, 0, 0, 0, 0, 0, 0, 0] }) := by
  refine ⟨by decide, by decide, by decide⟩

/-! ## The steps of a line -/

theorem majorPlots_length (g : Int → Int → Int × Int) (a1 sa b1 sb : Int) (D E : Nat) :
    (majorPlots g a1 sa b1 sb D E).length = D + 1 := by
  simp [majorPlots]

theorem majorPlots_getElem? (g : Int → Int → Int × Int) (a1 sa b1 sb : Int) (D E i : Nat)
    (hi : i ≤ D) :
    (majorPlots g a1 sa b1 sb D E)[i]? =
      some (g (a1 + sa * (i : Int))
        (b1 + sb * ((2 * (E : Int) * (i : Int) + (D : Int)) / (2 * (D : Int))))) := by
  simp only [majorPlots, Int.toNat_ofNat, List.getElem?_map]
  rw [List.getElem?_range (by omega)]
  rfl

/-- The minor coordinate of a line starts at 0, ends at `E` and grows by 0 or 1 from one
step to the next. -/
theorem minor_steps (D E : Nat) (hED : E ≤ D) :
    (2 * (E : Int) * ((0 : Nat) : Int) + (D : Int)) / (2 * (D : Int)) = 0 ∧
      (2 * (E : Int) * (D : Int) + (D : Int)) / (2 * (D : Int)) = E ∧
      ∀ i : Nat, ∃ d : Int, (d = 0 ∨ d = 1) ∧
        (2 * (E : Int) * ((i + 1 : Nat) : Int) + (D : Int)) / (2 * (D : Int)) =
          (2 * (E : Int) * (i : Int) + (D : Int)) / (2 * (D : Int)) + d := by
  by_cases hD : D = 0
  · subst hD
    have hE : E = 0 := by omega
    subst hE
    refine ⟨by simp, by simp, fun i => ⟨0, Or.inl rfl, by simp⟩⟩
  · have hpos : (0 : Int) < 2 * (D : Int) := by omega
    have hne : (2 * (D : Int)) ≠ 0 := by omega
    refine ⟨?_, ?_, ?_⟩
    · apply Int.ediv_eq_zero_of_lt <;> push_cast <;> omega
    · have e : 2 * (E : Int) * (D : Int) + (D : Int) = (D : Int) + (E : Int) * (2 * (D : Int)) := by
        ring
      rw [e, Int.add_mul_ediv_right _ _ hne, Int.ediv_eq_zero_of_lt (by omega) (by omega)]
      simp
    · intro i
      have hnn : (0 : Int) ≤ 2 * (E : Int) := by omega
      have h1 : (2 * (E : Int) * (i : Int) + (D : Int)) / (2 * (D : Int)) ≤
          (2 * (E : Int) * ((i + 1 : Nat) : Int) + (D : Int)) / (2 * (D : Int)) := by
        apply Int.ediv_le_ediv hpos
        push_cast
        have : 2 * (E : Int) * ((i : Int) + 1) = 2 * (E : Int) * (i : Int) + 2 * (E : Int) := by
          ring
        omega
      have h2 : (2 * (E : Int) * ((i + 1 : Nat) : Int) + (D : Int)) / (2 * (D : Int)) ≤
          (2 * (E : Int) * (i : Int) + (D : Int)) / (2 * (D : Int)) + 1 := by
        have e := Int.add_mul_ediv_right (2 * (E : Int) * (i : Int) + (D : Int)) 1 hne
        rw [← e]
        apply Int.ediv_le_ediv hpos
        push_cast
        have : 2 * (E : Int) * ((i : Int) + 1) = 2 * (E : Int) * (i : Int) + 2 * (E : Int) := by
          ring
        omega
      exact ⟨(2 * (E : Int) * ((i + 1 : Nat) : Int) + (D : Int)) / (2 * (D : Int)) -
        (2 * (E : Int) * (i : Int) + (D : Int)) / (2 * (D : Int)), by omega, by omega⟩

theorem pixel_ne_timeout (surface : Option SDL_Surface) (x y : Int) (c : Nat) :
    pixel surface x y c ≠ Run.timeout := by
  unfold pixel store
  repeat' split
  all_goals simp [Run.bind]

theorem plotAll_plotPixel_ne_timeout (c : Nat) (ps : List (Int × Int)) :
    ∀ st : Option SDL_Surface, plotAll (plotPixel c) st ps ≠ Run.timeout := by
  induction ps with
  | nil => intro st h; exact Run.noConfusion h
  | cons p ps ih =>
    intro st
    simp only [plotAll, plotPixel]
    have hp := pixel_ne_timeout st p.1 p.2 c
    cases hpx : pixel st p.1 p.2 c with
    | ok r =>
      simp only [bind_ok_run]
      exact ih r.2
    | fault => exact fun h => Run.noConfusion h
    | timeout => exact absurd hpx hp

/-- The positions of a line along its major axis: the first, the last, and what changes
from one to the next. -/
theorem majorPlots_facts (g : Int → Int → Int × Int) (a1 sa b1 sb : Int) (D E : Nat)
    (hED : E ≤ D) :
    (majorPlots g a1 sa b1 sb D E)[0]? = some (g a1 b1) ∧
      (majorPlots g a1 sa b1 sb D E)[D]? =
        some (g (a1 + sa * (D : Int)) (b1 + sb * (E : Int))) ∧
      ∀ i : Nat, i < D → ∃ a b d : Int, (d = 0 ∨ d = 1) ∧
        (majorPlots g a1 sa b1 sb D E)[i]? = some (g a b) ∧
        (majorPlots g a1 sa b1 sb D E)[i + 1]? = some (g (a + sa) (b + sb * d)) := by
  obtain ⟨q0, qD, qstep⟩ := minor_steps D E hED
  refine ⟨?_, ?_, ?_⟩
  · rw [majorPlots_getElem? g a1 sa b1 sb D E 0 (Nat.zero_le _), q0]
    simp
  · rw [majorPlots_getElem? g a1 sa b1 sb D E D (le_refl _), qD]
  · intro i hi
    obtain ⟨d, hd, hq⟩ := qstep i
    refine ⟨a1 + sa * (i : Int),
      b1 + sb * ((2 * (E : Int) * (i : Int) + (D : Int)) / (2 * (D : Int))), d, hd, ?_, ?_⟩
    · exact majorPlots_getElem? g a1 sa b1 sb D E i (by omega)
    · rw [majorPlots_getElem? g a1 sa b1 sb D E (i + 1) (by omega), hq]
      congr 2
      · push_cast
        ring
      · ring

theorem sign_natAbs (v : Int) : (if v > 0 then (1 : Int) else -1).natAbs = 1 := by
  split <;> rfl

theorem step_sizes (a b sa sb d : Int) (hsa : sa.natAbs = 1) (hsb : sb.natAbs = 1)
    (hd : d = 0 ∨ d = 1) :
    (a + sa - a).natAbs = 1 ∧ (b + sb * d - b).natAbs ≤ 1 := by
  constructor
  · rw [add_sub_cancel_left]
    exact hsa
  · rw [add_sub_cancel_left]
    rcases hd with rfl | rfl
    · simp
    · simp [hsb]

/-- C29: with more loop iterations allowed than `max(|x2 - x1|, |y2 - y1|)`, `drawLine`
returns from its loop and passes to `pixel` a sequence `ps` of exactly
`max(|x2 - x1|, |y2 - y1|) + 1` positions that starts at `(x1, y1)` and ends at
`(x2, y2)`; from each position to the next the major axis (`x` when
`|y2 - y1| <= |x2 - x1|`, else `y`) changes by exactly 1 and the other axis by at most 1.
On every surface the call is this sequence of `pixel` calls, and it terminates. -/
theorem drawLine_steps (fuel : Nat) (x1 y1 x2 y2 : Int)
    (hfuel : max (x2 - x1).natAbs (y2 - y1).natAbs < fuel) :
    ∃ ps : List (Int × Int),
      drawLinePlots fuel x1 y1 x2 y2 = Run.ok ps ∧
      ps.length = max (x2 - x1).natAbs (y2 - y1).natAbs + 1 ∧
      ps[0]? = some (x1, y1) ∧
      ps[max (x2 - x1).natAbs (y2 - y1).natAbs]? = some (x2, y2) ∧
      (∀ i : Nat, i < max (x2 - x1).natAbs (y2 - y1).natAbs →
        ∃ p q : Int × Int, ps[i]? = some p ∧ ps[i + 1]? = some q ∧
          if (y2 - y1).natAbs ≤ (x2 - x1).natAbs then
            (q.1 - p.1).natAbs = 1 ∧ (q.2 - p.2).natAbs ≤ 1
          else (q.2 - p.2).natAbs = 1 ∧ (q.1 - p.1).natAbs ≤ 1) ∧
      ∀ (s : SDL_Surface) (c : Nat),
        drawLine fuel (some s) x1 y1 x2 y2 c =
          ((plotAll (plotPixel c) (some s) ps).bind fun s2 => Run.ok (1, s2)) ∧
        drawLine fuel (some s) x1 y1 x2 y2 c ≠ Run.timeout := by
  have hsurf : ∀ ps : List (Int × Int), drawLinePlots fuel x1 y1 x2 y2 = Run.ok ps →
      ∀ (s : SDL_Surface) (c : Nat),
        drawLine fuel (some s) x1 y1 x2 y2 c =
          ((plotAll (plotPixel c) (some s) ps).bind fun s2 => Run.ok (1, s2)) ∧
        drawLine fuel (some s) x1 y1 x2 y2 c ≠ Run.timeout := by
    intro ps hps s c
    have e : drawLine fuel (some s) x1 y1 x2 y2 c =
        ((plotAll (plotPixel c) (some s) ps).bind fun s2 => Run.ok (1, s2)) := by
      unfold drawLine
      simp only
      rw [drawLineWith_plotAll (plotPixel c) fuel (some s) x1 y1 x2 y2 ps hps]
    refine ⟨e, ?_⟩
    rw [e]
    have hne := plotAll_plotPixel_ne_timeout c ps (some s)
    cases hp : plotAll (plotPixel c) (some s) ps with
    | ok r => exact fun h => Run.noConfusion h
    | fault => exact fun h => Run.noConfusion h
    | timeout => exact absurd hp hne
  by_cases hmaj : (y2 - y1).natAbs ≤ (x2 - x1).natAbs
  · have hmax : max (x2 - x1).natAbs (y2 - y1).natAbs = (x2 - x1).natAbs := max_eq_left hmaj
    rw [hmax] at hfuel ⊢
    have hps := drawLinePlots_xmajor fuel x1 y1 x2 y2 hmaj hfuel
    obtain ⟨f0, fD, fstep⟩ := majorPlots_facts Prod.mk x1 (if x2 - x1 > 0 then 1 else -1) y1
      (if y2 - y1 > 0 then 1 else -1) (x2 - x1).natAbs (y2 - y1).natAbs hmaj
    refine ⟨_, hps, majorPlots_length _ _ _ _ _ _ _, f0, ?_, ?_, hsurf _ hps⟩
    · rw [fD]
      congr 2
      · split <;> omega
      · split <;> omega
    · intro i hi
      obtain ⟨a, b, d, hd, e1, e2⟩ := fstep i hi
      refine ⟨_, _, e1, e2, ?_⟩
      rw [if_pos hmaj]
      exact step_sizes a b _ _ d (sign_natAbs _) (sign_natAbs _) hd
  · have hlt : (x2 - x1).natAbs < (y2 - y1).natAbs := by omega
    have hmax : max (x2 - x1).natAbs (y2 - y1).natAbs = (y2 - y1).natAbs :=
      max_eq_right (by omega)
    rw [hmax] at hfuel ⊢
    have hps := drawLinePlots_ymajor fuel x1 y1 x2 y2 hlt hfuel
    obtain ⟨f0, fD, fstep⟩ := majorPlots_facts (fun a b => (b, a)) y1
      (if y2 - y1 > 0 then 1 else -1) x1 (if x2 - x1 > 0 then 1 else -1) (y2 - y1).natAbs
      (x2 - x1).natAbs (by omega)
    refine ⟨_, hps, majorPlots_length _ _ _ _ _ _ _, f0, ?_, ?_, hsurf _ hps⟩
    · rw [fD]
      congr 2
      · split <;> omega
      · split <;> omega
    · intro i hi
      obtain ⟨a, b, d, hd, e1, e2⟩ := fstep i hi
      refine ⟨_, _, e1, e2, ?_⟩
      rw [if_neg hmaj]
      exact step_sizes a b _ _ d (sign_natAbs _) (sign_natAbs _) hd

/-- C29 for the line from (0, 0) to (5, 2): six positions, from (0, 0) to (5, 2). -/
theorem drawLine_steps_witness :
    ∃ ps : List (Int × Int),
      drawLinePlots 6 0 0 5 2 = Run.ok ps ∧ ps.length = 6 ∧
      ps[0]? = some (0, 0) ∧ ps[5]? = some (5, 2) ∧
      ∀ (s : SDL_Surface) (c : Nat), drawLine 6 (some s) 0 0 5 2 c ≠ Run.timeout := by
  obtain ⟨ps, h1, h2, h3, h4, -, h6⟩ := drawLine_steps 6 0 0 5 2 (by decide)
  exact ⟨ps, h1, h2, h3, h4, fun s c => (h6 s c).2⟩

/-! ## The error term of the circle -/

/-- From a state of the midpoint iteration (`x_change = 1 - 2x`, `y_change = 2y + 1`,
`radius_error = x^2 + y^2 - r^2`, between `-x` and, while `x >= y`, `x`), the recording
run of the loop of `drawCircle` returns, and every position it lists has a squared
distance from the centre within `r` of `r^2`. -/
theorem drawCircleLoop_error (mx my r : Int) (fuel : Nat) :
    ∀ (x y xc yc re : Int), 0 ≤ y → x ≤ r → xc = 1 - 2 * x → yc = 2 * y + 1 →
      re = x * x + y * y - r * r → (x ≥ y → re ≤ x) → -x ≤ re → x + 1 - y < fuel → 0 < fuel →
      ∃ pts : List (Int × Int),
        drawCircleLoop (fun l a b => Run.ok (l ++ [(a, b)])) mx my fuel [] x y xc yc re =
          Run.ok pts ∧
        ∀ p ∈ pts, -r ≤ (p.1 - mx) * (p.1 - mx) + (p.2 - my) * (p.2 - my) - r * r ∧
          (p.1 - mx) * (p.1 - mx) + (p.2 - my) * (p.2 - my) - r * r ≤ r := by
  induction fuel with
  | zero => intro x y xc yc re _ _ _ _ _ _ _ _ h0; omega
  | succ f ih =>
    intro x y xc yc re hy hxr hxc hyc hre hup hlow hfuel _
    by_cases hx : x ≥ y
    · rw [drawCircleLoop_record_step mx my f x y xc yc re hx]
      obtain ⟨pts2, h2, hb2⟩ : ∃ pts2 : List (Int × Int),
          (if 2 * (re + yc) + xc > 0 then
            drawCircleLoop (fun l a b => Run.ok (l ++ [(a, b)])) mx my f [] (x - 1) (y + 1)
              (xc + 2) (yc + 2) (re + yc + xc)
          else
            drawCircleLoop (fun l a b => Run.ok (l ++ [(a, b)])) mx my f [] x (y + 1) xc
              (yc + 2) (re + yc)) = Run.ok pts2 ∧
          ∀ p ∈ pts2, -r ≤ (p.1 - mx) * (p.1 - mx) + (p.2 - my) * (p.2 - my) - r * r ∧
            (p.1 - mx) * (p.1 - mx) + (p.2 - my) * (p.2 - my) - r * r ≤ r := by
        by_cases hd : 2 * (re + yc) + xc > 0
        · rw [if_pos hd]
          exact ih _ _ _ _ _ (by omega) (by omega) (by omega) (by omega)
            (by rw [hre, hyc, hxc]; ring) (by omega) (by omega) (by omega) (by omega)
        · rw [if_neg hd]
          exact ih _ _ _ _ _ (by omega) (by omega) hxc (by omega)
            (by rw [hre, hyc]; ring) (by omega) (by omega) (by omega) (by omega)
      rw [h2, bind_ok_run]
      refine ⟨_, rfl, ?_⟩
      intro p hp
      have hupx := hup hx
      rcases List.mem_append.mp hp with h8 | h
      · have key : (p.1 - mx) * (p.1 - mx) + (p.2 - my) * (p.2 - my) - r * r = re := by
          simp only [List.mem_cons, List.not_mem_nil, or_false] at h8
          rcases h8 with rfl | rfl | rfl | rfl | rfl | rfl | rfl | rfl <;>
            (rw [hre]; ring)
        rw [key]
        constructor <;> omega
      · exact hb2 p h
    · rw [drawCircleLoop, if_neg hx]
      exact ⟨[], rfl, fun p hp => absurd hp (List.not_mem_nil _)⟩

/-- From a state with `x_change = 1 - 2x`, `y_change = 2y + 1` and
`radius_error = x^2 + y^2 - r^2`, every later iteration starts with
`radius_error = x^2 + y^2 - r^2`. -/
theorem drawCircleStates_error (r : Int) (fuel : Nat) :
    ∀ (x y xc yc re : Int), xc = 1 - 2 * x → yc = 2 * y + 1 →
      re = x * x + y * y - r * r → x + 1 - y < fuel → 0 < fuel →
      ∃ sts : List (Int × Int × Int),
        drawCircleStates fuel x y xc yc re = Run.ok sts ∧
        ∀ st ∈ sts, st.2.2 = st.1 * st.1 + st.2.1 * st.2.1 - r * r := by
  induction fuel with
  | zero => intro x y xc yc re _ _ _ _ h0; omega
  | succ f ih =>
    intro x y xc yc re hxc hyc hre hfuel _
    rw [drawCircleStates]
    by_cases hx : x ≥ y
    · rw [if_pos hx]
      obtain ⟨sts2, h2, hb2⟩ : ∃ sts2 : List (Int × Int × Int),
          (if 2 * (re + yc) + xc > 0 then
            drawCircleStates f (x - 1) (y + 1) (xc + 2) (yc + 2) (re + yc + xc)
          else
            drawCircleStates f x (y + 1) xc (yc + 2) (re + yc)) = Run.ok sts2 ∧
          ∀ st ∈ sts2, st.2.2 = st.1 * st.1 + st.2.1 * st.2.1 - r * r := by
        by_cases hd : 2 * (re + yc) + xc > 0
        · rw [if_pos hd]
          exact ih _ _ _ _ _ (by omega) (by omega) (by rw [hre, hyc, hxc]; ring) (by omega)
            (by omega)
        · rw [if_neg hd]
          exact ih _ _ _ _ _ hxc (by omega) (by rw [hre, hyc]; ring) (by omega) (by omega)
      rw [h2, bind_ok_run]
      refine ⟨_, rfl, ?_⟩
      intro st hst
      rcases List.mem_cons.mp hst with rfl | h
      · exact hre
      · exact hb2 st h
    · rw [if_neg hx]
      exact ⟨[], rfl, fun st hst => absurd hst (List.not_mem_nil _)⟩

/-- C30: with more than `radius + 1` loop iterations allowed, the loop of `drawCircle`
terminates, every position `(a, b)` it passes to `pixel` satisfies
`|(a - midx)^2 + (b - midy)^2 - radius^2| <= radius`, and every iteration starts with
`radius_error = x^2 + y^2 - radius^2`. -/
theorem drawCircle_error (midx midy radius fuel : Nat) (hfuel : radius + 1 < fuel) :
    (∃ ps : List (Int × Int),
      drawCirclePlots fuel midx midy radius = Run.ok ps ∧
      ∀ p ∈ ps,
        ((p.1 - (midx : Int)) ^ 2 + (p.2 - (midy : Int)) ^ 2 - (radius : Int) ^ 2).natAbs ≤
          radius) ∧
    ∃ sts : List (Int × Int × Int),
      drawCircleStates fuel radius 0 (1 - 2 * radius) 1 0 = Run.ok sts ∧
      ∀ st ∈ sts, st.2.2 = st.1 ^ 2 + st.2.1 ^ 2 - (radius : Int) ^ 2 := by
  constructor
  · obtain ⟨ps, hps, hb⟩ := drawCircleLoop_error midx midy radius fuel radius 0
      (1 - 2 * radius) 1 0 (le_refl _) (le_refl _) rfl (by norm_num) (by ring) (by omega)
      (by omega) (by omega) (by omega)
    refine ⟨ps, hps, ?_⟩
    intro p hp
    obtain ⟨h1, h2⟩ := hb p hp
    simp only [pow_two]
    omega
  · obtain ⟨sts, hs, hb⟩ := drawCircleStates_error radius fuel radius 0 (1 - 2 * radius) 1 0
      rfl (by norm_num) (by ring) (by omega) (by omega)
    refine ⟨sts, hs, ?_⟩
    intro st hst
    simp only [pow_two]
    exact hb st hst

/-- C30 for the circle of radius 3 around (5, 5): the twenty-four `pixel` calls, all with
a squared distance from the centre between 6 and 12, and the three iterations. -/
theorem drawCircle_error_witness :
    (∃ ps : List (Int × Int),
      drawCirclePlots 5 5 5 3 = Run.ok ps ∧
      ∀ p ∈ ps, ((p.1 - 5) ^ 2 + (p.2 - 5) ^ 2 - 3 ^ 2).natAbs ≤ 3) ∧
    ∃ sts : List (Int × Int × Int),
      drawCircleStates 5 3 0 (1 - 2 * 3) 1 0 = Run.ok sts ∧
      ∀ st ∈ sts, st.2.2 = st.1 ^ 2 + st.2.1 ^ 2 - 3 ^ 2 :=
  drawCircle_error 5 5 3 5 (by decide)

end SDLGraphApi
